import Mathlib

/-!
A model of the `m61` debugging allocator (pset1/m61.cc)

The allocator keeps three process-wide tables: the ledger `active` (an
`unordered_map` from base address to `alloc_info`), the set `freed_bases`
(an `unordered_set`), and the counters `gstats`.  The model threads them
through every entry point as an explicit `State`, together with the byte
memory that carries the canary fences.

* addresses and sizes are natural numbers; every C++ operation on `size_t`,
  `uintptr_t` or `unsigned long long` is reduced modulo `2^64` where the
  source performs it;
* `base_malloc` is an external routine: each call site receives it as an
  oracle `bm : Nat → Nat` (request size to returned address, `0` = `nullptr`);
* every externally visible action (a call of `base_malloc`/`base_free`, a
  line printed with `printf`/`fprintf`) is appended to a trace of `Event`s;
* an `unordered_map`/`unordered_set` is a list in iteration order; the
  iteration order of the real container is unspecified, the model inserts
  new entries at the front.
-/

namespace M61

/-! ## Machine constants -/

/-- The modulus of 64-bit unsigned arithmetic. -/
def WORD : Nat := 2 ^ 64

/-- The value of `std::numeric_limits<size_t>::max()`. -/
def SIZE_MAX : Nat := 2 ^ 64 - 1

/-- The constant `M61_CANARY_SIZE` of m61.cc. -/
def M61_CANARY_SIZE : Nat := 16

/-- The constant `M61_CANARY_BYTE` of m61.cc (0xA5). -/
def M61_CANARY_BYTE : Nat := 165

/-! ## Data model -/

/-- The struct `alloc_info` of m61.cc. -/
structure alloc_info where
  size : Nat
  file : String
  line : Int
  deriving DecidableEq, Repr

/-- Modelled from the spec: the struct `m61_statistics` is declared in m61.hh,
which is not among the sources; its eight fields are those initialised by
`gstats` in m61.cc, all of them 64-bit unsigned. -/
structure m61_statistics where
  nactive : Nat
  active_size : Nat
  ntotal : Nat
  total_size : Nat
  nfail : Nat
  fail_size : Nat
  heap_min : Nat
  heap_max : Nat
  deriving DecidableEq, Repr

/-- One argument of a `printf`-style call. -/
inductive Arg where
  | str (s : String)
  | long (n : Int)
  | ptr (p : Nat)
  | zu (n : Nat)
  deriving DecidableEq, Repr

/-- The externally visible actions of the allocator. -/
inductive Event where
  | base_malloc (sz : Nat)
  | base_free (p : Nat)
  | fprintf_stderr (fmt : String) (args : List Arg)
  | printf (fmt : String) (args : List Arg)
  deriving DecidableEq, Repr

/-- The global variables of m61.cc and the byte memory. -/
structure State where
  active : List (Nat × alloc_info)
  freed_bases : List Nat
  gstats : m61_statistics
  mem : Nat → Nat

/-- The initial values of the globals (`gstats` is all zero, both containers
are empty); the memory content is arbitrary. -/
def State.init (mem : Nat → Nat) : State :=
  { active := [], freed_bases := [],
    gstats := { nactive := 0, active_size := 0, ntotal := 0, total_size := 0,
                nfail := 0, fail_size := 0, heap_min := 0, heap_max := 0 },
    mem := mem }

/-! ## Containers -/

/-- The call `active.find(k)`: the record stored under key `k`, if any. -/
def map_find (m : List (Nat × alloc_info)) (k : Nat) : Option alloc_info :=
  match m with
  | [] => none
  | (k', v) :: rest => if k' = k then some v else map_find rest k

/-- The assignment `active[k] = v`: overwrite the record under `k` if the key
is present, insert a new entry otherwise. -/
def map_assign (m : List (Nat × alloc_info)) (k : Nat) (v : alloc_info) :
    List (Nat × alloc_info) :=
  match map_find m k with
  | some _ => m.map (fun kv => if kv.1 = k then (k, v) else kv)
  | none => (k, v) :: m

/-- The call `active.erase(it)` for the iterator of key `k`. -/
def map_erase (m : List (Nat × alloc_info)) (k : Nat) : List (Nat × alloc_info) :=
  m.filter (fun kv => decide (kv.1 ≠ k))

/-- The call `freed_bases.insert(k)`. -/
def set_insert (s : List Nat) (k : Nat) : List Nat :=
  if k ∈ s then s else k :: s

/-- The call `freed_bases.erase(k)`. -/
def set_erase (s : List Nat) (k : Nat) : List Nat :=
  s.filter (fun x => decide (x ≠ k))

/-! ## Memory -/

/-- The call `std::memset(dst, byte, n)`. -/
def memset (mem : Nat → Nat) (dst byte n : Nat) : Nat → Nat :=
  fun x => if dst ≤ x ∧ x < dst + n then byte else mem x

/-- The fence loop of `m61_free`: the flag `fence_ok` stays true exactly when
`fence[i] == M61_CANARY_BYTE` for every `i < M61_CANARY_SIZE`. -/
def fence_ok (mem : Nat → Nat) (fence : Nat) : Bool :=
  (List.range M61_CANARY_SIZE).all (fun i => decide (mem (fence + i) = M61_CANARY_BYTE))

/-- Subtraction of 64-bit unsigned values (`a -= b`). -/
def sub64 (a b : Nat) : Nat := (a + (WORD - b % WORD)) % WORD

/-! ## Format strings of the diagnostics -/

def FMT_NOT_IN_HEAP : String :=
  "MEMORY BUG: %s:%ld: invalid free of pointer %p, not in heap\n"

def FMT_DOUBLE_FREE : String :=
  "MEMORY BUG: %s:%ld: invalid free of pointer %p, double free\n"

def FMT_WILD_WRITE : String :=
  "MEMORY BUG???: detected wild write during free of pointer %p\n"

def FMT_NOT_ALLOCATED : String :=
  "MEMORY BUG: %s:%ld: invalid free of pointer %p, not allocated\n"

def FMT_INSIDE : String :=
  "  %s:%ld: %p is %zu bytes inside a %zu byte region allocated here\n"

def FMT_NOT_ALLOCATED_UNKNOWN : String :=
  "MEMORY BUG???: invalid free of pointer %p, not allocated\n"

def FMT_LEAK : String :=
  "LEAK CHECK: %s:%ld: allocated object %p with size %zu\n"

/-! ## The entry points -/

/-- The function `update_heap_bounds(p, sz)`: the two conditional assignments
write different fields, and the second test reads `heap_max` only. -/
def update_heap_bounds (g : m61_statistics) (p sz : Nat) : m61_statistics :=
  if p = 0 ∨ sz = 0 then g
  else
    let lo := p
    let hi := (lo + (sz - 1)) % WORD
    { g with
        heap_min := if g.heap_min = 0 ∨ lo < g.heap_min then lo else g.heap_min,
        heap_max := if hi > g.heap_max then hi else g.heap_max }

/-- The failure bookkeeping shared by both failure paths of `m61_malloc`:
`nfail += 1; fail_size += user_sz`. -/
def record_failure (g : m61_statistics) (amount : Nat) : m61_statistics :=
  { g with nfail := (g.nfail + 1) % WORD, fail_size := (g.fail_size + amount) % WORD }

/-- The function `m61_malloc(sz, file, line)`; the result is the new state, the
returned pointer and the trace of the call. -/
def m61_malloc (bm : Nat → Nat) (s : State) (sz : Nat) (file : String) (line : Int) :
    State × Nat × List Event :=
  let user_sz := sz
  let alloc_sz := if user_sz = 0 then 1 else user_sz
  if alloc_sz > SIZE_MAX - M61_CANARY_SIZE then
    ({ s with gstats := record_failure s.gstats user_sz }, 0, [])
  else
    let real_sz := (alloc_sz + M61_CANARY_SIZE) % WORD
    let p := bm real_sz
    if p ≠ 0 then
      let fence := p + user_sz
      let mem1 := memset s.mem fence M61_CANARY_BYTE M61_CANARY_SIZE
      let active1 := map_assign s.active p { size := user_sz, file := file, line := line }
      let g1 : m61_statistics :=
        { s.gstats with
            active_size := (s.gstats.active_size + user_sz) % WORD,
            ntotal := (s.gstats.ntotal + 1) % WORD,
            nactive := (s.gstats.nactive + 1) % WORD,
            total_size := (s.gstats.total_size + user_sz) % WORD }
      ({ active := active1, freed_bases := set_erase s.freed_bases p,
         gstats := update_heap_bounds g1 p user_sz, mem := mem1 },
       p, [Event.base_malloc real_sz])
    else
      ({ s with gstats := record_failure s.gstats user_sz }, p, [Event.base_malloc real_sz])

/-- The loop of step 5 of `m61_free`: the first ledger entry, in iteration
order, of non-zero size whose user range contains `a`. -/
def interior_scan (a : Nat) : List (Nat × alloc_info) → Option (Nat × alloc_info)
  | [] => none
  | (base, ai) :: rest =>
    if ai.size > 0 then
      let last := (base + (ai.size - 1)) % WORD
      if a ≥ base ∧ a ≤ last then some (base, ai) else interior_scan a rest
    else interior_scan a rest

/-- The function `m61_free(ptr, file, line)`; the result is the new state and
the trace of the call. -/
def m61_free (s : State) (ptr : Nat) (file : String) (line : Int) : State × List Event :=
  if ptr = 0 then (s, [])
  else
    let a := ptr
    if s.gstats.heap_min = 0 ∨ a < s.gstats.heap_min ∨ a > s.gstats.heap_max then
      (s, [Event.fprintf_stderr FMT_NOT_IN_HEAP [Arg.str file, Arg.long line, Arg.ptr ptr]])
    else if ptr ∈ s.freed_bases then
      (s, [Event.fprintf_stderr FMT_DOUBLE_FREE [Arg.str file, Arg.long line, Arg.ptr ptr]])
    else
      match map_find s.active ptr with
      | some info =>
        let user_sz := info.size
        let fence := ptr + user_sz
        let report :=
          if fence_ok s.mem fence then []
          else [Event.fprintf_stderr FMT_WILD_WRITE [Arg.ptr ptr]]
        let g1 : m61_statistics :=
          { s.gstats with active_size := sub64 s.gstats.active_size user_sz }
        let g2 : m61_statistics :=
          if g1.nactive > 0 then { g1 with nactive := g1.nactive - 1 } else g1
        ({ s with active := map_erase s.active ptr,
                  freed_bases := set_insert s.freed_bases ptr,
                  gstats := g2 },
         report ++ [Event.base_free ptr])
      | none =>
        match interior_scan a s.active with
        | some (base, ai) =>
          let offset := a - base
          (s, [Event.fprintf_stderr FMT_NOT_ALLOCATED [Arg.str file, Arg.long line, Arg.ptr ptr],
               Event.fprintf_stderr FMT_INSIDE
                 [Arg.str ai.file, Arg.long ai.line, Arg.ptr ptr, Arg.zu offset, Arg.zu ai.size]])
        | none =>
          (s, [Event.fprintf_stderr FMT_NOT_ALLOCATED_UNKNOWN [Arg.ptr ptr]])

/-- The function `m61_calloc(nmemb, sz, file, line)`. -/
def m61_calloc (bm : Nat → Nat) (s : State) (nmemb sz : Nat) (file : String) (line : Int) :
    State × Nat × List Event :=
  if sz ≠ 0 ∧ nmemb > SIZE_MAX / sz then
    ({ s with gstats :=
        { s.gstats with
            nfail := (s.gstats.nfail + 1) % WORD,
            fail_size := (s.gstats.fail_size + (nmemb * sz) % WORD) % WORD } }, 0, [])
  else
    let total := (nmemb * sz) % WORD
    let r := m61_malloc bm s total file line
    let p := r.2.1
    if p ≠ 0 ∧ total ≠ 0 then
      ({ r.1 with mem := memset r.1.mem p 0 total }, p, r.2.2)
    else r

/-- The function `m61_get_statistics`: a copy of `gstats`. -/
def m61_get_statistics (s : State) : m61_statistics := s.gstats

/-- The function `m61_print_leak_report`: one line per ledger entry. -/
def m61_print_leak_report (s : State) : List Event :=
  s.active.map (fun kv =>
    Event.printf FMT_LEAK [Arg.str kv.2.file, Arg.long kv.2.line, Arg.ptr kv.1, Arg.zu kv.2.size])

/-! ## Executions -/

/-- One call made by the application: an allocator entry point together with
the behaviour of `base_malloc` during that call, or a byte written to memory. -/
inductive Op where
  | malloc (sz : Nat) (file : String) (line : Int) (bm : Nat → Nat)
  | calloc (nmemb sz : Nat) (file : String) (line : Int) (bm : Nat → Nat)
  | free (ptr : Nat) (file : String) (line : Int)
  | store (addr byte : Nat)

/-- The effect of one call on the state, and its trace. -/
def step (s : State) : Op → State × List Event
  | Op.malloc sz file line bm => ((m61_malloc bm s sz file line).1, (m61_malloc bm s sz file line).2.2)
  | Op.calloc nmemb sz file line bm =>
    ((m61_calloc bm s nmemb sz file line).1, (m61_calloc bm s nmemb sz file line).2.2)
  | Op.free ptr file line => m61_free s ptr file line
  | Op.store addr byte => ({ s with mem := fun x => if x = addr then byte else s.mem x }, [])

/-- The effect of a sequence of calls, with the concatenated trace. -/
def run (s : State) : List Op → State × List Event
  | [] => (s, [])
  | op :: ops => ((run (step s op).1 ops).1, (step s op).2 ++ (run (step s op).1 ops).2)

/-- The number of bytes `m61_malloc` requests from `base_malloc` for a user
size `sz` (when the request is made at all). -/
def raw_size (sz : Nat) : Nat := (if sz = 0 then 1 else sz) + M61_CANARY_SIZE

/-- The user size and the oracle with which a call reaches `base_malloc`, if
it does. -/
def Op.request : Op → Option (Nat × (Nat → Nat))
  | Op.malloc sz _ _ bm => if raw_size sz ≤ SIZE_MAX then some (sz, bm) else none
  | Op.calloc nmemb sz _ _ bm =>
    if sz ≠ 0 ∧ nmemb > SIZE_MAX / sz then none
    else if raw_size ((nmemb * sz) % WORD) ≤ SIZE_MAX then some ((nmemb * sz) % WORD, bm)
    else none
  | _ => none

/-- The number of validated releases recorded in a trace (calls of
`base_free`). -/
def releases (t : List Event) : Nat :=
  (t.filter (fun e => match e with | Event.base_free _ => true | _ => false)).length

/-- The state after a successful `m61_malloc` that obtained address `p`. -/
def malloc_success_state (s : State) (p sz : Nat) (file : String) (line : Int) : State :=
  { active := map_assign s.active p { size := sz, file := file, line := line },
    freed_bases := set_erase s.freed_bases p,
    gstats := update_heap_bounds
      { s.gstats with
          active_size := (s.gstats.active_size + sz) % WORD,
          ntotal := (s.gstats.ntotal + 1) % WORD,
          nactive := (s.gstats.nactive + 1) % WORD,
          total_size := (s.gstats.total_size + sz) % WORD } p sz,
    mem := memset s.mem (p + sz) M61_CANARY_BYTE M61_CANARY_SIZE }

/-- The heap-membership test of step 2 of `m61_free`. -/
def not_in_heap (s : State) (a : Nat) : Prop :=
  s.gstats.heap_min = 0 ∨ a < s.gstats.heap_min ∨ a > s.gstats.heap_max

instance (s : State) (a : Nat) : Decidable (not_in_heap s a) := by
  unfold not_in_heap; infer_instance

/-- The state after the bookkeeping of a validated release of `ptr`, whose
record has size `user_sz`. -/
def release_state (s : State) (ptr user_sz : Nat) : State :=
  { s with
      active := map_erase s.active ptr,
      freed_bases := set_insert s.freed_bases ptr,
      gstats :=
        if s.gstats.nactive > 0 then
          { s.gstats with active_size := sub64 s.gstats.active_size user_sz,
                          nactive := s.gstats.nactive - 1 }
        else { s.gstats with active_size := sub64 s.gstats.active_size user_sz } }

/-- The four "invalid free" diagnostics of `m61_free` (first lines). -/
def is_invalid_free_report : Event → Bool
  | Event.fprintf_stderr fmt _ =>
    decide (fmt = FMT_NOT_IN_HEAP) || decide (fmt = FMT_DOUBLE_FREE) ||
    decide (fmt = FMT_NOT_ALLOCATED) || decide (fmt = FMT_NOT_ALLOCATED_UNKNOWN)
  | _ => false

/-- The trace entries that are calls of `base_free`. -/
def is_base_free : Event → Bool
  | Event.base_free _ => true
  | _ => false

/-- The trace entries that are calls of `base_malloc`. -/
def is_base_malloc : Event → Bool
  | Event.base_malloc _ => true
  | _ => false

/-! ## Assumptions on the raw allocator and invariants -/

/-- The sum of the user sizes of the ledger records. -/
def sum_sizes (m : List (Nat × alloc_info)) : Nat :=
  (m.map (fun kv => kv.2.size)).sum

/-- The raw block `[p, p + n)` does not meet the raw block of the ledger
record `kv` (its user bytes and its fence). -/
def raw_disjoint (p n : Nat) (kv : Nat × alloc_info) : Prop :=
  p + n ≤ kv.1 ∨ kv.1 + raw_size kv.2.size ≤ p

instance (p n : Nat) (kv : Nat × alloc_info) : Decidable (raw_disjoint p n kv) :=
  inferInstanceAs (Decidable (p + n ≤ kv.1 ∨ kv.1 + raw_size kv.2.size ≤ p))

/-- Assumption on `base_malloc` during one call: the answer is a 64-bit
address, and it is null or not a key of the ledger at the time of the call. -/
def fresh_key (s : State) (op : Op) : Bool :=
  match op.request with
  | some (sz, bm) =>
    decide (bm (raw_size sz) < WORD) &&
    (decide (bm (raw_size sz) = 0) || (map_find s.active (bm (raw_size sz))).isNone)
  | none => true

/-- Assumption on `base_malloc` during one call: the answer is null, or the
raw block it designates lies in the 64-bit address space and is disjoint from
the raw block of every live allocation. -/
def well_behaved (s : State) (op : Op) : Bool :=
  match op.request with
  | some (sz, bm) =>
    decide (bm (raw_size sz) = 0) ||
    (decide (bm (raw_size sz) + raw_size sz ≤ WORD) &&
     s.active.all (fun kv => decide (raw_disjoint (bm (raw_size sz)) (raw_size sz) kv)))
  | none => true

/-- The assumption `ok` holds at every call of the sequence `ops` started in
state `s`. -/
def admissible (ok : State → Op → Bool) : State → List Op → Bool
  | _, [] => true
  | s, op :: ops => ok s op && admissible ok (step s op).1 ops

/-! ## The three kinds of step -/

/-- A step that changes neither container and no statistic other than the
failure counters. -/
def neutral_step (s t : State) : Prop :=
  t.active = s.active ∧ t.freed_bases = s.freed_bases ∧
  ∃ nf fs, t.gstats = { s.gstats with nfail := nf, fail_size := fs }

/-- Invariant of the freed-address set: every member is a non-null address
that passes the heap-membership test of `m61_free`. -/
def freed_in_heap (s : State) : Prop :=
  ∀ a ∈ s.freed_bases, a ≠ 0 ∧ ¬ not_in_heap s a

/-- Representation invariant of the ledger: the keys are pairwise different,
non-null 64-bit addresses. -/
def keys_ok (s : State) : Prop :=
  (s.active.map Prod.fst).Nodup ∧ ∀ kv ∈ s.active, kv.1 ≠ 0 ∧ kv.1 < WORD

/-- The statistics invariant, after `k` validated releases in `n` calls. -/
def counters_ok (s : State) (k n : Nat) : Prop :=
  keys_ok s ∧
  s.gstats.nactive = s.active.length ∧
  s.gstats.ntotal = (s.active.length + k) % WORD ∧
  s.gstats.active_size = sum_sizes s.active % WORD ∧
  s.active.length + k ≤ n

/-- Invariant of the state under a well-behaved raw allocator: the raw blocks
of the ledger records are pairwise disjoint, non-null and inside the address
space; every record of non-zero size lies within the heap bounds; `nactive`
and `active_size` are the number and the total size of the records. -/
def blocks_ok (s : State) : Prop :=
  s.active.Pairwise (fun a b => raw_disjoint a.1 (raw_size a.2.size) b) ∧
  (∀ kv ∈ s.active, kv.1 ≠ 0 ∧ kv.1 + raw_size kv.2.size ≤ WORD) ∧
  (∀ kv ∈ s.active, 1 ≤ kv.2.size →
    s.gstats.heap_min ≠ 0 ∧ s.gstats.heap_min ≤ kv.1 ∧
    kv.1 + kv.2.size - 1 ≤ s.gstats.heap_max) ∧
  s.gstats.nactive = s.active.length ∧
  s.gstats.active_size = sum_sizes s.active

/-- Invariant of the two containers: no member of the freed-address set is a
key of the ledger. -/
def freed_not_live (s : State) : Prop :=
  ∀ a ∈ s.freed_bases, map_find s.active a = none

/-- The size a call asks for: `sz` for `m61_malloc`, the product as a 64-bit
value for `m61_calloc`, nothing for the other calls. -/
def Op.size : Op → Nat
  | Op.malloc sz _ _ _ => sz
  | Op.calloc nmemb sz _ _ _ => (nmemb * sz) % WORD
  | _ => 0

/-- The call site `(file, line)` passed to a call. -/
def Op.site : Op → String × Int
  | Op.malloc _ file line _ => (file, line)
  | Op.calloc _ _ file line _ => (file, line)
  | Op.free _ file line => (file, line)
  | Op.store _ _ => ("", 0)

/-- The outcome of a call that is a successful allocation: the address
answered by `base_malloc` together with the size and the site passed to the
call.  Whether an allocation succeeds depends on the call alone. -/
def Op.entry (op : Op) : Option (Nat × alloc_info) :=
  match op.request with
  | some (sz, bm) =>
    if bm (raw_size sz) ≠ 0 then
      some (bm (raw_size sz), { size := sz, file := op.site.1, line := op.site.2 })
    else none
  | none => none

/-- The bookkeeping of the allocations "that succeeded and have not been
released by a validated free" across one call, in the words of the leak-report
property: the entries whose address the call passes to `base_free` are dropped,
the entry of a successful allocation is added. -/
def outstanding_after (s : State) (acc : List (Nat × alloc_info)) (op : Op) :
    List (Nat × alloc_info) :=
  (match op.entry with
   | some e => [e]
   | none => []) ++
  acc.filter (fun e => decide (Event.base_free e.1 ∉ (step s op).2))

/-- The successful allocations of a run, started in state `s` with the
outstanding allocations `acc`, that have not been released by a validated free
since. -/
def outstanding : State → List (Nat × alloc_info) → List Op → List (Nat × alloc_info)
  | _, acc, [] => acc
  | s, acc, op :: ops => outstanding (step s op).1 (outstanding_after s acc op) ops

/-- The line of the leak report for one allocation (the `printf` call of
`m61_print_leak_report`). -/
def leak_line (e : Nat × alloc_info) : Event :=
  Event.printf FMT_LEAK [Arg.str e.2.file, Arg.long e.2.line, Arg.ptr e.1, Arg.zu e.2.size]

/-- Assumption on `base_malloc` during one call: the answer is null, or the
raw block it designates lies inside the 64-bit address space. -/
def in_address_space (_s : State) (op : Op) : Bool :=
  match op.request with
  | some (sz, bm) =>
    decide (bm (raw_size sz) = 0) || decide (bm (raw_size sz) + raw_size sz ≤ WORD)
  | none => true

/-- Invariant of the ledger and the heap bounds: no key is null, and every
record of non-zero size lies within `[heap_min, heap_max]`, `heap_min` being
set. -/
def live_in_heap (s : State) : Prop :=
  ∀ kv ∈ s.active, kv.1 ≠ 0 ∧ (1 ≤ kv.2.size →
    s.gstats.heap_min ≠ 0 ∧ s.gstats.heap_min ≤ kv.1 ∧
    kv.1 + kv.2.size - 1 ≤ s.gstats.heap_max)

/-- The test of the loop of step 5 of `m61_free` on one ledger entry:
`sz > 0 && a >= base && a <= last`. -/
def scan_test (a : Nat) (r : Nat × alloc_info) : Prop :=
  0 < r.2.size ∧ r.1 ≤ a ∧ a ≤ (r.1 + (r.2.size - 1)) % WORD

/-- The interior scan as the specification words it (step 5): the first
ledger entry with `base < address <= base + size - 1`. -/
def interior_scan_strict (a : Nat) : List (Nat × alloc_info) → Option (Nat × alloc_info)
  | [] => none
  | (base, ai) :: rest =>
    if base < a ∧ a ≤ base + ai.size - 1 then some (base, ai)
    else interior_scan_strict a rest

/-- The function `m61_free(ptr, file, line)` statement by statement: every
action of the trace is paired with the value of the globals at the moment the
action is performed.  In step 4 the statements are taken in the order of the
source (m61.cc lines 140-144): `gstats.active_size -= user_sz`,
`active.erase(it)`, `if (gstats.nactive > 0) --gstats.nactive`,
`freed_bases.insert(ptr)`, and last `base_free(ptr)`. -/
def m61_free_timed (s : State) (ptr : Nat) (file : String) (line : Int) :
    State × List (Event × State) :=
  if ptr = 0 then (s, [])
  else
    let a := ptr
    if s.gstats.heap_min = 0 ∨ a < s.gstats.heap_min ∨ a > s.gstats.heap_max then
      (s, [(Event.fprintf_stderr FMT_NOT_IN_HEAP [Arg.str file, Arg.long line, Arg.ptr ptr], s)])
    else if ptr ∈ s.freed_bases then
      (s, [(Event.fprintf_stderr FMT_DOUBLE_FREE [Arg.str file, Arg.long line, Arg.ptr ptr], s)])
    else
      match map_find s.active ptr with
      | some info =>
        let user_sz := info.size
        let fence := ptr + user_sz
        let report :=
          if fence_ok s.mem fence then []
          else [(Event.fprintf_stderr FMT_WILD_WRITE [Arg.ptr ptr], s)]
        let s1 : State :=
          { s with gstats := { s.gstats with active_size := sub64 s.gstats.active_size user_sz } }
        let s2 : State := { s1 with active := map_erase s1.active ptr }
        let s3 : State :=
          if s2.gstats.nactive > 0 then
            { s2 with gstats := { s2.gstats with nactive := s2.gstats.nactive - 1 } }
          else s2
        let s4 : State := { s3 with freed_bases := set_insert s3.freed_bases ptr }
        (s4, report ++ [(Event.base_free ptr, s4)])
      | none =>
        match interior_scan a s.active with
        | some (base, ai) =>
          let offset := a - base
          (s, [(Event.fprintf_stderr FMT_NOT_ALLOCATED
                  [Arg.str file, Arg.long line, Arg.ptr ptr], s),
               (Event.fprintf_stderr FMT_INSIDE
                  [Arg.str ai.file, Arg.long ai.line, Arg.ptr ptr, Arg.zu offset, Arg.zu ai.size],
                s)])
        | none =>
          (s, [(Event.fprintf_stderr FMT_NOT_ALLOCATED_UNKNOWN [Arg.ptr ptr], s)])

/-! # Properties of the model -/

/-! ## The paths of `m61_malloc` -/

theorem malloc_guard_iff (sz : Nat) :
    (if sz = 0 then 1 else sz) > SIZE_MAX - M61_CANARY_SIZE ↔ SIZE_MAX < raw_size sz := by
  unfold raw_size SIZE_MAX M61_CANARY_SIZE
  split_ifs with h <;> omega

theorem raw_size_eq (sz : Nat) : raw_size sz = max sz 1 + M61_CANARY_SIZE := by
  unfold raw_size
  split_ifs with h
  · subst h; rfl
  · have : max sz 1 = sz := by omega
    rw [this]

theorem raw_size_mod (sz : Nat) (h : raw_size sz ≤ SIZE_MAX) :
    ((if sz = 0 then 1 else sz) + M61_CANARY_SIZE) % WORD = raw_size sz := by
  unfold raw_size at h ⊢
  apply Nat.mod_eq_of_lt
  unfold SIZE_MAX at h; unfold WORD; omega

theorem m61_malloc_of_overflow (bm : Nat → Nat) (s : State) (sz : Nat) (file : String)
    (line : Int) (h : SIZE_MAX < raw_size sz) :
    m61_malloc bm s sz file line = ({ s with gstats := record_failure s.gstats sz }, 0, []) := by
  have hg := (malloc_guard_iff sz).2 h
  unfold m61_malloc
  simp only [hg, if_true]

theorem m61_malloc_of_null (bm : Nat → Nat) (s : State) (sz : Nat) (file : String)
    (line : Int) (h : raw_size sz ≤ SIZE_MAX) (hp : bm (raw_size sz) = 0) :
    m61_malloc bm s sz file line =
      ({ s with gstats := record_failure s.gstats sz }, 0, [Event.base_malloc (raw_size sz)]) := by
  have hg : ¬ ((if sz = 0 then 1 else sz) > SIZE_MAX - M61_CANARY_SIZE) := by
    rw [malloc_guard_iff]; omega
  unfold m61_malloc
  simp only [hg, if_false, raw_size_mod sz h, hp, ne_eq, not_true_eq_false]

theorem m61_malloc_of_success (bm : Nat → Nat) (s : State) (sz : Nat) (file : String)
    (line : Int) (h : raw_size sz ≤ SIZE_MAX) (hp : bm (raw_size sz) ≠ 0) :
    m61_malloc bm s sz file line =
      (malloc_success_state s (bm (raw_size sz)) sz file line, bm (raw_size sz),
       [Event.base_malloc (raw_size sz)]) := by
  have hg : ¬ ((if sz = 0 then 1 else sz) > SIZE_MAX - M61_CANARY_SIZE) := by
    rw [malloc_guard_iff]; omega
  unfold m61_malloc malloc_success_state
  simp only [hg, if_false, raw_size_mod sz h, hp, ne_eq, not_false_eq_true, if_true]

/-- A call of `m61_malloc` that returns a non-null pointer took the success
path. -/
theorem m61_malloc_nonnull (bm : Nat → Nat) (s : State) (sz : Nat) (file : String)
    (line : Int) (hp : (m61_malloc bm s sz file line).2.1 ≠ 0) :
    raw_size sz ≤ SIZE_MAX ∧ bm (raw_size sz) ≠ 0 := by
  by_cases h : raw_size sz ≤ SIZE_MAX
  · refine ⟨h, ?_⟩
    intro h0
    rw [m61_malloc_of_null bm s sz file line h h0] at hp
    exact hp rfl
  · rw [m61_malloc_of_overflow bm s sz file line (by omega)] at hp
    exact absurd rfl hp

/-! ## The paths of `m61_free` -/

theorem m61_free_null (s : State) (file : String) (line : Int) :
    m61_free s 0 file line = (s, []) := by
  unfold m61_free; simp

theorem m61_free_of_not_in_heap (s : State) (ptr : Nat) (file : String) (line : Int)
    (h0 : ptr ≠ 0) (h : not_in_heap s ptr) :
    m61_free s ptr file line =
      (s, [Event.fprintf_stderr FMT_NOT_IN_HEAP [Arg.str file, Arg.long line, Arg.ptr ptr]]) := by
  unfold not_in_heap at h
  unfold m61_free
  simp only [h0, if_false, h, if_true]

theorem m61_free_of_freed (s : State) (ptr : Nat) (file : String) (line : Int)
    (h0 : ptr ≠ 0) (h : ¬ not_in_heap s ptr) (hf : ptr ∈ s.freed_bases) :
    m61_free s ptr file line =
      (s, [Event.fprintf_stderr FMT_DOUBLE_FREE [Arg.str file, Arg.long line, Arg.ptr ptr]]) := by
  unfold not_in_heap at h
  unfold m61_free
  simp only [h0, if_false, h, hf, if_true]

theorem m61_free_of_live (s : State) (ptr : Nat) (file : String) (line : Int) (info : alloc_info)
    (h0 : ptr ≠ 0) (h : ¬ not_in_heap s ptr) (hf : ptr ∉ s.freed_bases)
    (hm : map_find s.active ptr = some info) :
    m61_free s ptr file line =
      (release_state s ptr info.size,
       (if fence_ok s.mem (ptr + info.size) then []
        else [Event.fprintf_stderr FMT_WILD_WRITE [Arg.ptr ptr]]) ++ [Event.base_free ptr]) := by
  unfold not_in_heap at h
  unfold m61_free release_state
  simp only [h0, if_false, h, hf, hm]

theorem m61_free_of_interior (s : State) (ptr : Nat) (file : String) (line : Int)
    (base : Nat) (ai : alloc_info)
    (h0 : ptr ≠ 0) (h : ¬ not_in_heap s ptr) (hf : ptr ∉ s.freed_bases)
    (hm : map_find s.active ptr = none) (hi : interior_scan ptr s.active = some (base, ai)) :
    m61_free s ptr file line =
      (s, [Event.fprintf_stderr FMT_NOT_ALLOCATED [Arg.str file, Arg.long line, Arg.ptr ptr],
           Event.fprintf_stderr FMT_INSIDE
             [Arg.str ai.file, Arg.long ai.line, Arg.ptr ptr, Arg.zu (ptr - base),
              Arg.zu ai.size]]) := by
  unfold not_in_heap at h
  unfold m61_free
  simp only [h0, if_false, h, hf, hm, hi]

theorem m61_free_of_unknown (s : State) (ptr : Nat) (file : String) (line : Int)
    (h0 : ptr ≠ 0) (h : ¬ not_in_heap s ptr) (hf : ptr ∉ s.freed_bases)
    (hm : map_find s.active ptr = none) (hi : interior_scan ptr s.active = none) :
    m61_free s ptr file line =
      (s, [Event.fprintf_stderr FMT_NOT_ALLOCATED_UNKNOWN [Arg.ptr ptr]]) := by
  unfold not_in_heap at h
  unfold m61_free
  simp only [h0, if_false, h, hf, hm, hi]

/-! ## Heap bounds after one update -/

theorem update_heap_bounds_covers (g : m61_statistics) (p sz : Nat)
    (hp : p ≠ 0) (hs : 1 ≤ sz) (hw : p + sz - 1 < WORD) :
    (update_heap_bounds g p sz).heap_min ≠ 0 ∧
    (update_heap_bounds g p sz).heap_min ≤ p ∧
    p + sz - 1 ≤ (update_heap_bounds g p sz).heap_max := by
  have hmod : (p + (sz - 1)) % WORD = p + sz - 1 := by
    rw [Nat.mod_eq_of_lt (by omega)]; omega
  have hc : ¬ (p = 0 ∨ sz = 0) := by omega
  simp only [update_heap_bounds, hc, if_false, hmod]
  split_ifs <;> omega

/-- C1: a successful `m61_malloc(sz)` with `sz >= 1` whose block `[A, A+sz-1]`
does not wrap leaves `heap_min <= A` and `A + sz - 1 <= heap_max`, from every
state (reachable or not). -/
theorem m61_malloc_range_in_heap_bounds (bm : Nat → Nat) (s : State) (sz : Nat)
    (file : String) (line : Int) (hs : 1 ≤ sz)
    (hp : (m61_malloc bm s sz file line).2.1 ≠ 0)
    (hw : (m61_malloc bm s sz file line).2.1 + sz - 1 < WORD) :
    (m61_malloc bm s sz file line).1.gstats.heap_min ≤ (m61_malloc bm s sz file line).2.1 ∧
    (m61_malloc bm s sz file line).2.1 + sz - 1 ≤
      (m61_malloc bm s sz file line).1.gstats.heap_max := by
  obtain ⟨h1, h2⟩ := m61_malloc_nonnull bm s sz file line hp
  rw [m61_malloc_of_success bm s sz file line h1 h2] at hw ⊢
  simp only [malloc_success_state]
  exact (update_heap_bounds_covers _ _ _ h2 hs hw).2

/-- Witness for C1: `malloc(6291456)` answered with address 4096 in the
initial state. -/
theorem m61_malloc_range_in_heap_bounds_witness :
    (m61_malloc (fun _ => 4096) (State.init (fun _ => 0)) 6291456 "test29a.cc" 10).1.gstats.heap_min
        ≤ (m61_malloc (fun _ => 4096) (State.init (fun _ => 0)) 6291456 "test29a.cc" 10).2.1 ∧
    (m61_malloc (fun _ => 4096) (State.init (fun _ => 0)) 6291456 "test29a.cc" 10).2.1 + 6291456 - 1
        ≤ (m61_malloc (fun _ => 4096) (State.init (fun _ => 0)) 6291456 "test29a.cc" 10).1.gstats.heap_max :=
  m61_malloc_range_in_heap_bounds (fun _ => 4096) (State.init (fun _ => 0)) 6291456
    "test29a.cc" 10 (by decide) (by decide) (by decide)

/-- C7: the size handed to `base_malloc` by `m61_malloc` is `max(sz,1) + 16`.
The guard `alloc_sz > SIZE_MAX - 16` holds exactly when that sum exceeds
`SIZE_MAX`; if it does not, `base_malloc` is called exactly once, with that
non-zero sum, and its answer is returned; if it does, `base_malloc` is not
called and the call returns `nullptr`. -/
theorem m61_malloc_internal_size (bm : Nat → Nat) (s : State) (sz : Nat) (file : String)
    (line : Int) :
    (((if sz = 0 then 1 else sz) > SIZE_MAX - M61_CANARY_SIZE) ↔
        SIZE_MAX < max sz 1 + M61_CANARY_SIZE) ∧
    (max sz 1 + M61_CANARY_SIZE ≤ SIZE_MAX →
        (m61_malloc bm s sz file line).2.2 = [Event.base_malloc (max sz 1 + M61_CANARY_SIZE)] ∧
        (m61_malloc bm s sz file line).2.1 = bm (max sz 1 + M61_CANARY_SIZE) ∧
        max sz 1 + M61_CANARY_SIZE ≠ 0) ∧
    (SIZE_MAX < max sz 1 + M61_CANARY_SIZE →
        (m61_malloc bm s sz file line).2.2 = [] ∧ (m61_malloc bm s sz file line).2.1 = 0) := by
  rw [← raw_size_eq]
  refine ⟨malloc_guard_iff sz, ?_, ?_⟩
  · intro h
    refine ⟨?_, ?_, ?_⟩
    · by_cases hp : bm (raw_size sz) = 0
      · rw [m61_malloc_of_null bm s sz file line h hp]
      · rw [m61_malloc_of_success bm s sz file line h hp]
    · by_cases hp : bm (raw_size sz) = 0
      · rw [m61_malloc_of_null bm s sz file line h hp, hp]
      · rw [m61_malloc_of_success bm s sz file line h hp]
    · unfold raw_size M61_CANARY_SIZE; omega
  · intro h
    rw [m61_malloc_of_overflow bm s sz file line h]
    exact ⟨rfl, rfl⟩

/-- Witness for C7: a request of size 0 reaches `base_malloc` as a request of
17 bytes; a request of `SIZE_MAX - 15` bytes never reaches it. -/
theorem m61_malloc_internal_size_witness :
    ((m61_malloc (fun _ => 4096) (State.init (fun _ => 0)) 0 "f.cc" 1).2.2 =
        [Event.base_malloc (max 0 1 + M61_CANARY_SIZE)] ∧
     (m61_malloc (fun _ => 4096) (State.init (fun _ => 0)) 0 "f.cc" 1).2.1 =
        (fun _ => 4096) (max 0 1 + M61_CANARY_SIZE) ∧
     max 0 1 + M61_CANARY_SIZE ≠ 0) ∧
    ((m61_malloc (fun _ => 4096) (State.init (fun _ => 0)) (SIZE_MAX - 15) "f.cc" 1).2.2 = [] ∧
     (m61_malloc (fun _ => 4096) (State.init (fun _ => 0)) (SIZE_MAX - 15) "f.cc" 1).2.1 = 0) :=
  ⟨(m61_malloc_internal_size (fun _ => 4096) (State.init (fun _ => 0)) 0 "f.cc" 1).2.1
      (by decide),
   (m61_malloc_internal_size (fun _ => 4096) (State.init (fun _ => 0)) (SIZE_MAX - 15)
      "f.cc" 1).2.2 (by decide)⟩

/-! ## The overflow test of `m61_calloc` -/

theorem calloc_guard_iff (nmemb sz : Nat) :
    (sz ≠ 0 ∧ nmemb > SIZE_MAX / sz) ↔ SIZE_MAX < nmemb * sz := by
  constructor
  · rintro ⟨h0, h⟩
    exact (Nat.div_lt_iff_lt_mul (Nat.pos_of_ne_zero h0)).1 h
  · intro h
    have h0 : sz ≠ 0 := by
      rintro rfl
      simp at h
    exact ⟨h0, (Nat.div_lt_iff_lt_mul (Nat.pos_of_ne_zero h0)).2 h⟩

theorem m61_calloc_of_overflow (bm : Nat → Nat) (s : State) (nmemb sz : Nat) (file : String)
    (line : Int) (h : SIZE_MAX < nmemb * sz) :
    m61_calloc bm s nmemb sz file line =
      ({ s with gstats :=
          { s.gstats with
              nfail := (s.gstats.nfail + 1) % WORD,
              fail_size := (s.gstats.fail_size + (nmemb * sz) % WORD) % WORD } }, 0, []) := by
  have hg := (calloc_guard_iff nmemb sz).2 h
  unfold m61_calloc
  rw [if_pos hg]

theorem m61_calloc_of_no_overflow (bm : Nat → Nat) (s : State) (nmemb sz : Nat) (file : String)
    (line : Int) (h : nmemb * sz ≤ SIZE_MAX) :
    m61_calloc bm s nmemb sz file line =
      (if (m61_malloc bm s (nmemb * sz) file line).2.1 ≠ 0 ∧ nmemb * sz ≠ 0 then
        ({ (m61_malloc bm s (nmemb * sz) file line).1 with
            mem := memset (m61_malloc bm s (nmemb * sz) file line).1.mem
                     (m61_malloc bm s (nmemb * sz) file line).2.1 0 (nmemb * sz) },
         (m61_malloc bm s (nmemb * sz) file line).2.1,
         (m61_malloc bm s (nmemb * sz) file line).2.2)
       else m61_malloc bm s (nmemb * sz) file line) := by
  have hg : ¬ (sz ≠ 0 ∧ nmemb > SIZE_MAX / sz) := by
    rw [calloc_guard_iff]; omega
  have hm : (nmemb * sz) % WORD = nmemb * sz :=
    Nat.mod_eq_of_lt (by unfold SIZE_MAX at h; unfold WORD; omega)
  unfold m61_calloc
  rw [if_neg hg]
  simp only [hm]

/-- C6: `m61_calloc(nmemb, sz)` takes its early-failure path exactly when the
mathematical product `nmemb * sz` exceeds `SIZE_MAX`.  On that path it returns
`nullptr` with an empty trace (no call of `base_malloc`), `nfail` is
incremented, `fail_size` grows by `(nmemb * sz) mod 2^64` (both as 64-bit
counters) and nothing else changes; otherwise the pointer and the trace are
those of `m61_malloc(nmemb * sz)`.  The two calls of test19 both return
`nullptr` and leave fail count 2, total count 0. -/
theorem m61_calloc_overflow_safety (bm : Nat → Nat) (s : State) (nmemb sz : Nat)
    (file : String) (line : Int) :
    ((sz ≠ 0 ∧ nmemb > SIZE_MAX / sz) ↔ SIZE_MAX < nmemb * sz) ∧
    (SIZE_MAX < nmemb * sz →
      (m61_calloc bm s nmemb sz file line).2.1 = 0 ∧
      (m61_calloc bm s nmemb sz file line).2.2 = [] ∧
      (m61_calloc bm s nmemb sz file line).1.gstats.nfail = (s.gstats.nfail + 1) % WORD ∧
      (m61_calloc bm s nmemb sz file line).1.gstats.fail_size =
        (s.gstats.fail_size + (nmemb * sz) % WORD) % WORD ∧
      (m61_calloc bm s nmemb sz file line).1.active = s.active ∧
      (m61_calloc bm s nmemb sz file line).1.freed_bases = s.freed_bases ∧
      (m61_calloc bm s nmemb sz file line).1.mem = s.mem ∧
      (m61_calloc bm s nmemb sz file line).1.gstats.heap_min = s.gstats.heap_min ∧
      (m61_calloc bm s nmemb sz file line).1.gstats.heap_max = s.gstats.heap_max ∧
      (m61_calloc bm s nmemb sz file line).1.gstats.nactive = s.gstats.nactive ∧
      (m61_calloc bm s nmemb sz file line).1.gstats.active_size = s.gstats.active_size ∧
      (m61_calloc bm s nmemb sz file line).1.gstats.ntotal = s.gstats.ntotal ∧
      (m61_calloc bm s nmemb sz file line).1.gstats.total_size = s.gstats.total_size) ∧
    (nmemb * sz ≤ SIZE_MAX →
      (m61_calloc bm s nmemb sz file line).2 = (m61_malloc bm s (nmemb * sz) file line).2) ∧
    ((m61_calloc bm (State.init s.mem) (SIZE_MAX / 8 + 2) 16 file line).2 = (0, []) ∧
     (m61_calloc bm (m61_calloc bm (State.init s.mem) (SIZE_MAX / 8 + 2) 16 file line).1
        16 (SIZE_MAX / 8 + 2) file line).2 = (0, []) ∧
     (m61_calloc bm (m61_calloc bm (State.init s.mem) (SIZE_MAX / 8 + 2) 16 file line).1
        16 (SIZE_MAX / 8 + 2) file line).1.gstats.nfail = 2 ∧
     (m61_calloc bm (m61_calloc bm (State.init s.mem) (SIZE_MAX / 8 + 2) 16 file line).1
        16 (SIZE_MAX / 8 + 2) file line).1.gstats.ntotal = 0) := by
  refine ⟨calloc_guard_iff nmemb sz, ?_, ?_, ?_⟩
  · intro h
    rw [m61_calloc_of_overflow bm s nmemb sz file line h]
    simp
  · intro h
    rw [m61_calloc_of_no_overflow bm s nmemb sz file line h]
    split_ifs <;> rfl
  · have h1 : SIZE_MAX < (SIZE_MAX / 8 + 2) * 16 := by decide
    have h2 : SIZE_MAX < 16 * (SIZE_MAX / 8 + 2) := by decide
    rw [m61_calloc_of_overflow bm _ _ _ file line h1, m61_calloc_of_overflow bm _ _ _ file line h2]
    refine ⟨rfl, rfl, ?_, rfl⟩
    simp only [State.init]
    decide

/-- Witness for C6: the first call of test19, `m61_calloc(SIZE_MAX/8 + 2, 16)`, in the
initial state. -/
theorem m61_calloc_overflow_safety_witness :
    (m61_calloc (fun _ => 4096) (State.init (fun _ => 0)) (SIZE_MAX / 8 + 2) 16 "test19.cc" 9).2.1 = 0 ∧
    (m61_calloc (fun _ => 4096) (State.init (fun _ => 0)) (SIZE_MAX / 8 + 2) 16 "test19.cc" 9).2.2 = [] ∧
    (m61_calloc (fun _ => 4096) (State.init (fun _ => 0)) (SIZE_MAX / 8 + 2) 16
        "test19.cc" 9).1.gstats.nfail = 1 ∧
    (m61_calloc (fun _ => 4096) (State.init (fun _ => 0)) (SIZE_MAX / 8 + 2) 16
        "test19.cc" 9).1.gstats.fail_size = 16 ∧
    (m61_calloc (fun _ => 4096) (State.init (fun _ => 0)) 3 5 "test19.cc" 9).2 =
      (m61_malloc (fun _ => 4096) (State.init (fun _ => 0)) (3 * 5) "test19.cc" 9).2 := by
  have h := m61_calloc_overflow_safety (fun _ => 4096) (State.init (fun _ => 0))
    (SIZE_MAX / 8 + 2) 16 "test19.cc" 9
  have h3 := (m61_calloc_overflow_safety (fun _ => 4096) (State.init (fun _ => 0))
    3 5 "test19.cc" 9).2.2.1 (by decide)
  obtain ⟨a, b, c, d, _⟩ := h.2.1 (by decide)
  exact ⟨a, b, c.trans (by decide), d.trans (by decide), h3⟩

/-! ## Rejected frees -/

theorem base_free_not_invalid_report (p : Nat) :
    is_invalid_free_report (Event.base_free p) = false := rfl

theorem wild_write_not_invalid_report (args : List Arg) :
    is_invalid_free_report (Event.fprintf_stderr FMT_WILD_WRITE args) = false := by
  simp only [is_invalid_free_report]; decide

theorem not_in_heap_is_invalid_report (args : List Arg) :
    is_invalid_free_report (Event.fprintf_stderr FMT_NOT_IN_HEAP args) = true := by
  simp only [is_invalid_free_report]; decide

theorem double_free_is_invalid_report (args : List Arg) :
    is_invalid_free_report (Event.fprintf_stderr FMT_DOUBLE_FREE args) = true := by
  simp only [is_invalid_free_report]; decide

theorem not_allocated_is_invalid_report (args : List Arg) :
    is_invalid_free_report (Event.fprintf_stderr FMT_NOT_ALLOCATED args) = true := by
  simp only [is_invalid_free_report]; decide

theorem unknown_is_invalid_report (args : List Arg) :
    is_invalid_free_report (Event.fprintf_stderr FMT_NOT_ALLOCATED_UNKNOWN args) = true := by
  simp only [is_invalid_free_report]; decide

/-- The outcome of `m61_free` on a non-null pointer: either the state is
untouched and the trace consists of diagnostics only, or the pointer is a live
base outside `freed_bases`, inside the heap bounds, and is released. -/
theorem m61_free_outcome (s : State) (ptr : Nat) (file : String) (line : Int) (h0 : ptr ≠ 0) :
    ((m61_free s ptr file line).1 = s ∧
      (∀ e ∈ (m61_free s ptr file line).2, is_base_free e = false) ∧
      (∃ e ∈ (m61_free s ptr file line).2, is_invalid_free_report e = true)) ∨
    (∃ info, ¬ not_in_heap s ptr ∧ ptr ∉ s.freed_bases ∧ map_find s.active ptr = some info ∧
      (m61_free s ptr file line).1 = release_state s ptr info.size ∧
      (m61_free s ptr file line).2 =
        (if fence_ok s.mem (ptr + info.size) then []
         else [Event.fprintf_stderr FMT_WILD_WRITE [Arg.ptr ptr]]) ++ [Event.base_free ptr]) := by
  by_cases hh : not_in_heap s ptr
  · left
    rw [m61_free_of_not_in_heap s ptr file line h0 hh]
    refine ⟨rfl, ?_, ?_⟩
    · intro e he; simp at he; subst he; rfl
    · exact ⟨_, List.mem_singleton_self _, not_in_heap_is_invalid_report _⟩
  by_cases hf : ptr ∈ s.freed_bases
  · left
    rw [m61_free_of_freed s ptr file line h0 hh hf]
    refine ⟨rfl, ?_, ?_⟩
    · intro e he; simp at he; subst he; rfl
    · exact ⟨_, List.mem_singleton_self _, double_free_is_invalid_report _⟩
  cases hm : map_find s.active ptr with
  | some info =>
    right
    exact ⟨info, hh, hf, rfl, by rw [m61_free_of_live s ptr file line info h0 hh hf hm],
      by rw [m61_free_of_live s ptr file line info h0 hh hf hm]⟩
  | none =>
    left
    cases hi : interior_scan ptr s.active with
    | some r =>
      obtain ⟨base, ai⟩ := r
      rw [m61_free_of_interior s ptr file line base ai h0 hh hf hm hi]
      refine ⟨rfl, ?_, ?_⟩
      · intro e he
        simp at he
        rcases he with he | he <;> subst he <;> rfl
      · exact ⟨_, List.mem_cons_self _ _, not_allocated_is_invalid_report _⟩
    | none =>
      rw [m61_free_of_unknown s ptr file line h0 hh hf hm hi]
      refine ⟨rfl, ?_, ?_⟩
      · intro e he; simp at he; subst he; rfl
      · exact ⟨_, List.mem_singleton_self _, unknown_is_invalid_report _⟩

/-- C10: if `m61_free` on a non-null address emits one of the invalid-free
reports, the whole state (ledger, freed set, counters, heap bounds, memory) is
the same before and after and `base_free` is not called; an address with
`heap_min = 0`, below `heap_min` or above `heap_max` is always rejected with
the single report "not in heap". -/
theorem m61_free_rejected_is_atomic (s : State) (ptr : Nat) (file : String) (line : Int)
    (h0 : ptr ≠ 0) :
    ((∃ e ∈ (m61_free s ptr file line).2, is_invalid_free_report e = true) →
      (m61_free s ptr file line).1 = s ∧
      ∀ e ∈ (m61_free s ptr file line).2, is_base_free e = false) ∧
    ((s.gstats.heap_min = 0 ∨ ptr < s.gstats.heap_min ∨ ptr > s.gstats.heap_max) →
      m61_free s ptr file line =
        (s, [Event.fprintf_stderr FMT_NOT_IN_HEAP [Arg.str file, Arg.long line, Arg.ptr ptr]])) := by
  refine ⟨?_, fun h => m61_free_of_not_in_heap s ptr file line h0 h⟩
  rintro ⟨e, he, hr⟩
  rcases m61_free_outcome s ptr file line h0 with h | ⟨info, _, _, _, _, ht⟩
  · exact ⟨h.1, h.2.1⟩
  · exfalso
    rw [ht] at he
    split_ifs at he
    · simp at he; subst he
      rw [base_free_not_invalid_report] at hr; exact absurd hr (by decide)
    · simp at he
      rcases he with he | he <;> subst he
      · rw [wild_write_not_invalid_report] at hr; exact absurd hr (by decide)
      · rw [base_free_not_invalid_report] at hr; exact absurd hr (by decide)

/-- Witness for C10: in the initial state (heap_min = 0) the free of address
4096 is rejected as "not in heap" and changes nothing. -/
theorem m61_free_rejected_is_atomic_witness :
    ((m61_free (State.init (fun _ => 0)) 4096 "f.cc" 3).1.gstats = (State.init (fun _ => 0)).gstats ∧
     ∀ e ∈ (m61_free (State.init (fun _ => 0)) 4096 "f.cc" 3).2, is_base_free e = false) ∧
    m61_free (State.init (fun _ => 0)) 4096 "f.cc" 3 =
      (State.init (fun _ => 0),
       [Event.fprintf_stderr FMT_NOT_IN_HEAP [Arg.str "f.cc", Arg.long 3, Arg.ptr 4096]]) := by
  have h := m61_free_rejected_is_atomic (State.init (fun _ => 0)) 4096 "f.cc" 3 (by decide)
  have h2 := h.2 (Or.inl rfl)
  have h1 := h.1 ⟨_, by rw [h2]; exact List.mem_singleton_self _,
    not_in_heap_is_invalid_report _⟩
  exact ⟨⟨by rw [h1.1], h1.2⟩, h2⟩

/-! ## The three kinds of step -/

theorem neutral_step_refl (s : State) : neutral_step s s :=
  ⟨rfl, rfl, s.gstats.nfail, s.gstats.fail_size, rfl⟩

theorem neutral_step_failure (s : State) (n : Nat) :
    neutral_step s { s with gstats := record_failure s.gstats n } :=
  ⟨rfl, rfl, _, _, rfl⟩

/-- Every call of `m61_malloc` either fails (neutral, pointer null, no
release) or succeeds with the address answered by `base_malloc`. -/
theorem m61_malloc_cases (bm : Nat → Nat) (s : State) (sz : Nat) (file : String) (line : Int) :
    (neutral_step s (m61_malloc bm s sz file line).1 ∧
      (m61_malloc bm s sz file line).1.mem = s.mem ∧
      (m61_malloc bm s sz file line).2.1 = 0 ∧
      releases (m61_malloc bm s sz file line).2.2 = 0) ∨
    (raw_size sz ≤ SIZE_MAX ∧ bm (raw_size sz) ≠ 0 ∧
      m61_malloc bm s sz file line =
        (malloc_success_state s (bm (raw_size sz)) sz file line, bm (raw_size sz),
         [Event.base_malloc (raw_size sz)])) := by
  by_cases h : raw_size sz ≤ SIZE_MAX
  · by_cases hp : bm (raw_size sz) = 0
    · left
      rw [m61_malloc_of_null bm s sz file line h hp]
      exact ⟨neutral_step_failure s sz, rfl, rfl, rfl⟩
    · right
      exact ⟨h, hp, m61_malloc_of_success bm s sz file line h hp⟩
  · left
    rw [m61_malloc_of_overflow bm s sz file line (by omega)]
    exact ⟨neutral_step_failure s sz, rfl, rfl, rfl⟩

/-- Every step is neutral, a successful allocation, or a validated release. -/
theorem step_cases (s : State) (op : Op) :
    (neutral_step s (step s op).1 ∧ releases (step s op).2 = 0) ∨
    (∃ sz bm file line, op.request = some (sz, bm) ∧ bm (raw_size sz) ≠ 0 ∧
      (step s op).1.active = (malloc_success_state s (bm (raw_size sz)) sz file line).active ∧
      (step s op).1.freed_bases =
        (malloc_success_state s (bm (raw_size sz)) sz file line).freed_bases ∧
      (step s op).1.gstats = (malloc_success_state s (bm (raw_size sz)) sz file line).gstats ∧
      (step s op).2 = [Event.base_malloc (raw_size sz)]) ∨
    (∃ ptr file line info, op = Op.free ptr file line ∧ ptr ≠ 0 ∧ ¬ not_in_heap s ptr ∧
      ptr ∉ s.freed_bases ∧ map_find s.active ptr = some info ∧
      (step s op).1 = release_state s ptr info.size ∧
      (step s op).2 =
        (if fence_ok s.mem (ptr + info.size) then []
         else [Event.fprintf_stderr FMT_WILD_WRITE [Arg.ptr ptr]]) ++ [Event.base_free ptr]) := by
  cases op with
  | malloc sz file line bm =>
    rcases m61_malloc_cases bm s sz file line with ⟨h1, _, _, h4⟩ | ⟨h1, h2, h3⟩
    · left; exact ⟨h1, h4⟩
    · right; left
      refine ⟨sz, bm, file, line, ?_, h2, ?_⟩
      · simp only [Op.request, h1, if_true]
      · simp only [step, h3, and_self]
  | calloc nmemb sz file line bm =>
    by_cases ho : SIZE_MAX < nmemb * sz
    · left
      simp only [step, m61_calloc_of_overflow bm s nmemb sz file line ho]
      exact ⟨⟨rfl, rfl, _, _, rfl⟩, rfl⟩
    · have hno : nmemb * sz ≤ SIZE_MAX := by omega
      have hm : (nmemb * sz) % WORD = nmemb * sz :=
        Nat.mod_eq_of_lt (by unfold SIZE_MAX at hno; unfold WORD; omega)
      have hg : ¬ (sz ≠ 0 ∧ nmemb > SIZE_MAX / sz) := by
        rw [calloc_guard_iff]; omega
      rcases m61_malloc_cases bm s (nmemb * sz) file line with ⟨h1, _, h3, h4⟩ | ⟨h1, h2, h3⟩
      · left
        simp only [step, m61_calloc_of_no_overflow bm s nmemb sz file line hno, h3]
        simp only [ne_eq, not_true_eq_false, false_and, if_false]
        exact ⟨h1, h4⟩
      · right; left
        refine ⟨nmemb * sz, bm, file, line, ?_, h2, ?_⟩
        · simp only [Op.request, hg, if_false, hm, h1, if_true]
        · simp only [step, m61_calloc_of_no_overflow bm s nmemb sz file line hno, h3]
          split_ifs <;> simp
  | free ptr file line =>
    by_cases h0 : ptr = 0
    · left
      subst h0
      simp only [step, m61_free_null]
      exact ⟨neutral_step_refl s, rfl⟩
    · rcases m61_free_outcome s ptr file line h0 with ⟨h1, h2, _⟩ | ⟨info, h1, h2, h3, h4, h5⟩
      · left
        simp only [step, h1]
        refine ⟨neutral_step_refl s, ?_⟩
        unfold releases
        rw [List.length_eq_zero, List.filter_eq_nil_iff]
        intro e he
        have := h2 e he
        cases e <;> simp_all [is_base_free]
      · right; right
        exact ⟨ptr, file, line, info, rfl, h0, h1, h2, h3, h4, h5⟩
  | store addr byte =>
    left
    exact ⟨⟨rfl, rfl, _, _, rfl⟩, rfl⟩

/-! ## Executions: composition and invariants -/

theorem releases_append (t u : List Event) : releases (t ++ u) = releases t + releases u := by
  simp [releases, List.filter_append]

theorem run_append (s : State) (ops1 ops2 : List Op) :
    run s (ops1 ++ ops2) =
      ((run (run s ops1).1 ops2).1, (run s ops1).2 ++ (run (run s ops1).1 ops2).2) := by
  induction ops1 generalizing s with
  | nil => simp [run]
  | cons op ops ih => simp [run, ih, List.append_assoc]

theorem admissible_append (ok : State → Op → Bool) (s : State) (ops1 ops2 : List Op) :
    admissible ok s (ops1 ++ ops2) =
      (admissible ok s ops1 && admissible ok (run s ops1).1 ops2) := by
  induction ops1 generalizing s with
  | nil => simp [admissible, run]
  | cons op ops ih => simp [admissible, run, ih, Bool.and_assoc]

/-- A property of states preserved by every step holds along every run. -/
theorem run_preserves (I : State → Prop) (hstep : ∀ s op, I s → I (step s op).1)
    (s : State) (ops : List Op) (h : I s) : I (run s ops).1 := by
  induction ops generalizing s with
  | nil => exact h
  | cons op ops ih => exact ih _ (hstep s op h)

/-- A property of states preserved by every step that satisfies the
assumption `ok` holds along every admissible run. -/
theorem run_preserves_of_admissible (ok : State → Op → Bool) (I : State → Prop)
    (hstep : ∀ s op, I s → ok s op = true → I (step s op).1)
    (s : State) (ops : List Op) (h : I s) (ha : admissible ok s ops = true) :
    I (run s ops).1 := by
  induction ops generalizing s with
  | nil => exact h
  | cons op ops ih =>
    simp only [admissible, Bool.and_eq_true] at ha
    exact ih _ (hstep s op h ha.1) ha.2

/-- The same for a property that also mentions the number of releases and the
number of calls made so far. -/
theorem run_preserves_counting (ok : State → Op → Bool) (J : State → Nat → Nat → Prop)
    (hstep : ∀ s op k n, J s k n → ok s op = true →
      J (step s op).1 (k + releases (step s op).2) (n + 1))
    (s : State) (ops : List Op) (k n : Nat) (h : J s k n) (ha : admissible ok s ops = true) :
    J (run s ops).1 (k + releases (run s ops).2) (n + ops.length) := by
  induction ops generalizing s k n with
  | nil => simpa [run, releases] using h
  | cons op ops ih =>
    simp only [admissible, Bool.and_eq_true] at ha
    have h1 := ih _ _ _ (hstep s op k n h ha.1) ha.2
    simp only [run, releases_append, List.length_cons]
    have e1 : k + (releases (step s op).2 + releases (run (step s op).1 ops).2) =
        k + releases (step s op).2 + releases (run (step s op).1 ops).2 := by omega
    have e2 : n + (ops.length + 1) = n + 1 + ops.length := by omega
    rw [e1, e2]
    exact h1

/-! ## Heap bounds never shrink -/

theorem step_of_success (s : State) (op : Op) (sz : Nat) (bm : Nat → Nat)
    (hr : op.request = some (sz, bm)) (hp : bm (raw_size sz) ≠ 0) :
    ∃ file line,
      (step s op).1.active = (malloc_success_state s (bm (raw_size sz)) sz file line).active ∧
      (step s op).1.freed_bases =
        (malloc_success_state s (bm (raw_size sz)) sz file line).freed_bases ∧
      (step s op).1.gstats = (malloc_success_state s (bm (raw_size sz)) sz file line).gstats ∧
      (step s op).2 = [Event.base_malloc (raw_size sz)] := by
  rcases step_cases s op with ⟨_, _⟩ |
      ⟨sz', bm', file, line, hr', _, h1, h2, h3, h4⟩ | ⟨ptr, file, line, info, ho, _⟩
  · cases op with
    | malloc sz0 file line bm0 =>
      simp only [Op.request] at hr
      split_ifs at hr with h1
      simp only [Option.some.injEq, Prod.mk.injEq] at hr
      obtain ⟨rfl, rfl⟩ := hr
      refine ⟨file, line, ?_⟩
      simp only [step, m61_malloc_of_success bm0 s sz0 file line h1 hp, and_self]
    | calloc nmemb sz0 file line bm0 =>
      simp only [Op.request] at hr
      split_ifs at hr with h1 h2
      simp only [Option.some.injEq, Prod.mk.injEq] at hr
      obtain ⟨rfl, rfl⟩ := hr
      have hno : nmemb * sz0 ≤ SIZE_MAX := by
        rw [calloc_guard_iff] at h1; omega
      have hm : (nmemb * sz0) % WORD = nmemb * sz0 :=
        Nat.mod_eq_of_lt (by unfold SIZE_MAX at hno; unfold WORD; omega)
      rw [hm] at h2 hp ⊢
      refine ⟨file, line, ?_⟩
      simp only [step, m61_calloc_of_no_overflow bm0 s nmemb sz0 file line hno,
        m61_malloc_of_success bm0 s (nmemb * sz0) file line h2 hp]
      split_ifs <;> simp
    | free ptr file line => simp [Op.request] at hr
    | store addr byte => simp [Op.request] at hr
  · rw [hr] at hr'
    simp only [Option.some.injEq, Prod.mk.injEq] at hr'
    obtain ⟨rfl, rfl⟩ := hr'
    exact ⟨file, line, h1, h2, h3, h4⟩
  · subst ho
    simp [Op.request] at hr

theorem update_heap_bounds_fields (g : m61_statistics) (p sz : Nat) :
    (update_heap_bounds g p sz).nactive = g.nactive ∧
    (update_heap_bounds g p sz).active_size = g.active_size ∧
    (update_heap_bounds g p sz).ntotal = g.ntotal ∧
    (update_heap_bounds g p sz).total_size = g.total_size ∧
    (update_heap_bounds g p sz).nfail = g.nfail ∧
    (update_heap_bounds g p sz).fail_size = g.fail_size := by
  unfold update_heap_bounds
  split_ifs <;> simp

theorem update_heap_bounds_widens (g : m61_statistics) (p sz : Nat) (h : g.heap_min ≠ 0) :
    (update_heap_bounds g p sz).heap_min ≠ 0 ∧
    (update_heap_bounds g p sz).heap_min ≤ g.heap_min ∧
    g.heap_max ≤ (update_heap_bounds g p sz).heap_max := by
  unfold update_heap_bounds
  split_ifs <;> (try dsimp only at *) <;> (try split_ifs) <;> omega

theorem release_state_bounds (s : State) (ptr n : Nat) :
    (release_state s ptr n).gstats.heap_min = s.gstats.heap_min ∧
    (release_state s ptr n).gstats.heap_max = s.gstats.heap_max := by
  unfold release_state
  dsimp only
  split_ifs <;> exact ⟨rfl, rfl⟩

theorem m61_free_bounds (s : State) (ptr : Nat) (file : String) (line : Int) :
    (m61_free s ptr file line).1.gstats.heap_min = s.gstats.heap_min ∧
    (m61_free s ptr file line).1.gstats.heap_max = s.gstats.heap_max := by
  by_cases h0 : ptr = 0
  · subst h0; rw [m61_free_null]; exact ⟨rfl, rfl⟩
  · rcases m61_free_outcome s ptr file line h0 with ⟨h1, _, _⟩ | ⟨info, _, _, _, h4, _⟩
    · rw [h1]; exact ⟨rfl, rfl⟩
    · rw [h4]; exact release_state_bounds s ptr info.size

theorem step_bounds_widen (s : State) (op : Op) (h : s.gstats.heap_min ≠ 0) :
    (step s op).1.gstats.heap_min ≠ 0 ∧
    (step s op).1.gstats.heap_min ≤ s.gstats.heap_min ∧
    s.gstats.heap_max ≤ (step s op).1.gstats.heap_max := by
  rcases step_cases s op with ⟨⟨_, _, nf, fs, hg⟩, _⟩ |
      ⟨sz, bm, file, line, _, _, _, _, hg, _⟩ | ⟨ptr, file, line, info, _, _, _, _, _, hs, _⟩
  · rw [hg]; exact ⟨h, le_refl _, le_refl _⟩
  · rw [hg]
    simp only [malloc_success_state]
    exact update_heap_bounds_widens _ _ _ h
  · rw [hs]
    obtain ⟨a, b⟩ := release_state_bounds s ptr info.size
    rw [a, b]; exact ⟨h, le_refl _, le_refl _⟩

/-- An interval inside the heap bounds stays inside them along every run. -/
theorem run_keeps_in_bounds (lo hi : Nat) (s : State) (ops : List Op)
    (h : s.gstats.heap_min ≠ 0 ∧ s.gstats.heap_min ≤ lo ∧ hi ≤ s.gstats.heap_max) :
    (run s ops).1.gstats.heap_min ≠ 0 ∧ (run s ops).1.gstats.heap_min ≤ lo ∧
      hi ≤ (run s ops).1.gstats.heap_max := by
  refine run_preserves
    (fun t => t.gstats.heap_min ≠ 0 ∧ t.gstats.heap_min ≤ lo ∧ hi ≤ t.gstats.heap_max)
    ?_ s ops h
  intro t op ht
  obtain ⟨a, b, c⟩ := step_bounds_widen t op ht.1
  exact ⟨a, le_trans b ht.2.1, le_trans ht.2.2 c⟩

/-- After a successful allocation of `sz >= 1` bytes at a block that does not
wrap, the block is inside the heap bounds of the next state. -/
theorem step_success_in_bounds (s : State) (op : Op) (sz : Nat) (bm : Nat → Nat)
    (hr : op.request = some (sz, bm)) (hp : bm (raw_size sz) ≠ 0) (hs : 1 ≤ sz)
    (hw : bm (raw_size sz) + sz - 1 < WORD) :
    (step s op).1.gstats.heap_min ≠ 0 ∧
    (step s op).1.gstats.heap_min ≤ bm (raw_size sz) ∧
    bm (raw_size sz) + sz - 1 ≤ (step s op).1.gstats.heap_max := by
  obtain ⟨file, line, _, _, hg, _⟩ := step_of_success s op sz bm hr hp
  rw [hg]
  simp only [malloc_success_state]
  exact update_heap_bounds_covers _ _ _ hp hs hw

/-- C9: `m61_free` never changes `heap_min` or `heap_max`; every call made in
a state with `heap_min != 0` leaves `heap_min` no larger and `heap_max` no
smaller; hence a block of `sz >= 1` bytes at `A` (inside the address space)
that was once successfully allocated, by `m61_malloc` or `m61_calloc`, stays
inside `[heap_min, heap_max]` after any further calls, freed or not, and
`heap_max - heap_min >= sz - 1`; the run of test11a ends with
`heap_max - heap_min >= 18`. -/
theorem heap_bounds_never_shrink :
    (∀ (s : State) (ptr : Nat) (file : String) (line : Int),
      (m61_free s ptr file line).1.gstats.heap_min = s.gstats.heap_min ∧
      (m61_free s ptr file line).1.gstats.heap_max = s.gstats.heap_max) ∧
    (∀ (s : State) (op : Op), s.gstats.heap_min ≠ 0 →
      (step s op).1.gstats.heap_min ≤ s.gstats.heap_min ∧
      s.gstats.heap_max ≤ (step s op).1.gstats.heap_max) ∧
    (∀ (mem : Nat → Nat) (ops1 ops2 : List Op) (op : Op) (sz : Nat) (bm : Nat → Nat),
      op.request = some (sz, bm) → bm (raw_size sz) ≠ 0 → 1 ≤ sz →
      bm (raw_size sz) + sz - 1 < WORD →
      (run (State.init mem) (ops1 ++ op :: ops2)).1.gstats.heap_min ≤ bm (raw_size sz) ∧
      bm (raw_size sz) + sz - 1 ≤ (run (State.init mem) (ops1 ++ op :: ops2)).1.gstats.heap_max ∧
      sz - 1 ≤ (run (State.init mem) (ops1 ++ op :: ops2)).1.gstats.heap_max -
        (run (State.init mem) (ops1 ++ op :: ops2)).1.gstats.heap_min) ∧
    (∀ (mem : Nat → Nat) (bm1 bm2 : Nat → Nat) (file : String) (line : Int),
      bm1 (raw_size 17) ≠ 0 → bm2 (raw_size 19) ≠ 0 → bm2 (raw_size 19) + 19 - 1 < WORD →
      18 ≤ (run (State.init mem)
              [Op.malloc 17 file line bm1, Op.free (bm1 (raw_size 17)) file line,
               Op.malloc 19 file line bm2, Op.free (bm2 (raw_size 19)) file line]).1.gstats.heap_max -
           (run (State.init mem)
              [Op.malloc 17 file line bm1, Op.free (bm1 (raw_size 17)) file line,
               Op.malloc 19 file line bm2, Op.free (bm2 (raw_size 19)) file line]).1.gstats.heap_min) := by
  have key : ∀ (mem : Nat → Nat) (ops1 ops2 : List Op) (op : Op) (sz : Nat) (bm : Nat → Nat),
      op.request = some (sz, bm) → bm (raw_size sz) ≠ 0 → 1 ≤ sz →
      bm (raw_size sz) + sz - 1 < WORD →
      (run (State.init mem) (ops1 ++ op :: ops2)).1.gstats.heap_min ≤ bm (raw_size sz) ∧
      bm (raw_size sz) + sz - 1 ≤ (run (State.init mem) (ops1 ++ op :: ops2)).1.gstats.heap_max ∧
      sz - 1 ≤ (run (State.init mem) (ops1 ++ op :: ops2)).1.gstats.heap_max -
        (run (State.init mem) (ops1 ++ op :: ops2)).1.gstats.heap_min := by
    intro mem ops1 ops2 op sz bm hr hp hs hw
    have h1 := step_success_in_bounds (run (State.init mem) ops1).1 op sz bm hr hp hs hw
    have h2 := run_keeps_in_bounds (bm (raw_size sz)) (bm (raw_size sz) + sz - 1) _ ops2 h1
    rw [run_append]
    simp only [run]
    refine ⟨h2.2.1, h2.2.2, ?_⟩
    omega
  refine ⟨m61_free_bounds, fun s op h => (step_bounds_widen s op h).2, key, ?_⟩
  intro mem bm1 bm2 file line _ h2 hw
  have hr : (Op.malloc 19 file line bm2).request = some (19, bm2) := by
    simp only [Op.request]
    rw [if_pos (by decide)]
  exact (key mem [Op.malloc 17 file line bm1, Op.free (bm1 (raw_size 17)) file line]
    [Op.free (bm2 (raw_size 19)) file line] (Op.malloc 19 file line bm2) 19 bm2 hr h2
    (by decide) hw).2.2

/-- Witness for C9: test11a with `base_malloc` answering 4096 and then 8192. -/
theorem heap_bounds_never_shrink_witness :
    18 ≤ (run (State.init (fun _ => 0))
            [Op.malloc 17 "test11a.cc" 7 (fun _ => 4096),
             Op.free ((fun _ => 4096) (raw_size 17)) "test11a.cc" 7,
             Op.malloc 19 "test11a.cc" 7 (fun _ => 8192),
             Op.free ((fun _ => 8192) (raw_size 19)) "test11a.cc" 7]).1.gstats.heap_max -
          (run (State.init (fun _ => 0))
            [Op.malloc 17 "test11a.cc" 7 (fun _ => 4096),
             Op.free ((fun _ => 4096) (raw_size 17)) "test11a.cc" 7,
             Op.malloc 19 "test11a.cc" 7 (fun _ => 8192),
             Op.free ((fun _ => 8192) (raw_size 19)) "test11a.cc" 7]).1.gstats.heap_min :=
  heap_bounds_never_shrink.2.2.2 (fun _ => 0) (fun _ => 4096) (fun _ => 8192) "test11a.cc" 7
    (by decide) (by decide) (by decide)

/-! ## The freed-address set -/

theorem mem_set_erase (l : List Nat) (k a : Nat) : a ∈ set_erase l k ↔ a ∈ l ∧ a ≠ k := by
  simp [set_erase]

theorem mem_set_insert (l : List Nat) (k a : Nat) : a ∈ set_insert l k ↔ a = k ∨ a ∈ l := by
  unfold set_insert
  split_ifs with h
  · constructor
    · intro ha; exact Or.inr ha
    · rintro (rfl | ha)
      · exact h
      · exact ha
  · simp

theorem freed_in_heap_init (mem : Nat → Nat) : freed_in_heap (State.init mem) := by
  intro a ha
  simp [State.init] at ha

theorem freed_in_heap_step (s : State) (op : Op) (h : freed_in_heap s) :
    freed_in_heap (step s op).1 := by
  rcases step_cases s op with ⟨⟨_, hf, nf, fs, hg⟩, _⟩ |
      ⟨sz, bm, file, line, _, _, _, hf, hg, _⟩ | ⟨ptr, file, line, info, _, h0, hin, _, _, hs, _⟩
  · intro a ha
    rw [hf] at ha
    obtain ⟨a0, a1⟩ := h a ha
    refine ⟨a0, ?_⟩
    unfold not_in_heap at a1 ⊢
    rw [hg]
    exact a1
  · intro a ha
    rw [hf] at ha
    simp only [malloc_success_state] at ha
    obtain ⟨a0, a1⟩ := h a ((mem_set_erase _ _ _).1 ha).1
    refine ⟨a0, ?_⟩
    unfold not_in_heap at a1 ⊢
    have hmin : s.gstats.heap_min ≠ 0 := by omega
    have hw := step_bounds_widen s op hmin
    omega
  · intro a ha
    rw [hs] at ha ⊢
    obtain ⟨b1, b2⟩ := release_state_bounds s ptr info.size
    have hcase : a = ptr ∨ a ∈ s.freed_bases := by
      simp only [release_state] at ha
      exact (mem_set_insert _ _ _).1 ha
    unfold not_in_heap at hin ⊢
    rw [b1, b2]
    rcases hcase with rfl | ha'
    · exact ⟨h0, hin⟩
    · exact h a ha'

theorem freed_in_heap_run (mem : Nat → Nat) (ops : List Op) :
    freed_in_heap (run (State.init mem) ops).1 :=
  run_preserves freed_in_heap freed_in_heap_step _ ops (freed_in_heap_init mem)

/-- A validated release puts the address into the freed set. -/
theorem step_free_released (s : State) (A : Nat) (file : String) (line : Int)
    (h : Event.base_free A ∈ (m61_free s A file line).2) :
    A ∈ (step s (Op.free A file line)).1.freed_bases := by
  have h0 : A ≠ 0 := by
    rintro rfl
    rw [m61_free_null] at h
    simp at h
  rcases m61_free_outcome s A file line h0 with ⟨_, h2, _⟩ | ⟨info, _, _, _, h4, _⟩
  · have := h2 _ h
    simp [is_base_free] at this
  · simp only [step, h4, release_state]
    exact (mem_set_insert _ _ _).2 (Or.inl rfl)

/-- A member of the freed set stays in it as long as no allocation call is
answered with that address. -/
theorem freed_stays (A : Nat) (s : State) (ops : List Op) (hA : A ∈ s.freed_bases)
    (hno : ∀ op ∈ ops, ∀ sz bm, op.request = some (sz, bm) → bm (raw_size sz) ≠ A) :
    A ∈ (run s ops).1.freed_bases := by
  induction ops generalizing s with
  | nil => exact hA
  | cons op ops ih =>
    simp only [run]
    apply ih
    · rcases step_cases s op with ⟨⟨_, hf, _⟩, _⟩ |
          ⟨sz, bm, file, line, hr, _, _, hf, _, _⟩ | ⟨ptr, file, line, info, _, _, _, _, _, hs, _⟩
      · rw [hf]; exact hA
      · rw [hf]
        simp only [malloc_success_state]
        refine (mem_set_erase _ _ _).2 ⟨hA, ?_⟩
        exact fun e => hno op (List.mem_cons_self _ _) sz bm hr e.symm
      · rw [hs]
        simp only [release_state]
        exact (mem_set_insert _ _ _).2 (Or.inr hA)
    · intro op' hop'
      exact hno op' (List.mem_cons_of_mem _ hop')

/-- C3: in every state reached from the initial state in which `A` is in the
freed-address set, `m61_free(A)` leaves the whole state unchanged and its trace
is exactly the report "invalid free of pointer A, double free" (so `base_free`
is not called); and `A` is in the freed set whenever it was released by a
validated `m61_free(A)` and no later allocation call was answered with `A`. -/
theorem double_free_detected (mem : Nat → Nat) :
    (∀ (ops : List Op) (A : Nat) (file : String) (line : Int),
      A ∈ (run (State.init mem) ops).1.freed_bases →
      m61_free (run (State.init mem) ops).1 A file line =
        ((run (State.init mem) ops).1,
         [Event.fprintf_stderr FMT_DOUBLE_FREE [Arg.str file, Arg.long line, Arg.ptr A]])) ∧
    (∀ (ops1 ops2 : List Op) (A : Nat) (file : String) (line : Int),
      Event.base_free A ∈ (m61_free (run (State.init mem) ops1).1 A file line).2 →
      (∀ op ∈ ops2, ∀ sz bm, op.request = some (sz, bm) → bm (raw_size sz) ≠ A) →
      A ∈ (run (State.init mem) (ops1 ++ Op.free A file line :: ops2)).1.freed_bases) := by
  constructor
  · intro ops A file line hA
    obtain ⟨h0, hin⟩ := freed_in_heap_run mem ops A hA
    exact m61_free_of_freed _ A file line h0 hin hA
  · intro ops1 ops2 A file line hrel hno
    rw [run_append]
    simp only [run]
    exact freed_stays A _ ops2 (step_free_released _ A file line hrel) hno

/-- Witness for C3: test54a, `p = malloc(32)`, `q = malloc(48)`, `free(p)`,
`free(q)`; then `free(q)` again is reported as a double free. -/
theorem double_free_detected_witness :
    m61_free (run (State.init (fun _ => 0))
        [Op.malloc 32 "test54a.cc" 6 (fun _ => 4096), Op.malloc 48 "test54a.cc" 8 (fun _ => 8192),
         Op.free 4096 "test54a.cc" 11, Op.free 8192 "test54a.cc" 12]).1 8192 "test54a.cc" 13 =
      ((run (State.init (fun _ => 0))
        [Op.malloc 32 "test54a.cc" 6 (fun _ => 4096), Op.malloc 48 "test54a.cc" 8 (fun _ => 8192),
         Op.free 4096 "test54a.cc" 11, Op.free 8192 "test54a.cc" 12]).1,
       [Event.fprintf_stderr FMT_DOUBLE_FREE
          [Arg.str "test54a.cc", Arg.long 13, Arg.ptr 8192]]) ∧
    8192 ∈ (run (State.init (fun _ => 0))
        ([Op.malloc 32 "test54a.cc" 6 (fun _ => 4096), Op.malloc 48 "test54a.cc" 8 (fun _ => 8192),
          Op.free 4096 "test54a.cc" 11] ++ Op.free 8192 "test54a.cc" 12 :: [])).1.freed_bases :=
  ⟨(double_free_detected (fun _ => 0)).1
      [Op.malloc 32 "test54a.cc" 6 (fun _ => 4096), Op.malloc 48 "test54a.cc" 8 (fun _ => 8192),
       Op.free 4096 "test54a.cc" 11, Op.free 8192 "test54a.cc" 12] 8192 "test54a.cc" 13
      (by decide),
   (double_free_detected (fun _ => 0)).2
      [Op.malloc 32 "test54a.cc" 6 (fun _ => 4096), Op.malloc 48 "test54a.cc" 8 (fun _ => 8192),
       Op.free 4096 "test54a.cc" 11] [] 8192 "test54a.cc" 12 (by decide)
      (by intro op hop; simp at hop)⟩

/-! ## Zero-size allocations -/

/-- C2 (the code at the failing input): in the initial state `m61_malloc(0)`,
answered by `base_malloc(17)` with address 4096, succeeds and returns 4096 with
`heap_min` still 0; the immediately following `m61_free(4096)` prints
"invalid free ..., not in heap", does not call `base_free`, keeps the record
of 4096 in the ledger and keeps `nactive = 1`.  The same happens after a
non-zero allocation when the zero-size block lies above `heap_max`. -/
theorem zero_size_block_rejected_by_free :
    (m61_malloc (fun _ => 4096) (State.init (fun _ => 0)) 0 "t.cc" 5).2.1 = 4096 ∧
    (m61_malloc (fun _ => 4096) (State.init (fun _ => 0)) 0 "t.cc" 5).2.2 =
      [Event.base_malloc 17] ∧
    (m61_malloc (fun _ => 4096) (State.init (fun _ => 0)) 0 "t.cc" 5).1.gstats.heap_min = 0 ∧
    (m61_free (m61_malloc (fun _ => 4096) (State.init (fun _ => 0)) 0 "t.cc" 5).1
        4096 "t.cc" 6).2 =
      [Event.fprintf_stderr FMT_NOT_IN_HEAP [Arg.str "t.cc", Arg.long 6, Arg.ptr 4096]] ∧
    map_find (m61_free (m61_malloc (fun _ => 4096) (State.init (fun _ => 0)) 0 "t.cc" 5).1
        4096 "t.cc" 6).1.active 4096 = some { size := 0, file := "t.cc", line := 5 } ∧
    (m61_free (m61_malloc (fun _ => 4096) (State.init (fun _ => 0)) 0 "t.cc" 5).1
        4096 "t.cc" 6).1.gstats.nactive = 1 ∧
    (run (State.init (fun _ => 0))
        [Op.malloc 8 "t.cc" 4 (fun _ => 4096), Op.malloc 0 "t.cc" 5 (fun _ => 8192),
         Op.free 8192 "t.cc" 6]).2 =
      [Event.base_malloc 24, Event.base_malloc 17,
       Event.fprintf_stderr FMT_NOT_IN_HEAP [Arg.str "t.cc", Arg.long 6, Arg.ptr 8192]] := by
  refine ⟨by decide, by decide, by decide, by decide, by decide, by decide, by decide⟩

/-! ## The ledger as a list -/

theorem map_find_none_iff (m : List (Nat × alloc_info)) (k : Nat) :
    map_find m k = none ↔ ∀ kv ∈ m, kv.1 ≠ k := by
  induction m with
  | nil => simp [map_find]
  | cons a m ih =>
    obtain ⟨k', v⟩ := a
    simp only [map_find, List.mem_cons, forall_eq_or_imp]
    split_ifs with h
    · simp [h]
    · rw [ih]; simp [h]

theorem map_find_some_mem (m : List (Nat × alloc_info)) (k : Nat) (v : alloc_info)
    (h : map_find m k = some v) : (k, v) ∈ m := by
  induction m with
  | nil => simp [map_find] at h
  | cons a m ih =>
    obtain ⟨k', v'⟩ := a
    simp only [map_find] at h
    split_ifs at h with hk
    · simp only [Option.some.injEq] at h
      subst hk; subst h
      exact List.mem_cons_self _ _
    · exact List.mem_cons_of_mem _ (ih h)

theorem map_find_of_mem (m : List (Nat × alloc_info)) (k : Nat) (v : alloc_info)
    (hn : (m.map Prod.fst).Nodup) (h : (k, v) ∈ m) : map_find m k = some v := by
  induction m with
  | nil => simp at h
  | cons a m ih =>
    obtain ⟨k', v'⟩ := a
    simp only [List.map_cons, List.nodup_cons, List.mem_map, not_exists, not_and] at hn
    simp only [map_find]
    rcases List.mem_cons.1 h with heq | hmem
    · simp only [Prod.mk.injEq] at heq
      obtain ⟨rfl, rfl⟩ := heq
      simp
    · have hne : k' ≠ k := fun e => hn.1 (k, v) hmem e.symm
      rw [if_neg hne]
      exact ih hn.2 hmem

theorem map_assign_of_none (m : List (Nat × alloc_info)) (k : Nat) (v : alloc_info)
    (h : map_find m k = none) : map_assign m k v = (k, v) :: m := by
  simp only [map_assign, h]

theorem mem_map_erase (m : List (Nat × alloc_info)) (k : Nat) (kv : Nat × alloc_info) :
    kv ∈ map_erase m k ↔ kv ∈ m ∧ kv.1 ≠ k := by
  simp [map_erase]

theorem map_erase_sublist (m : List (Nat × alloc_info)) (k : Nat) :
    List.Sublist (map_erase m k) m :=
  List.filter_sublist m

theorem map_erase_keys_nodup (m : List (Nat × alloc_info)) (k : Nat)
    (h : (m.map Prod.fst).Nodup) : ((map_erase m k).map Prod.fst).Nodup :=
  List.Nodup.sublist ((map_erase_sublist m k).map Prod.fst) h

theorem map_erase_of_absent (m : List (Nat × alloc_info)) (k : Nat)
    (h : ∀ kv ∈ m, kv.1 ≠ k) : map_erase m k = m := by
  unfold map_erase
  rw [List.filter_eq_self]
  intro kv hkv
  simpa using h kv hkv

theorem map_find_erase_self (m : List (Nat × alloc_info)) (k : Nat) :
    map_find (map_erase m k) k = none := by
  rw [map_find_none_iff]
  intro kv hkv
  exact ((mem_map_erase m k kv).1 hkv).2

theorem map_erase_cons_self (m : List (Nat × alloc_info)) (k : Nat) (v : alloc_info) :
    map_erase ((k, v) :: m) k = map_erase m k := by
  simp [map_erase, List.filter_cons]

theorem map_erase_cons_other (m : List (Nat × alloc_info)) (k k' : Nat) (v : alloc_info)
    (h : k' ≠ k) : map_erase ((k', v) :: m) k = (k', v) :: map_erase m k := by
  simp [map_erase, List.filter_cons, h]

theorem map_find_erase_other (m : List (Nat × alloc_info)) (k k' : Nat) (h : k' ≠ k) :
    map_find (map_erase m k) k' = map_find m k' := by
  induction m with
  | nil => rfl
  | cons a m ih =>
    obtain ⟨k0, v0⟩ := a
    by_cases hk : k0 = k
    · subst hk
      have : k0 ≠ k' := fun e => h e.symm
      rw [map_erase_cons_self, ih]
      simp only [map_find, this, if_false]
    · rw [map_erase_cons_other m k k0 v0 hk]
      simp only [map_find]
      rw [ih]

/-- Erasing the record of a present key from a ledger with distinct keys
removes one entry, of that record's size. -/
theorem map_erase_counts (m : List (Nat × alloc_info)) (k : Nat) (v : alloc_info)
    (hn : (m.map Prod.fst).Nodup) (h : map_find m k = some v) :
    (map_erase m k).length + 1 = m.length ∧
    sum_sizes (map_erase m k) + v.size = sum_sizes m := by
  induction m with
  | nil => simp [map_find] at h
  | cons a m ih =>
    obtain ⟨k', v'⟩ := a
    simp only [List.map_cons, List.nodup_cons, List.mem_map, not_exists, not_and] at hn
    simp only [map_find] at h
    split_ifs at h with hk
    · simp only [Option.some.injEq] at h
      subst hk; subst h
      have hab : ∀ kv ∈ m, kv.1 ≠ k' := fun kv hkv e => hn.1 kv hkv e
      rw [map_erase_cons_self, map_erase_of_absent m k' hab]
      simp only [List.length_cons, sum_sizes, List.map_cons, List.sum_cons, true_and]
      omega
    · obtain ⟨i1, i2⟩ := ih hn.2 h
      rw [map_erase_cons_other m k k' v' hk]
      simp only [List.length_cons, sum_sizes, List.map_cons, List.sum_cons] at i1 i2 ⊢
      omega

/-- A list of distinct non-null 64-bit addresses has fewer than `2^64`
entries. -/
theorem keys_length_lt (l : List Nat) (hn : l.Nodup) (hb : ∀ k ∈ l, k ≠ 0 ∧ k < WORD) :
    l.length < WORD := by
  have hsub : l.toFinset ⊆ Finset.Ico 1 WORD := by
    intro x hx
    have := hb x (List.mem_toFinset.1 hx)
    simp only [Finset.mem_Ico]
    omega
  have hc := Finset.card_le_card hsub
  rw [List.toFinset_card_of_nodup hn, Nat.card_Ico] at hc
  have : 0 < WORD := by unfold WORD; positivity
  omega

/-! ## The statistics invariant -/

theorem releases_of_release (c : Bool) (ptr : Nat) :
    releases ((if c then [] else [Event.fprintf_stderr FMT_WILD_WRITE [Arg.ptr ptr]]) ++
      [Event.base_free ptr]) = 1 := by
  cases c <;> rfl

theorem fresh_key_of_request (s : State) (op : Op) (sz : Nat) (bm : Nat → Nat)
    (hr : op.request = some (sz, bm)) (hp : bm (raw_size sz) ≠ 0)
    (hf : fresh_key s op = true) :
    bm (raw_size sz) < WORD ∧ map_find s.active (bm (raw_size sz)) = none := by
  simp only [fresh_key, hr, Bool.and_eq_true, Bool.or_eq_true, decide_eq_true_eq,
    Option.isNone_iff_eq_none] at hf
  rcases hf with ⟨h1, h2 | h2⟩
  · exact absurd h2 hp
  · exact ⟨h1, h2⟩

theorem malloc_success_counters (s : State) (p sz : Nat) (file : String) (line : Int) :
    (malloc_success_state s p sz file line).gstats.nactive = (s.gstats.nactive + 1) % WORD ∧
    (malloc_success_state s p sz file line).gstats.active_size =
      (s.gstats.active_size + sz) % WORD ∧
    (malloc_success_state s p sz file line).gstats.ntotal = (s.gstats.ntotal + 1) % WORD ∧
    (malloc_success_state s p sz file line).gstats.total_size =
      (s.gstats.total_size + sz) % WORD ∧
    (malloc_success_state s p sz file line).gstats.nfail = s.gstats.nfail ∧
    (malloc_success_state s p sz file line).gstats.fail_size = s.gstats.fail_size := by
  simp only [malloc_success_state]
  exact update_heap_bounds_fields _ _ _

theorem counters_ok_init (mem : Nat → Nat) : counters_ok (State.init mem) 0 0 := by
  refine ⟨⟨?_, ?_⟩, rfl, rfl, rfl, ?_⟩
  · simp [State.init]
  · intro kv hkv; simp [State.init] at hkv
  · simp [State.init]

theorem counters_ok_step (s : State) (op : Op) (k n : Nat) (h : counters_ok s k n)
    (hf : fresh_key s op = true) :
    counters_ok (step s op).1 (k + releases (step s op).2) (n + 1) := by
  obtain ⟨⟨hnd, hkeys⟩, hna, hnt, has, hle⟩ := h
  have hlen : s.active.length < WORD := by
    have := keys_length_lt (s.active.map Prod.fst) hnd (by
      intro x hx
      obtain ⟨kv, hkv, rfl⟩ := List.mem_map.1 hx
      exact hkeys kv hkv)
    simpa using this
  unfold counters_ok keys_ok
  rcases step_cases s op with ⟨⟨ha, _, nf, fs, hg⟩, hrel⟩ |
      ⟨sz, bm, file, line, hr, hp, ha, _, hg, ht⟩ |
      ⟨ptr, file, line, info, _, _, _, _, hm, hs, ht⟩
  · rw [hrel]
    refine ⟨⟨?_, ?_⟩, ?_, ?_, ?_, ?_⟩
    · rw [ha]; exact hnd
    · rw [ha]; exact hkeys
    · rw [ha, hg]; exact hna
    · rw [ha, hg]; exact hnt
    · rw [ha, hg]; exact has
    · rw [ha]; omega
  · obtain ⟨hpw, hnone⟩ := fresh_key_of_request s op sz bm hr hp hf
    have hact : (step s op).1.active =
        (bm (raw_size sz), { size := sz, file := file, line := line }) :: s.active := by
      rw [ha]
      simp only [malloc_success_state]
      exact map_assign_of_none _ _ _ hnone
    have hnd' : (((bm (raw_size sz), ({ size := sz, file := file, line := line } : alloc_info))
        :: s.active).map Prod.fst).Nodup := by
      simp only [List.map_cons, List.nodup_cons]
      refine ⟨?_, hnd⟩
      intro hx
      obtain ⟨kv, hkv, he⟩ := List.mem_map.1 hx
      exact (map_find_none_iff _ _).1 hnone kv hkv he
    have hkeys' : ∀ kv ∈ ((bm (raw_size sz), ({ size := sz, file := file, line := line } :
        alloc_info)) :: s.active), kv.1 ≠ 0 ∧ kv.1 < WORD := by
      intro kv hkv
      rcases List.mem_cons.1 hkv with rfl | hkv
      · exact ⟨hp, hpw⟩
      · exact hkeys kv hkv
    have hlen' : s.active.length + 1 < WORD := by
      have := keys_length_lt _ hnd' (by
        intro x hx
        obtain ⟨kv, hkv, rfl⟩ := List.mem_map.1 hx
        exact hkeys' kv hkv)
      simpa using this
    have hrel : releases (step s op).2 = 0 := by rw [ht]; rfl
    obtain ⟨f1, f2, f3, _, _, _⟩ := malloc_success_counters s (bm (raw_size sz)) sz file line
    rw [hrel, hact, hg, f1, f2, f3]
    refine ⟨⟨hnd', hkeys'⟩, ?_, ?_, ?_, ?_⟩
    · simp only [List.length_cons]
      rw [hna]
      exact Nat.mod_eq_of_lt hlen'
    · simp only [List.length_cons]
      rw [hnt]
      unfold WORD
      omega
    · simp only [sum_sizes, List.map_cons, List.sum_cons] at has ⊢
      rw [has]
      unfold WORD
      omega
    · simp only [List.length_cons]
      omega
  · obtain ⟨c1, c2⟩ := map_erase_counts s.active ptr info hnd hm
    have hrel : releases (step s op).2 = 1 := by rw [ht]; exact releases_of_release _ _
    have hpos : 0 < s.gstats.nactive := by omega
    rw [hrel, hs]
    simp only [release_state, hpos, if_true]
    refine ⟨⟨map_erase_keys_nodup _ _ hnd, ?_⟩, ?_, ?_, ?_, ?_⟩
    · intro kv hkv
      exact hkeys kv ((mem_map_erase _ _ _).1 hkv).1
    · omega
    · rw [hnt]
      have : (map_erase s.active ptr).length + (k + 1) = s.active.length + k := by omega
      rw [this]
    · rw [has, ← c2]
      unfold sub64 WORD
      omega
    · omega

theorem counters_ok_run (mem : Nat → Nat) (ops : List Op)
    (h : admissible fresh_key (State.init mem) ops = true) :
    counters_ok (run (State.init mem) ops).1 (releases (run (State.init mem) ops).2)
      ops.length := by
  have := run_preserves_counting fresh_key counters_ok counters_ok_step (State.init mem) ops 0 0
    (counters_ok_init mem) h
  simpa using this

/-- C8: in every state reached from the initial state by calls of
`m61_malloc`, `m61_calloc` and `m61_free` during which `base_malloc` never
answers with a live ledger key, `nactive` is the number of ledger records,
`nactive = ntotal - releases` in 64-bit arithmetic (and exactly, as long as
fewer than `2^64` calls were made), `active_size` is the sum of the sizes of
the ledger records modulo `2^64`, and `nactive > 0` whenever the ledger holds
a record, so the guard before `--gstats.nactive` never fails when reached. -/
theorem statistics_invariant (mem : Nat → Nat) (ops : List Op)
    (h : admissible fresh_key (State.init mem) ops = true) :
    (run (State.init mem) ops).1.gstats.nactive = (run (State.init mem) ops).1.active.length ∧
    (run (State.init mem) ops).1.gstats.nactive =
      sub64 (run (State.init mem) ops).1.gstats.ntotal (releases (run (State.init mem) ops).2) ∧
    (ops.length < WORD →
      releases (run (State.init mem) ops).2 ≤ (run (State.init mem) ops).1.gstats.ntotal ∧
      (run (State.init mem) ops).1.gstats.nactive =
        (run (State.init mem) ops).1.gstats.ntotal - releases (run (State.init mem) ops).2) ∧
    (run (State.init mem) ops).1.gstats.active_size =
      sum_sizes (run (State.init mem) ops).1.active % WORD ∧
    (∀ ptr info, map_find (run (State.init mem) ops).1.active ptr = some info →
      0 < (run (State.init mem) ops).1.gstats.nactive) := by
  obtain ⟨⟨hnd, hkeys⟩, hna, hnt, has, hle⟩ := counters_ok_run mem ops h
  have hlen : (run (State.init mem) ops).1.active.length < WORD := by
    have := keys_length_lt ((run (State.init mem) ops).1.active.map Prod.fst) hnd (by
      intro x hx
      obtain ⟨kv, hkv, rfl⟩ := List.mem_map.1 hx
      exact hkeys kv hkv)
    simpa using this
  refine ⟨hna, ?_, ?_, has, ?_⟩
  · rw [hna, hnt]
    unfold sub64 WORD at *
    omega
  · intro hlt
    have e : ((run (State.init mem) ops).1.active.length +
        releases (run (State.init mem) ops).2) % WORD =
        (run (State.init mem) ops).1.active.length + releases (run (State.init mem) ops).2 :=
      Nat.mod_eq_of_lt (by omega)
    rw [hna, hnt, e]
    omega
  · intro ptr info hm
    have hmem := map_find_some_mem _ _ _ hm
    have : 0 < (run (State.init mem) ops).1.active.length := List.length_pos_of_mem hmem
    omega

/-- Witness for C8: the first three calls of test54a, answered with 4096 and 8192. -/
theorem statistics_invariant_witness :
    (run (State.init (fun _ => 0))
      [Op.malloc 32 "test54a.cc" 6 (fun _ => 4096), Op.malloc 48 "test54a.cc" 8 (fun _ => 8192),
       Op.free 4096 "test54a.cc" 11]).1.gstats.nactive = 1 ∧
    (run (State.init (fun _ => 0))
      [Op.malloc 32 "test54a.cc" 6 (fun _ => 4096), Op.malloc 48 "test54a.cc" 8 (fun _ => 8192),
       Op.free 4096 "test54a.cc" 11]).1.gstats.active_size = 48 := by
  have h := statistics_invariant (fun _ => 0)
    [Op.malloc 32 "test54a.cc" 6 (fun _ => 4096), Op.malloc 48 "test54a.cc" 8 (fun _ => 8192),
     Op.free 4096 "test54a.cc" 11] (by decide)
  exact ⟨h.1.trans (by decide), h.2.2.2.1.trans (by decide)⟩

/-! ## Disjoint raw blocks -/

theorem raw_size_ge (sz : Nat) : sz + 16 ≤ raw_size sz ∧ 17 ≤ raw_size sz := by
  unfold raw_size M61_CANARY_SIZE
  split_ifs <;> omega

/-- Pairwise disjoint raw blocks inside the address space are covered by a
set of addresses whose cardinality is the sum of their lengths. -/
theorem raw_blocks_cover (l : List (Nat × alloc_info))
    (hp : l.Pairwise (fun a b => raw_disjoint a.1 (raw_size a.2.size) b))
    (hb : ∀ kv ∈ l, kv.1 + raw_size kv.2.size ≤ WORD) :
    ∃ F : Finset Nat, F.card = (l.map (fun kv => raw_size kv.2.size)).sum ∧
      ∀ x ∈ F, x < WORD ∧ ∃ kv ∈ l, kv.1 ≤ x ∧ x < kv.1 + raw_size kv.2.size := by
  induction l with
  | nil => exact ⟨∅, by simp, by simp⟩
  | cons a l ih =>
    rw [List.pairwise_cons] at hp
    obtain ⟨F, hF, hx⟩ := ih hp.2 (fun kv hkv => hb kv (List.mem_cons_of_mem _ hkv))
    have hdis : Disjoint (Finset.Ico a.1 (a.1 + raw_size a.2.size)) F := by
      rw [Finset.disjoint_left]
      intro x hxa hxF
      obtain ⟨_, kv, hkv, h1, h2⟩ := hx x hxF
      have hd := hp.1 kv hkv
      unfold raw_disjoint at hd
      simp only [Finset.mem_Ico] at hxa
      omega
    refine ⟨Finset.Ico a.1 (a.1 + raw_size a.2.size) ∪ F, ?_, ?_⟩
    · rw [Finset.card_union_of_disjoint hdis, Nat.card_Ico, hF]
      simp only [List.map_cons, List.sum_cons]
      omega
    · intro x hxm
      rcases Finset.mem_union.1 hxm with hxa | hxF
      · simp only [Finset.mem_Ico] at hxa
        have := hb a (List.mem_cons_self _ _)
        exact ⟨by omega, a, List.mem_cons_self _ _, hxa.1, hxa.2⟩
      · obtain ⟨h1, kv, hkv, h2⟩ := hx x hxF
        exact ⟨h1, kv, List.mem_cons_of_mem _ hkv, h2⟩

theorem raw_total_le (l : List (Nat × alloc_info))
    (hp : l.Pairwise (fun a b => raw_disjoint a.1 (raw_size a.2.size) b))
    (hb : ∀ kv ∈ l, kv.1 + raw_size kv.2.size ≤ WORD) :
    (l.map (fun kv => raw_size kv.2.size)).sum ≤ WORD := by
  obtain ⟨F, hF, hx⟩ := raw_blocks_cover l hp hb
  have hsub : F ⊆ Finset.range WORD := by
    intro x hxF
    exact Finset.mem_range.2 (hx x hxF).1
  have := Finset.card_le_card hsub
  rw [Finset.card_range] at this
  omega

theorem sizes_le_raw_total (l : List (Nat × alloc_info)) :
    sum_sizes l + 16 * l.length ≤ (l.map (fun kv => raw_size kv.2.size)).sum := by
  induction l with
  | nil => simp [sum_sizes]
  | cons a l ih =>
    have := (raw_size_ge a.2.size).1
    simp only [sum_sizes, List.map_cons, List.sum_cons, List.length_cons] at ih ⊢
    omega

/-- With disjoint raw blocks, the total user size and the number of records
stay below `2^64`. -/
theorem disjoint_blocks_small (l : List (Nat × alloc_info))
    (hp : l.Pairwise (fun a b => raw_disjoint a.1 (raw_size a.2.size) b))
    (hb : ∀ kv ∈ l, kv.1 + raw_size kv.2.size ≤ WORD) :
    sum_sizes l + 16 * l.length ≤ WORD :=
  le_trans (sizes_le_raw_total l) (raw_total_le l hp hb)

theorem raw_disjoint_symm (a b : Nat × alloc_info)
    (h : raw_disjoint a.1 (raw_size a.2.size) b) : raw_disjoint b.1 (raw_size b.2.size) a := by
  unfold raw_disjoint at h ⊢
  omega

/-- Two different records of a ledger with disjoint raw blocks are disjoint,
whatever their order. -/
theorem blocks_disjoint_of_mem (l : List (Nat × alloc_info))
    (hp : l.Pairwise (fun a b => raw_disjoint a.1 (raw_size a.2.size) b))
    (a b : Nat × alloc_info) (ha : a ∈ l) (hb : b ∈ l) (hne : a ≠ b) :
    raw_disjoint a.1 (raw_size a.2.size) b := by
  induction l with
  | nil => simp at ha
  | cons c l ih =>
    rw [List.pairwise_cons] at hp
    rcases List.mem_cons.1 ha with rfl | ha'
    · rcases List.mem_cons.1 hb with rfl | hb'
      · exact absurd rfl hne
      · exact hp.1 b hb'
    · rcases List.mem_cons.1 hb with rfl | hb'
      · exact raw_disjoint_symm _ _ (hp.1 a ha')
      · exact ih hp.2 ha' hb'

theorem keys_nodup_of_disjoint (l : List (Nat × alloc_info))
    (hp : l.Pairwise (fun a b => raw_disjoint a.1 (raw_size a.2.size) b)) :
    (l.map Prod.fst).Nodup := by
  induction l with
  | nil => simp
  | cons a l ih =>
    rw [List.pairwise_cons] at hp
    simp only [List.map_cons, List.nodup_cons]
    refine ⟨?_, ih hp.2⟩
    intro hx
    obtain ⟨kv, hkv, he⟩ := List.mem_map.1 hx
    have hd := hp.1 kv hkv
    have h1 := (raw_size_ge a.2.size).2
    have h2 := (raw_size_ge kv.2.size).2
    unfold raw_disjoint at hd
    omega

theorem well_behaved_of_request (s : State) (op : Op) (sz : Nat) (bm : Nat → Nat)
    (hr : op.request = some (sz, bm)) (hp : bm (raw_size sz) ≠ 0)
    (hw : well_behaved s op = true) :
    bm (raw_size sz) + raw_size sz ≤ WORD ∧
    ∀ kv ∈ s.active, raw_disjoint (bm (raw_size sz)) (raw_size sz) kv := by
  simp only [well_behaved, hr, Bool.and_eq_true, Bool.or_eq_true, decide_eq_true_eq,
    List.all_eq_true] at hw
  rcases hw with h | ⟨h1, h2⟩
  · exact absurd h hp
  · exact ⟨h1, h2⟩

theorem blocks_ok_init (mem : Nat → Nat) : blocks_ok (State.init mem) := by
  refine ⟨?_, ?_, ?_, rfl, rfl⟩
  · simp [State.init]
  · intro kv hkv; simp [State.init] at hkv
  · intro kv hkv; simp [State.init] at hkv

theorem blocks_ok_step (s : State) (op : Op) (h : blocks_ok s)
    (hw : well_behaved s op = true) : blocks_ok (step s op).1 := by
  obtain ⟨hpw, hin, hbd, hna, has⟩ := h
  have hsmall := disjoint_blocks_small s.active hpw (fun kv hkv => (hin kv hkv).2)
  unfold blocks_ok
  rcases step_cases s op with ⟨⟨ha, _, nf, fs, hg⟩, _⟩ |
      ⟨sz, bm, file, line, hr, hp, ha, _, hg, _⟩ |
      ⟨ptr, file, line, info, _, _, _, _, hm, hs, _⟩
  · rw [ha, hg]
    exact ⟨hpw, hin, hbd, hna, has⟩
  · obtain ⟨hfit, hdis⟩ := well_behaved_of_request s op sz bm hr hp hw
    have hrs := raw_size_ge sz
    have hnone : map_find s.active (bm (raw_size sz)) = none := by
      rw [map_find_none_iff]
      intro kv hkv he
      have hd := hdis kv hkv
      have h2 := (raw_size_ge kv.2.size).2
      unfold raw_disjoint at hd
      omega
    have hact : (step s op).1.active =
        (bm (raw_size sz), { size := sz, file := file, line := line }) :: s.active := by
      rw [ha]
      simp only [malloc_success_state]
      exact map_assign_of_none _ _ _ hnone
    have hpw' : ((bm (raw_size sz), ({ size := sz, file := file, line := line } : alloc_info))
        :: s.active).Pairwise (fun a b => raw_disjoint a.1 (raw_size a.2.size) b) :=
      List.pairwise_cons.2 ⟨hdis, hpw⟩
    have hin' : ∀ kv ∈ ((bm (raw_size sz), ({ size := sz, file := file, line := line } :
        alloc_info)) :: s.active), kv.1 ≠ 0 ∧ kv.1 + raw_size kv.2.size ≤ WORD := by
      intro kv hkv
      rcases List.mem_cons.1 hkv with rfl | hkv
      · exact ⟨hp, hfit⟩
      · exact hin kv hkv
    have hsmall' := disjoint_blocks_small _ hpw' (fun kv hkv => (hin' kv hkv).2)
    simp only [sum_sizes, List.map_cons, List.sum_cons, List.length_cons] at hsmall'
    obtain ⟨f1, f2, _, _, _, _⟩ := malloc_success_counters s (bm (raw_size sz)) sz file line
    rw [hact, hg, f1, f2]
    refine ⟨hpw', hin', ?_, ?_, ?_⟩
    · intro kv hkv hsz
      rcases List.mem_cons.1 hkv with rfl | hkv
      · simp only [malloc_success_state]
        refine update_heap_bounds_covers _ _ _ hp hsz ?_
        dsimp only
        omega
      · obtain ⟨b1, b2, b3⟩ := hbd kv hkv hsz
        have hwd := step_bounds_widen s op b1
        rw [hg] at hwd
        exact ⟨hwd.1, le_trans hwd.2.1 b2, le_trans b3 hwd.2.2⟩
    · simp only [List.length_cons]
      rw [hna]
      apply Nat.mod_eq_of_lt
      omega
    · simp only [sum_sizes, List.map_cons, List.sum_cons] at has ⊢
      rw [has]
      rw [Nat.mod_eq_of_lt (by omega)]
      omega
  · have hnd := keys_nodup_of_disjoint s.active hpw
    obtain ⟨c1, c2⟩ := map_erase_counts s.active ptr info hnd hm
    obtain ⟨b1, b2⟩ := release_state_bounds s ptr info.size
    have hpos : 0 < s.gstats.nactive := by omega
    rw [hs, b1, b2]
    simp only [release_state, hpos, if_true]
    refine ⟨hpw.sublist (map_erase_sublist _ _), ?_, ?_, ?_, ?_⟩
    · intro kv hkv
      exact hin kv ((mem_map_erase _ _ _).1 hkv).1
    · intro kv hkv hsz
      exact hbd kv ((mem_map_erase _ _ _).1 hkv).1 hsz
    · omega
    · rw [has, ← c2]
      unfold sub64
      rw [← c2] at hsmall
      have hW : WORD = 2 ^ 64 := rfl
      rw [hW] at hsmall ⊢
      omega

theorem blocks_ok_run (mem : Nat → Nat) (ops : List Op)
    (h : admissible well_behaved (State.init mem) ops = true) :
    blocks_ok (run (State.init mem) ops).1 :=
  run_preserves_of_admissible well_behaved blocks_ok blocks_ok_step _ ops
    (blocks_ok_init mem) h

/-! ## The interior scan -/

theorem interior_scan_some (a : Nat) (l : List (Nat × alloc_info)) (r : Nat × alloc_info)
    (h : interior_scan a l = some r) :
    r ∈ l ∧ 0 < r.2.size ∧ r.1 ≤ a ∧ a ≤ (r.1 + (r.2.size - 1)) % WORD := by
  induction l with
  | nil => simp [interior_scan] at h
  | cons c l ih =>
    obtain ⟨base, ai⟩ := c
    simp only [interior_scan] at h
    split_ifs at h with h1 h2
    · simp only [Option.some.injEq] at h
      subst h
      exact ⟨List.mem_cons_self _ _, h1, h2.1, h2.2⟩
    · obtain ⟨i1, i2⟩ := ih h
      exact ⟨List.mem_cons_of_mem _ i1, i2⟩
    · obtain ⟨i1, i2⟩ := ih h
      exact ⟨List.mem_cons_of_mem _ i1, i2⟩

theorem interior_scan_none (a : Nat) (l : List (Nat × alloc_info))
    (h : interior_scan a l = none) (r : Nat × alloc_info) (hr : r ∈ l) :
    ¬ (0 < r.2.size ∧ r.1 ≤ a ∧ a ≤ (r.1 + (r.2.size - 1)) % WORD) := by
  induction l with
  | nil => simp at hr
  | cons c l ih =>
    obtain ⟨base, ai⟩ := c
    simp only [interior_scan] at h
    split_ifs at h with h1 h2
    · rcases List.mem_cons.1 hr with rfl | hr'
      · rintro ⟨_, q⟩; exact h2 q
      · exact ih h hr'
    · rcases List.mem_cons.1 hr with rfl | hr'
      · rintro ⟨q, _⟩; exact h1 q
      · exact ih h hr'

theorem fence_ok_iff (mem : Nat → Nat) (fence : Nat) :
    fence_ok mem fence = true ↔ ∀ i < M61_CANARY_SIZE, mem (fence + i) = M61_CANARY_BYTE := by
  simp [fence_ok]

/-- In a state with disjoint raw blocks, an address strictly inside the user
range of a live block is not a ledger key, and the interior scan finds that
block and no other. -/
theorem interior_of_live (s : State) (hs : blocks_ok s) (B k : Nat) (info : alloc_info)
    (hlive : map_find s.active B = some info) (hk0 : 0 < k) (hk : k < info.size) :
    B + k ≠ 0 ∧ ¬ not_in_heap s (B + k) ∧ map_find s.active (B + k) = none ∧
    interior_scan (B + k) s.active = some (B, info) := by
  obtain ⟨hpw, hin, hbd, _, _⟩ := hs
  have hmem := map_find_some_mem _ _ _ hlive
  obtain ⟨hB0, hBfit⟩ := hin _ hmem
  have hraw := (raw_size_ge info.size).1
  obtain ⟨m1, m2, m3⟩ := hbd _ hmem (by dsimp only; omega)
  dsimp only at hBfit m2 m3
  have hone : ∀ r ∈ s.active, r.1 ≤ B + k → B + k < r.1 + raw_size r.2.size → r = (B, info) := by
    intro r hr h1 h2
    by_contra hne
    have hd := blocks_disjoint_of_mem s.active hpw r (B, info) hr hmem hne
    unfold raw_disjoint at hd
    dsimp only at hd
    omega
  refine ⟨by omega, ?_, ?_, ?_⟩
  · unfold not_in_heap
    omega
  · rw [map_find_none_iff]
    intro r hr he
    have h17 := (raw_size_ge r.2.size).2
    have := hone r hr (by omega) (by omega)
    rw [this] at he
    dsimp only at he
    omega
  · cases hi : interior_scan (B + k) s.active with
    | none =>
      exfalso
      refine interior_scan_none _ _ hi (B, info) hmem ⟨by dsimp only; omega, by dsimp only; omega, ?_⟩
      dsimp only
      rw [Nat.mod_eq_of_lt (by omega)]
      omega
    | some r =>
      obtain ⟨r1, r2, r3, r4⟩ := interior_scan_some _ _ _ hi
      have hrfit := (hin r r1).2
      have hrraw := (raw_size_ge r.2.size).1
      rw [Nat.mod_eq_of_lt (by omega)] at r4
      rw [hone r r1 r3 (by omega)]

/-- C4 (counterexample): with a well-behaved raw allocator, `malloc(8)` at
1008, `free(1008)`, then `malloc(32)` at 1000 leaves a live block at base 1000
of size 32 whose interior address 1000 + 8 is still in the freed-address set;
`m61_free(1000 + 8)` reports "double free", not "not allocated" with the
continuation line. -/
theorem interior_free_reported_as_double_free :
    admissible well_behaved (State.init (fun _ => 0))
      [Op.malloc 8 "t.cc" 6 (fun _ => 1008), Op.free 1008 "t.cc" 7,
       Op.malloc 32 "t.cc" 8 (fun _ => 1000)] = true ∧
    map_find (run (State.init (fun _ => 0))
      [Op.malloc 8 "t.cc" 6 (fun _ => 1008), Op.free 1008 "t.cc" 7,
       Op.malloc 32 "t.cc" 8 (fun _ => 1000)]).1.active 1000 =
        some { size := 32, file := "t.cc", line := 8 } ∧
    (0 < 8 ∧ 8 < 32) ∧
    (m61_free (run (State.init (fun _ => 0))
      [Op.malloc 8 "t.cc" 6 (fun _ => 1008), Op.free 1008 "t.cc" 7,
       Op.malloc 32 "t.cc" 8 (fun _ => 1000)]).1 (1000 + 8) "t.cc" 9).2 =
      [Event.fprintf_stderr FMT_DOUBLE_FREE [Arg.str "t.cc", Arg.long 9, Arg.ptr 1008]] ∧
    (m61_free (run (State.init (fun _ => 0))
      [Op.malloc 8 "t.cc" 6 (fun _ => 1008), Op.free 1008 "t.cc" 7,
       Op.malloc 32 "t.cc" 8 (fun _ => 1000)]).1 (1000 + 8) "t.cc" 9).2 ≠
      [Event.fprintf_stderr FMT_NOT_ALLOCATED [Arg.str "t.cc", Arg.long 9, Arg.ptr 1008],
       Event.fprintf_stderr FMT_INSIDE
         [Arg.str "t.cc", Arg.long 8, Arg.ptr 1008, Arg.zu 8, Arg.zu 32]] := by
  refine ⟨by decide, by decide, by decide, by decide, by decide⟩

/-- C4 (amended): in every state reached with a well-behaved raw allocator
that holds a live block with base `B`, size `S` and site `(file, line)`, for
every `k` with `0 < k < S` such that `B + k` is not in the freed-address set,
`m61_free(B + k)` leaves the whole state unchanged and its trace is the report
"not allocated" at the free site followed by the continuation line with the
block's site, the offset `k` and the size `S`. -/
theorem interior_free_detected (mem : Nat → Nat) (ops : List Op)
    (hadm : admissible well_behaved (State.init mem) ops = true)
    (B k : Nat) (info : alloc_info)
    (hlive : map_find (run (State.init mem) ops).1.active B = some info)
    (hk0 : 0 < k) (hk : k < info.size)
    (hnf : B + k ∉ (run (State.init mem) ops).1.freed_bases)
    (file : String) (line : Int) :
    m61_free (run (State.init mem) ops).1 (B + k) file line =
      ((run (State.init mem) ops).1,
       [Event.fprintf_stderr FMT_NOT_ALLOCATED [Arg.str file, Arg.long line, Arg.ptr (B + k)],
        Event.fprintf_stderr FMT_INSIDE
          [Arg.str info.file, Arg.long info.line, Arg.ptr (B + k), Arg.zu k,
           Arg.zu info.size]]) := by
  obtain ⟨h0, hin, hm, hi⟩ :=
    interior_of_live _ (blocks_ok_run mem ops hadm) B k info hlive hk0 hk
  rw [m61_free_of_interior _ (B + k) file line B info h0 hin hnf hm hi]
  simp

/-- Witness for C4 (amended): `malloc(32)` at 1000, then `free(1000 + 8)`. -/
theorem interior_free_detected_witness :
    m61_free (run (State.init (fun _ => 0)) [Op.malloc 32 "t.cc" 8 (fun _ => 1000)]).1
        (1000 + 8) "t.cc" 9 =
      ((run (State.init (fun _ => 0)) [Op.malloc 32 "t.cc" 8 (fun _ => 1000)]).1,
       [Event.fprintf_stderr FMT_NOT_ALLOCATED [Arg.str "t.cc", Arg.long 9, Arg.ptr (1000 + 8)],
        Event.fprintf_stderr FMT_INSIDE
          [Arg.str ({ size := 32, file := "t.cc", line := 8 } : alloc_info).file,
           Arg.long ({ size := 32, file := "t.cc", line := 8 } : alloc_info).line,
           Arg.ptr (1000 + 8), Arg.zu 8,
           Arg.zu ({ size := 32, file := "t.cc", line := 8 } : alloc_info).size]]) :=
  interior_free_detected (fun _ => 0) [Op.malloc 32 "t.cc" 8 (fun _ => 1000)] (by decide)
    1000 8 { size := 32, file := "t.cc", line := 8 } (by decide) (by decide) (by decide)
    (by decide) "t.cc" 9

/-! ## Release of a live block -/

theorem mem_release_trace (c : Bool) (ptr : Nat) (e : Event) :
    e ∈ (if c then [] else [Event.fprintf_stderr FMT_WILD_WRITE [Arg.ptr ptr]]) ++
      [Event.base_free ptr] ↔
    (c = false ∧ e = Event.fprintf_stderr FMT_WILD_WRITE [Arg.ptr ptr]) ∨
      e = Event.base_free ptr := by
  cases c <;> simp

/-- C5: in every state reached with a well-behaved raw allocator, for a live
base `B` of size `n` that lies within the heap bounds and is not in the
freed-address set, `m61_free(B)` prints "detected wild write during free"
exactly when one of the 16 bytes at `B+n .. B+n+15` differs from 0xA5; in both
cases the trace ends with the single call `base_free(B)`, the record of `B` is
removed from the ledger (the other records stay), `active_size` decreases by
exactly `n`, `nactive` decreases by 1 and `B` is in the freed-address set. -/
theorem overrun_does_not_block_reclamation (mem : Nat → Nat) (ops : List Op)
    (hadm : admissible well_behaved (State.init mem) ops = true)
    (B : Nat) (info : alloc_info)
    (hlive : map_find (run (State.init mem) ops).1.active B = some info)
    (hheap : (run (State.init mem) ops).1.gstats.heap_min ≠ 0 ∧
      (run (State.init mem) ops).1.gstats.heap_min ≤ B ∧
      B ≤ (run (State.init mem) ops).1.gstats.heap_max)
    (hnf : B ∉ (run (State.init mem) ops).1.freed_bases)
    (file : String) (line : Int) :
    (Event.fprintf_stderr FMT_WILD_WRITE [Arg.ptr B] ∈
        (m61_free (run (State.init mem) ops).1 B file line).2 ↔
      ∃ i, i < 16 ∧ (run (State.init mem) ops).1.mem (B + info.size + i) ≠ 165) ∧
    (m61_free (run (State.init mem) ops).1 B file line).2 =
      (if fence_ok (run (State.init mem) ops).1.mem (B + info.size) then []
       else [Event.fprintf_stderr FMT_WILD_WRITE [Arg.ptr B]]) ++ [Event.base_free B] ∧
    map_find (m61_free (run (State.init mem) ops).1 B file line).1.active B = none ∧
    (∀ k, k ≠ B → map_find (m61_free (run (State.init mem) ops).1 B file line).1.active k =
      map_find (run (State.init mem) ops).1.active k) ∧
    (m61_free (run (State.init mem) ops).1 B file line).1.gstats.active_size + info.size =
      (run (State.init mem) ops).1.gstats.active_size ∧
    (m61_free (run (State.init mem) ops).1 B file line).1.gstats.nactive + 1 =
      (run (State.init mem) ops).1.gstats.nactive ∧
    B ∈ (m61_free (run (State.init mem) ops).1 B file line).1.freed_bases := by
  have hb := blocks_ok_run mem ops hadm
  obtain ⟨hpw, hin, _, hna, has⟩ := hb
  have hmem := map_find_some_mem _ _ _ hlive
  have hB0 : B ≠ 0 := (hin _ hmem).1
  have hnh : ¬ not_in_heap (run (State.init mem) ops).1 B := by
    unfold not_in_heap; omega
  have hnd := keys_nodup_of_disjoint _ hpw
  obtain ⟨c1, c2⟩ := map_erase_counts _ B info hnd hlive
  have hsmall := disjoint_blocks_small _ hpw (fun kv hkv => (hin kv hkv).2)
  have hpos : 0 < (run (State.init mem) ops).1.gstats.nactive := by omega
  rw [m61_free_of_live _ B file line info hB0 hnh hnf hlive]
  refine ⟨?_, rfl, ?_, ?_, ?_, ?_, ?_⟩
  · rw [mem_release_trace]
    have hfo := fence_ok_iff (run (State.init mem) ops).1.mem (B + info.size)
    constructor
    · rintro (⟨hc, _⟩ | he)
      · by_contra hall
        have : fence_ok (run (State.init mem) ops).1.mem (B + info.size) = true := by
          rw [hfo]
          intro i hi
          by_contra hne
          exact hall ⟨i, hi, hne⟩
        rw [this] at hc
        exact absurd hc (by decide)
      · exact absurd he (by simp)
    · rintro ⟨i, hi, hne⟩
      left
      refine ⟨?_, rfl⟩
      cases hc : fence_ok (run (State.init mem) ops).1.mem (B + info.size) with
      | false => rfl
      | true => exact absurd (hfo.1 hc i hi) hne
  · simp only [release_state]
    exact map_find_erase_self _ _
  · intro k hk
    simp only [release_state]
    exact map_find_erase_other _ _ _ hk
  · simp only [release_state, hpos, if_true]
    rw [has, ← c2]
    rw [← c2] at hsmall
    unfold sub64
    have hW : WORD = 2 ^ 64 := rfl
    rw [hW] at hsmall ⊢
    omega
  · simp only [release_state, hpos, if_true]
    omega
  · simp only [release_state]
    exact (mem_set_insert _ _ _).2 (Or.inl rfl)

/-- Witness for C5: test49, a block of 16 ints at 4096 into which 18 ints
(72 zero bytes) are written before it is freed. -/
theorem overrun_does_not_block_reclamation_witness :
    Event.fprintf_stderr FMT_WILD_WRITE [Arg.ptr 4096] ∈
      (m61_free (run (State.init (fun _ => 0))
        (Op.malloc 64 "test49.cc" 8 (fun _ => 4096) ::
          (List.range 72).map (fun i => Op.store (4096 + i) 0))).1 4096 "test49.cc" 12).2 ∧
    (m61_free (run (State.init (fun _ => 0))
        (Op.malloc 64 "test49.cc" 8 (fun _ => 4096) ::
          (List.range 72).map (fun i => Op.store (4096 + i) 0))).1 4096
        "test49.cc" 12).1.gstats.active_size + 64 = 64 := by
  have h := overrun_does_not_block_reclamation (fun _ => 0)
    (Op.malloc 64 "test49.cc" 8 (fun _ => 4096) ::
      (List.range 72).map (fun i => Op.store (4096 + i) 0))
    (by decide) 4096 { size := 64, file := "test49.cc", line := 8 } (by decide) (by decide)
    (by decide) "test49.cc" 12
  exact ⟨h.1.2 ⟨0, by decide, by decide⟩, h.2.2.2.2.1.trans (by decide)⟩

/-! ## Failed allocations and the null free -/

/-- C11: a call `m61_malloc(sz)` that fails (the addition `max(sz,1) + 16`
overflows, or `base_malloc` answers null) returns `nullptr`, increments
`nfail`, adds the requested size `sz` to `fail_size` (both as 64-bit counters)
and leaves the ledger, the freed-address set, the heap bounds, `nactive`,
`active_size`, `ntotal`, `total_size` and the memory unchanged; a call that
returns `nullptr` failed in one of these two ways. -/
theorem m61_malloc_failure_is_atomic (bm : Nat → Nat) (s : State) (sz : Nat) (file : String)
    (line : Int) :
    ((SIZE_MAX < max sz 1 + M61_CANARY_SIZE ∨ bm (max sz 1 + M61_CANARY_SIZE) = 0) ↔
      (m61_malloc bm s sz file line).2.1 = 0) ∧
    ((m61_malloc bm s sz file line).2.1 = 0 →
      (m61_malloc bm s sz file line).1.gstats.nfail = (s.gstats.nfail + 1) % WORD ∧
      (m61_malloc bm s sz file line).1.gstats.fail_size = (s.gstats.fail_size + sz) % WORD ∧
      (m61_malloc bm s sz file line).1.active = s.active ∧
      (m61_malloc bm s sz file line).1.freed_bases = s.freed_bases ∧
      (m61_malloc bm s sz file line).1.mem = s.mem ∧
      (m61_malloc bm s sz file line).1.gstats.heap_min = s.gstats.heap_min ∧
      (m61_malloc bm s sz file line).1.gstats.heap_max = s.gstats.heap_max ∧
      (m61_malloc bm s sz file line).1.gstats.nactive = s.gstats.nactive ∧
      (m61_malloc bm s sz file line).1.gstats.active_size = s.gstats.active_size ∧
      (m61_malloc bm s sz file line).1.gstats.ntotal = s.gstats.ntotal ∧
      (m61_malloc bm s sz file line).1.gstats.total_size = s.gstats.total_size) := by
  rw [← raw_size_eq]
  by_cases h : raw_size sz ≤ SIZE_MAX
  · by_cases hp : bm (raw_size sz) = 0
    · rw [m61_malloc_of_null bm s sz file line h hp]
      simp [hp, record_failure]
    · rw [m61_malloc_of_success bm s sz file line h hp]
      have : ¬ SIZE_MAX < raw_size sz := by omega
      simp [hp, this]
  · rw [m61_malloc_of_overflow bm s sz file line (by omega)]
    have : SIZE_MAX < raw_size sz := by omega
    simp [this, record_failure]

/-- Witness for C11: `m61_malloc(SIZE_MAX)` in the initial state. -/
theorem m61_malloc_failure_is_atomic_witness :
    (m61_malloc (fun _ => 4096) (State.init (fun _ => 0)) SIZE_MAX "t.cc" 3).1.gstats.nfail = 1 ∧
    (m61_malloc (fun _ => 4096) (State.init (fun _ => 0)) SIZE_MAX "t.cc" 3).1.gstats.fail_size =
      SIZE_MAX ∧
    (m61_malloc (fun _ => 4096) (State.init (fun _ => 0)) SIZE_MAX "t.cc" 3).1.active = [] := by
  have h := (m61_malloc_failure_is_atomic (fun _ => 4096) (State.init (fun _ => 0)) SIZE_MAX
    "t.cc" 3).2 (by decide)
  exact ⟨h.1.trans (by decide), h.2.1.trans (by decide), h.2.2.1.trans rfl⟩

/-- C12: `m61_free(nullptr)` returns the state it was given (ledger, freed
set, statistics, heap bounds, memory) and has an empty trace: no report, no
call of `base_free`. -/
theorem m61_free_null_is_noop (s : State) (file : String) (line : Int) :
    m61_free s 0 file line = (s, []) :=
  m61_free_null s file line

/-! ## The ledger and the freed-address set are disjoint -/

theorem map_find_map_replace (m : List (Nat × alloc_info)) (k k' : Nat) (v : alloc_info) :
    map_find (m.map (fun kv => if kv.1 = k then (k, v) else kv)) k' =
      if k' = k then (map_find m k).map (fun _ => v) else map_find m k' := by
  induction m with
  | nil => simp [map_find]
  | cons a m ih =>
    obtain ⟨k0, v0⟩ := a
    rw [List.map_cons]
    dsimp only
    by_cases h0 : k0 = k
    · rw [if_pos h0]
      subst h0
      simp only [map_find, if_true]
      by_cases h1 : k' = k0
      · subst h1; simp
      · have : k0 ≠ k' := fun e => h1 e.symm
        simp only [if_neg this, if_neg h1, ih]
    · rw [if_neg h0]
      simp only [map_find, if_neg h0]
      by_cases h1 : k' = k
      · subst h1
        simp only [if_neg h0, ih, if_true]
      · simp only [ih, if_neg h1]

/-- The ledger after `active[k] = v`, read as a function of the key. -/
theorem map_find_assign (m : List (Nat × alloc_info)) (k k' : Nat) (v : alloc_info) :
    map_find (map_assign m k v) k' = if k' = k then some v else map_find m k' := by
  unfold map_assign
  cases h : map_find m k with
  | none =>
    simp only [map_find]
    by_cases h1 : k' = k
    · subst h1; simp
    · have : k ≠ k' := fun e => h1 e.symm
      simp [this, h1]
  | some v0 =>
    simp only []
    rw [map_find_map_replace]
    split_ifs <;> simp [h]

theorem freed_not_live_init (mem : Nat → Nat) : freed_not_live (State.init mem) := by
  intro a ha
  simp [State.init] at ha

theorem freed_not_live_step (s : State) (op : Op) (h : freed_not_live s) :
    freed_not_live (step s op).1 := by
  unfold freed_not_live
  rcases step_cases s op with ⟨⟨ha, hf, _⟩, _⟩ |
      ⟨sz, bm, file, line, _, _, ha, hf, _, _⟩ | ⟨ptr, file, line, info, _, _, _, _, _, hs, _⟩
  · rw [ha, hf]; exact h
  · rw [ha, hf]
    simp only [malloc_success_state]
    intro a hmem
    obtain ⟨h1, h2⟩ := (mem_set_erase _ _ _).1 hmem
    rw [map_find_assign, if_neg h2]
    exact h a h1
  · rw [hs]
    simp only [release_state]
    intro a hmem
    by_cases hp : a = ptr
    · subst hp; exact map_find_erase_self _ _
    · rw [map_find_erase_other _ _ _ hp]
      rcases (mem_set_insert _ _ _).1 hmem with h1 | h1
      · exact absurd h1 hp
      · exact h a h1

/-- C14: in every state reached from the initial state by calls of
`m61_malloc`, `m61_calloc` and `m61_free`, whatever `base_malloc` answers, no
address is both a member of the freed-address set and a key of the ledger. -/
theorem freed_set_disjoint_from_ledger (mem : Nat → Nat) (ops : List Op) (a : Nat)
    (hf : a ∈ (run (State.init mem) ops).1.freed_bases) :
    ∀ kv ∈ (run (State.init mem) ops).1.active, kv.1 ≠ a := by
  have h := run_preserves freed_not_live freed_not_live_step _ ops (freed_not_live_init mem)
  exact (map_find_none_iff _ _).1 (h a hf)

/-- Witness for C14: after the first three calls of test54a, 4096 is in the
freed-address set and is no ledger key. -/
theorem freed_set_disjoint_from_ledger_witness :
    map_find (run (State.init (fun _ => 0))
      [Op.malloc 32 "test54a.cc" 6 (fun _ => 4096), Op.malloc 48 "test54a.cc" 8 (fun _ => 8192),
       Op.free 4096 "test54a.cc" 11]).1.active 4096 = none :=
  (map_find_none_iff _ _).2 (freed_set_disjoint_from_ledger (fun _ => 0)
    [Op.malloc 32 "test54a.cc" 6 (fun _ => 4096), Op.malloc 48 "test54a.cc" 8 (fun _ => 8192),
     Op.free 4096 "test54a.cc" 11] 4096 (by decide))

/-! ## Zeroed allocation -/

theorem malloc_success_fence (s : State) (p sz : Nat) (file : String) (line : Int) (i : Nat)
    (hi : i < M61_CANARY_SIZE) :
    (malloc_success_state s p sz file line).mem (p + sz + i) = M61_CANARY_BYTE := by
  simp only [malloc_success_state, memset]
  rw [if_pos ⟨by omega, by omega⟩]

/-- C18: when `nmemb * sz` does not overflow, `m61_calloc(nmemb, sz)` returns
the pointer and has the trace of `m61_malloc(nmemb * sz)` with the same site
and leaves the same ledger, freed-address set and statistics (heap bounds
included); when it returns a non-null `p`, every byte of `[p, p + nmemb*sz)` is
0 and the 16 fence bytes from `p + nmemb*sz` on are all 0xA5; when `nmemb = 0`
or `sz = 0` the overflow test is false and the call is `m61_malloc(0)`. -/
theorem m61_calloc_refines_malloc (bm : Nat → Nat) (s : State) (nmemb sz : Nat)
    (file : String) (line : Int) :
    (nmemb * sz ≤ SIZE_MAX →
      (m61_calloc bm s nmemb sz file line).2 = (m61_malloc bm s (nmemb * sz) file line).2 ∧
      (m61_calloc bm s nmemb sz file line).1.active =
        (m61_malloc bm s (nmemb * sz) file line).1.active ∧
      (m61_calloc bm s nmemb sz file line).1.freed_bases =
        (m61_malloc bm s (nmemb * sz) file line).1.freed_bases ∧
      (m61_calloc bm s nmemb sz file line).1.gstats =
        (m61_malloc bm s (nmemb * sz) file line).1.gstats ∧
      ((m61_calloc bm s nmemb sz file line).2.1 ≠ 0 →
        (∀ x, (m61_calloc bm s nmemb sz file line).2.1 ≤ x →
          x < (m61_calloc bm s nmemb sz file line).2.1 + nmemb * sz →
          (m61_calloc bm s nmemb sz file line).1.mem x = 0) ∧
        (∀ i, i < 16 →
          (m61_calloc bm s nmemb sz file line).1.mem
            ((m61_calloc bm s nmemb sz file line).2.1 + nmemb * sz + i) = 165))) ∧
    ((nmemb = 0 ∨ sz = 0) →
      ¬ (sz ≠ 0 ∧ nmemb > SIZE_MAX / sz) ∧
      m61_calloc bm s nmemb sz file line = m61_malloc bm s 0 file line) := by
  constructor
  · intro hno
    rw [m61_calloc_of_no_overflow bm s nmemb sz file line hno]
    by_cases hp : (m61_malloc bm s (nmemb * sz) file line).2.1 = 0
    · have hc : ¬ ((m61_malloc bm s (nmemb * sz) file line).2.1 ≠ 0 ∧ nmemb * sz ≠ 0) :=
        fun h => h.1 hp
      rw [if_neg hc]
      exact ⟨rfl, rfl, rfl, rfl, fun h => absurd hp h⟩
    · obtain ⟨h1, h2⟩ := m61_malloc_nonnull bm s (nmemb * sz) file line hp
      have hm := m61_malloc_of_success bm s (nmemb * sz) file line h1 h2
      by_cases ht : nmemb * sz = 0
      · have hc : ¬ ((m61_malloc bm s (nmemb * sz) file line).2.1 ≠ 0 ∧ nmemb * sz ≠ 0) :=
          fun h => h.2 ht
        rw [if_neg hc]
        refine ⟨rfl, rfl, rfl, rfl, fun _ => ⟨?_, ?_⟩⟩
        · intro x h3 h4
          omega
        · intro i hi
          rw [hm]
          exact malloc_success_fence s _ _ file line i hi
      · rw [if_pos ⟨hp, ht⟩]
        refine ⟨rfl, rfl, rfl, rfl, fun _ => ⟨?_, ?_⟩⟩
        · intro x h3 h4
          simp only [memset]
          rw [if_pos ⟨h3, h4⟩]
        · intro i hi
          simp only [memset]
          rw [if_neg (by omega)]
          rw [hm]
          exact malloc_success_fence s _ _ file line i hi
  · intro h0
    have hz : nmemb * sz = 0 := by
      rcases h0 with h | h <;> simp [h]
    have hno : nmemb * sz ≤ SIZE_MAX := by omega
    refine ⟨?_, ?_⟩
    · rw [calloc_guard_iff]; omega
    · rw [m61_calloc_of_no_overflow bm s nmemb sz file line hno, hz]
      rw [if_neg (fun h => h.2 rfl)]

/-- Witness for C18: `m61_calloc(3, 5)` answered with 4096 in the initial
state, and `m61_calloc(0, 5)`. -/
theorem m61_calloc_refines_malloc_witness :
    ((m61_calloc (fun _ => 4096) (State.init (fun _ => 7)) 3 5 "t.cc" 4).2 =
        (m61_malloc (fun _ => 4096) (State.init (fun _ => 7)) (3 * 5) "t.cc" 4).2 ∧
      (m61_calloc (fun _ => 4096) (State.init (fun _ => 7)) 3 5 "t.cc" 4).1.mem 4100 = 0 ∧
      (m61_calloc (fun _ => 4096) (State.init (fun _ => 7)) 3 5 "t.cc" 4).1.mem
        ((m61_calloc (fun _ => 4096) (State.init (fun _ => 7)) 3 5 "t.cc" 4).2.1 + 3 * 5 + 15) =
          165) ∧
    m61_calloc (fun _ => 4096) (State.init (fun _ => 7)) 0 5 "t.cc" 4 =
      m61_malloc (fun _ => 4096) (State.init (fun _ => 7)) 0 "t.cc" 4 := by
  have h := (m61_calloc_refines_malloc (fun _ => 4096) (State.init (fun _ => 7)) 3 5 "t.cc" 4).1
    (by decide)
  have h2 := h.2.2.2.2 (by decide)
  exact ⟨⟨h.1, h2.1 4100 (by decide) (by decide), h2.2 15 (by decide)⟩,
    ((m61_calloc_refines_malloc (fun _ => 4096) (State.init (fun _ => 7)) 0 5 "t.cc" 4).2
      (Or.inl rfl)).2⟩

/-! ## How one call changes the statistics -/

/-- The statistics after one call: unchanged, a recorded failure of the
requested size, a recorded success of the requested size, or the bookkeeping
of a validated release. -/
theorem step_gstats (s : State) (op : Op) :
    (step s op).1.gstats = s.gstats ∨
    (step s op).1.gstats = record_failure s.gstats op.size ∨
    (∃ p file line, (step s op).1.gstats = (malloc_success_state s p op.size file line).gstats) ∨
    (∃ ptr n, (step s op).1.gstats = (release_state s ptr n).gstats ∧
      Event.base_free ptr ∈ (step s op).2) := by
  cases op with
  | malloc sz file line bm =>
    rcases m61_malloc_cases bm s sz file line with _ | ⟨h1, h2, h3⟩
    · right; left
      by_cases h : raw_size sz ≤ SIZE_MAX
      · by_cases hp : bm (raw_size sz) = 0
        · simp only [step, m61_malloc_of_null bm s sz file line h hp, Op.size]
        · rename_i hn
          rw [m61_malloc_of_success bm s sz file line h hp] at hn
          exact absurd hn.2.2.1 hp
      · simp only [step, m61_malloc_of_overflow bm s sz file line (by omega), Op.size]
    · right; right; left
      exact ⟨bm (raw_size sz), file, line, by simp only [step, h3, Op.size]⟩
  | calloc nmemb sz file line bm =>
    by_cases ho : SIZE_MAX < nmemb * sz
    · right; left
      simp only [step, m61_calloc_of_overflow bm s nmemb sz file line ho, Op.size]
      rfl
    · have hno : nmemb * sz ≤ SIZE_MAX := by omega
      have hm : (nmemb * sz) % WORD = nmemb * sz :=
        Nat.mod_eq_of_lt (by unfold SIZE_MAX at hno; unfold WORD; omega)
      have hg : (step s (Op.calloc nmemb sz file line bm)).1.gstats =
          (m61_malloc bm s (nmemb * sz) file line).1.gstats := by
        simp only [step, m61_calloc_of_no_overflow bm s nmemb sz file line hno]
        split_ifs <;> rfl
      rw [hg]
      simp only [Op.size, hm]
      by_cases h : raw_size (nmemb * sz) ≤ SIZE_MAX
      · by_cases hp : bm (raw_size (nmemb * sz)) = 0
        · right; left
          rw [m61_malloc_of_null bm s _ file line h hp]
        · right; right; left
          rw [m61_malloc_of_success bm s _ file line h hp]
          exact ⟨_, file, line, rfl⟩
      · right; left
        rw [m61_malloc_of_overflow bm s _ file line (by omega)]
  | free ptr file line =>
    by_cases h0 : ptr = 0
    · left
      subst h0
      simp only [step, m61_free_null]
    · rcases m61_free_outcome s ptr file line h0 with ⟨h1, _, _⟩ | ⟨info, _, _, _, h4, h5⟩
      · left
        simp only [step, h1]
      · right; right; right
        refine ⟨ptr, info.size, by simp only [step, h4], ?_⟩
        simp only [step, h5]
        exact List.mem_append_right _ (List.mem_singleton_self _)
  | store addr byte =>
    left
    rfl

theorem release_state_counters (s : State) (ptr n : Nat) :
    (release_state s ptr n).gstats.ntotal = s.gstats.ntotal ∧
    (release_state s ptr n).gstats.total_size = s.gstats.total_size ∧
    (release_state s ptr n).gstats.nfail = s.gstats.nfail ∧
    (release_state s ptr n).gstats.fail_size = s.gstats.fail_size ∧
    (release_state s ptr n).gstats.nactive ≤ s.gstats.nactive := by
  unfold release_state
  dsimp only
  split_ifs <;> simp

theorem m61_free_counters (s : State) (ptr : Nat) (file : String) (line : Int) :
    (m61_free s ptr file line).1.gstats.ntotal = s.gstats.ntotal ∧
    (m61_free s ptr file line).1.gstats.total_size = s.gstats.total_size ∧
    (m61_free s ptr file line).1.gstats.nfail = s.gstats.nfail ∧
    (m61_free s ptr file line).1.gstats.fail_size = s.gstats.fail_size := by
  by_cases h0 : ptr = 0
  · subst h0; rw [m61_free_null]; exact ⟨rfl, rfl, rfl, rfl⟩
  · rcases m61_free_outcome s ptr file line h0 with ⟨h1, _, _⟩ | ⟨info, _, _, _, h4, _⟩
    · rw [h1]; exact ⟨rfl, rfl, rfl, rfl⟩
    · rw [h4]
      obtain ⟨a, b, c, d, _⟩ := release_state_counters s ptr info.size
      exact ⟨a, b, c, d⟩

/-- The possible changes of each counter in one call. -/
theorem step_counters (s : State) (op : Op) :
    ((step s op).1.gstats.ntotal = s.gstats.ntotal ∨
      (step s op).1.gstats.ntotal = (s.gstats.ntotal + 1) % WORD) ∧
    ((step s op).1.gstats.nfail = s.gstats.nfail ∨
      (step s op).1.gstats.nfail = (s.gstats.nfail + 1) % WORD) ∧
    ((step s op).1.gstats.total_size = s.gstats.total_size ∨
      (step s op).1.gstats.total_size = (s.gstats.total_size + op.size) % WORD) ∧
    ((step s op).1.gstats.fail_size = s.gstats.fail_size ∨
      (step s op).1.gstats.fail_size = (s.gstats.fail_size + op.size) % WORD) ∧
    ((step s op).1.gstats.nactive = s.gstats.nactive ∨
      (step s op).1.gstats.nactive = (s.gstats.nactive + 1) % WORD ∨
      ∃ ptr, Event.base_free ptr ∈ (step s op).2) ∧
    ((step s op).1.gstats.active_size = s.gstats.active_size ∨
      (step s op).1.gstats.active_size = (s.gstats.active_size + op.size) % WORD ∨
      ∃ ptr, Event.base_free ptr ∈ (step s op).2) := by
  rcases step_gstats s op with h | h | ⟨p, file, line, h⟩ | ⟨ptr, n, h, hb⟩
  · rw [h]
    exact ⟨Or.inl rfl, Or.inl rfl, Or.inl rfl, Or.inl rfl, Or.inl rfl, Or.inl rfl⟩
  · rw [h]
    exact ⟨Or.inl rfl, Or.inr rfl, Or.inl rfl, Or.inr rfl, Or.inl rfl, Or.inl rfl⟩
  · rw [h]
    obtain ⟨a, b, c, d, e, f⟩ := malloc_success_counters s p op.size file line
    exact ⟨Or.inr c, Or.inl e, Or.inr d, Or.inl f, Or.inr (Or.inl a), Or.inr (Or.inl b)⟩
  · obtain ⟨a, b, c, d, _⟩ := release_state_counters s ptr n
    rw [h]
    exact ⟨Or.inl a, Or.inl c, Or.inl b, Or.inl d, Or.inr (Or.inr ⟨ptr, hb⟩),
      Or.inr (Or.inr ⟨ptr, hb⟩)⟩

/-- C17 (counterexample): two calls `m61_malloc(SIZE_MAX)` from the initial
state both fail; `fail_size` is `SIZE_MAX` after the first and `SIZE_MAX - 1`
after the second, so as a 64-bit unsigned value it decreased across a single
`m61_malloc`. -/
theorem fail_size_decreases_on_wrap :
    (run (State.init (fun _ => 0))
      [Op.malloc SIZE_MAX "t.cc" 3 (fun _ => 4096)]).1.gstats.fail_size = SIZE_MAX ∧
    (step (run (State.init (fun _ => 0)) [Op.malloc SIZE_MAX "t.cc" 3 (fun _ => 4096)]).1
      (Op.malloc SIZE_MAX "t.cc" 4 (fun _ => 4096))).1.gstats.fail_size = SIZE_MAX - 1 ∧
    (step (run (State.init (fun _ => 0)) [Op.malloc SIZE_MAX "t.cc" 3 (fun _ => 4096)]).1
      (Op.malloc SIZE_MAX "t.cc" 4 (fun _ => 4096))).1.gstats.fail_size <
      (run (State.init (fun _ => 0))
        [Op.malloc SIZE_MAX "t.cc" 3 (fun _ => 4096)]).1.gstats.fail_size := by
  refine ⟨by decide, by decide, by decide⟩

/-- C17 (amended): across every single call from every state, `m61_free`
changes none of `ntotal`, `total_size`, `nfail`, `fail_size`; every call
changes `ntotal` and `nfail` by a 64-bit addition of 0 or 1 and `total_size`
and `fail_size` by a 64-bit addition of 0 or the requested size, so each of
the four is at least its value before whenever that addition does not wrap
around `2^64`; and, absent such a wrap, `nactive` and `active_size` decrease
only in a validated release (a call that reaches `base_free`). -/
theorem statistics_monotone_unless_wrap (s : State) (op : Op) :
    (∀ ptr file line, op = Op.free ptr file line →
      (step s op).1.gstats.ntotal = s.gstats.ntotal ∧
      (step s op).1.gstats.total_size = s.gstats.total_size ∧
      (step s op).1.gstats.nfail = s.gstats.nfail ∧
      (step s op).1.gstats.fail_size = s.gstats.fail_size) ∧
    (((step s op).1.gstats.ntotal = s.gstats.ntotal ∨
        (step s op).1.gstats.ntotal = (s.gstats.ntotal + 1) % WORD) ∧
     ((step s op).1.gstats.nfail = s.gstats.nfail ∨
        (step s op).1.gstats.nfail = (s.gstats.nfail + 1) % WORD) ∧
     ((step s op).1.gstats.total_size = s.gstats.total_size ∨
        (step s op).1.gstats.total_size = (s.gstats.total_size + op.size) % WORD) ∧
     ((step s op).1.gstats.fail_size = s.gstats.fail_size ∨
        (step s op).1.gstats.fail_size = (s.gstats.fail_size + op.size) % WORD)) ∧
    ((s.gstats.ntotal + 1 < WORD → s.gstats.ntotal ≤ (step s op).1.gstats.ntotal) ∧
     (s.gstats.nfail + 1 < WORD → s.gstats.nfail ≤ (step s op).1.gstats.nfail) ∧
     (s.gstats.total_size + op.size < WORD →
        s.gstats.total_size ≤ (step s op).1.gstats.total_size) ∧
     (s.gstats.fail_size + op.size < WORD →
        s.gstats.fail_size ≤ (step s op).1.gstats.fail_size)) ∧
    ((s.gstats.nactive + 1 < WORD → (step s op).1.gstats.nactive < s.gstats.nactive →
        ∃ ptr, Event.base_free ptr ∈ (step s op).2) ∧
     (s.gstats.active_size + op.size < WORD →
        (step s op).1.gstats.active_size < s.gstats.active_size →
        ∃ ptr, Event.base_free ptr ∈ (step s op).2)) := by
  have hW : WORD = 2 ^ 64 := rfl
  obtain ⟨c1, c2, c3, c4, c5, c6⟩ := step_counters s op
  refine ⟨?_, ⟨c1, c2, c3, c4⟩, ⟨?_, ?_, ?_, ?_⟩, ⟨?_, ?_⟩⟩
  · intro ptr file line ho
    subst ho
    exact m61_free_counters s ptr file line
  · intro hlt
    rw [hW] at hlt c1
    omega
  · intro hlt
    rw [hW] at hlt c2
    omega
  · intro hlt
    rw [hW] at hlt c3
    omega
  · intro hlt
    rw [hW] at hlt c4
    omega
  · intro hlt hdec
    rcases c5 with c | c | c
    · omega
    · rw [hW] at hlt c
      omega
    · exact c
  · intro hlt hdec
    rcases c6 with c | c | c
    · omega
    · rw [hW] at hlt c
      omega
    · exact c

/-- Witness for C17 (amended): a successful `m61_malloc(8)` in the initial
state. -/
theorem statistics_monotone_unless_wrap_witness :
    (State.init (fun _ => 0)).gstats.ntotal ≤
      (step (State.init (fun _ => 0)) (Op.malloc 8 "t.cc" 3 (fun _ => 4096))).1.gstats.ntotal ∧
    (State.init (fun _ => 0)).gstats.total_size ≤
      (step (State.init (fun _ => 0)) (Op.malloc 8 "t.cc" 3 (fun _ => 4096))).1.gstats.total_size ∧
    (step (State.init (fun _ => 0)) (Op.free 0 "t.cc" 3)).1.gstats.nfail =
      (State.init (fun _ => 0)).gstats.nfail := by
  have h := statistics_monotone_unless_wrap (State.init (fun _ => 0))
    (Op.malloc 8 "t.cc" 3 (fun _ => 4096))
  have h2 := statistics_monotone_unless_wrap (State.init (fun _ => 0)) (Op.free 0 "t.cc" 3)
  exact ⟨h.2.2.1.1 (by decide), h.2.2.1.2.2.1 (by decide), (h2.1 0 "t.cc" 3 rfl).2.2.1⟩

/-! ## Successful allocations as ledger entries -/

theorem entry_of_request (op : Op) (sz : Nat) (bm : Nat → Nat)
    (hr : op.request = some (sz, bm)) (hp : bm (raw_size sz) ≠ 0) :
    op.entry = some (bm (raw_size sz), { size := sz, file := op.site.1, line := op.site.2 }) := by
  simp only [Op.entry, hr, hp, ne_eq, not_false_eq_true, if_true]

theorem request_of_entry (op : Op) (p : Nat) (info : alloc_info)
    (he : op.entry = some (p, info)) :
    p ≠ 0 ∧ ∃ bm, op.request = some (info.size, bm) ∧ bm (raw_size info.size) = p ∧
      info = { size := info.size, file := op.site.1, line := op.site.2 } := by
  unfold Op.entry at he
  cases hr : op.request with
  | none => simp [hr] at he
  | some r =>
    obtain ⟨sz, bm⟩ := r
    simp only [hr] at he
    split_ifs at he with hp
    simp only [Option.some.injEq, Prod.mk.injEq] at he
    obtain ⟨rfl, rfl⟩ := he
    exact ⟨hp, bm, rfl, rfl, rfl⟩

theorem entry_none_of_request (op : Op) (sz : Nat) (bm : Nat → Nat)
    (hr : op.request = some (sz, bm)) (he : op.entry = none) : bm (raw_size sz) = 0 := by
  by_contra hp
  rw [entry_of_request op sz bm hr hp] at he
  exact absurd he (by simp)

/-- The effect of a successful allocation on the two containers. -/
theorem step_of_entry (s : State) (op : Op) (p : Nat) (info : alloc_info)
    (he : op.entry = some (p, info)) :
    p ≠ 0 ∧ (step s op).1.active = map_assign s.active p info ∧
    (step s op).1.freed_bases = set_erase s.freed_bases p ∧
    (step s op).1.gstats = (malloc_success_state s p info.size info.file info.line).gstats ∧
    (step s op).2 = [Event.base_malloc (raw_size info.size)] := by
  obtain ⟨hp, bm, hr, hb, hi⟩ := request_of_entry op p info he
  obtain ⟨isz, ifile, iline⟩ := info
  dsimp only at hr hb hi ⊢
  simp only [alloc_info.mk.injEq, true_and] at hi
  obtain ⟨hf, hl⟩ := hi
  subst hb
  cases op with
  | malloc sz0 file line bm0 =>
    simp only [Op.request] at hr
    split_ifs at hr with h1
    simp only [Option.some.injEq, Prod.mk.injEq] at hr
    obtain ⟨rfl, rfl⟩ := hr
    simp only [Op.site] at hf hl
    subst hf; subst hl
    rw [show step s (Op.malloc sz0 ifile iline bm0) =
      ((m61_malloc bm0 s sz0 ifile iline).1, (m61_malloc bm0 s sz0 ifile iline).2.2) from rfl,
      m61_malloc_of_success bm0 s sz0 _ _ h1 hp]
    exact ⟨hp, rfl, rfl, rfl, rfl⟩
  | calloc nmemb sz0 file line bm0 =>
    simp only [Op.request] at hr
    split_ifs at hr with h1 h2
    simp only [Option.some.injEq, Prod.mk.injEq] at hr
    obtain ⟨hsz, rfl⟩ := hr
    have hno : nmemb * sz0 ≤ SIZE_MAX := by
      rw [calloc_guard_iff] at h1; omega
    have hm : (nmemb * sz0) % WORD = nmemb * sz0 :=
      Nat.mod_eq_of_lt (by unfold SIZE_MAX at hno; unfold WORD; omega)
    rw [hm] at h2 hsz
    subst hsz
    simp only [Op.site] at hf hl
    subst hf; subst hl
    simp only [step, m61_calloc_of_no_overflow bm0 s nmemb sz0 _ _ hno,
      m61_malloc_of_success bm0 s (nmemb * sz0) _ _ h2 hp]
    refine ⟨hp, ?_, ?_, ?_, ?_⟩ <;> split_ifs <;> rfl
  | free ptr file line => simp [Op.request] at hr
  | store addr byte => simp [Op.request] at hr

theorem no_base_free_of_releases_zero (t : List Event) (h : releases t = 0) (p : Nat) :
    Event.base_free p ∉ t := by
  intro hp
  unfold releases at h
  rw [List.length_eq_zero, List.filter_eq_nil_iff] at h
  exact h _ hp rfl

/-- The effect of any call on the ledger: a successful allocation assigns its
entry, a validated release of `ptr` erases the key `ptr`, every other call
leaves the ledger as it is. -/
theorem step_active (s : State) (op : Op) :
    (∃ p info, op.entry = some (p, info) ∧ (step s op).1.active = map_assign s.active p info ∧
      ∀ q, Event.base_free q ∉ (step s op).2) ∨
    (op.entry = none ∧ (step s op).1.active = s.active ∧
      ∀ q, Event.base_free q ∉ (step s op).2) ∨
    (∃ ptr file line info, op = Op.free ptr file line ∧ op.entry = none ∧ ptr ≠ 0 ∧
      ¬ not_in_heap s ptr ∧ ptr ∉ s.freed_bases ∧
      map_find s.active ptr = some info ∧
      (step s op).1.active = map_erase s.active ptr ∧
      ∀ q, Event.base_free q ∈ (step s op).2 ↔ q = ptr) := by
  cases he : op.entry with
  | some e =>
    obtain ⟨p, info⟩ := e
    left
    obtain ⟨_, h2, _, _, h5⟩ := step_of_entry s op p info he
    refine ⟨p, info, rfl, h2, ?_⟩
    intro q hq
    rw [h5] at hq
    simp at hq
  | none =>
    right
    rcases step_cases s op with ⟨⟨ha, _, _⟩, hrel⟩ |
        ⟨sz, bm, file, line, hr, hp, _⟩ | ⟨ptr, file, line, info, ho, h0, hin, hnf, hm, hs, ht⟩
    · left
      exact ⟨rfl, ha, no_base_free_of_releases_zero _ hrel⟩
    · exact absurd (entry_none_of_request op sz bm hr he) hp
    · right
      refine ⟨ptr, file, line, info, ho, rfl, h0, hin, hnf, hm, by rw [hs]; rfl, ?_⟩
      intro q
      rw [ht, mem_release_trace]
      constructor
      · rintro (⟨_, h⟩ | h)
        · exact absurd h (by simp)
        · simp only [Event.base_free.injEq] at h
          exact h
      · rintro rfl
        exact Or.inr rfl

/-! ## What reaches `base_free` -/

/-- Every key of the ledger after a run was a key before it or is the address
of a successful allocation of the run. -/
theorem keys_from_entries (s : State) (ops : List Op) (k : Nat) (v : alloc_info)
    (h : map_find (run s ops).1.active k = some v) :
    map_find s.active k ≠ none ∨ ∃ op ∈ ops, ∃ info, op.entry = some (k, info) := by
  induction ops generalizing s with
  | nil =>
    left
    simp only [run] at h
    rw [h]
    simp
  | cons op ops ih =>
    simp only [run] at h
    rcases ih (step s op).1 h with h1 | ⟨op', hop', info, he⟩
    · rcases step_active s op with ⟨p, info, he, ha, _⟩ | ⟨_, ha, _⟩ |
          ⟨ptr, file, line, info, _, _, _, _, _, _, ha, _⟩
      · rw [ha, map_find_assign] at h1
        by_cases hk : k = p
        · subst hk
          exact Or.inr ⟨op, List.mem_cons_self _ _, info, he⟩
        · rw [if_neg hk] at h1
          exact Or.inl h1
      · rw [ha] at h1
        exact Or.inl h1
      · rw [ha] at h1
        by_cases hk : k = ptr
        · subst hk
          rw [map_find_erase_self] at h1
          exact absurd rfl h1
        · rw [map_find_erase_other _ _ _ hk] at h1
          exact Or.inl h1
    · exact Or.inr ⟨op', List.mem_cons_of_mem _ hop', info, he⟩

/-- A call `m61_free(A)` whose trace contains a call of `base_free` is a
validated release of `A`. -/
theorem m61_free_released (s : State) (A q : Nat) (file : String) (line : Int)
    (h : Event.base_free q ∈ (m61_free s A file line).2) :
    q = A ∧ A ≠ 0 ∧ ¬ not_in_heap s A ∧ A ∉ s.freed_bases ∧
    ∃ info, map_find s.active A = some info ∧
      m61_free s A file line =
        (release_state s A info.size,
         (if fence_ok s.mem (A + info.size) then []
          else [Event.fprintf_stderr FMT_WILD_WRITE [Arg.ptr A]]) ++ [Event.base_free A]) := by
  have h0 : A ≠ 0 := by
    rintro rfl
    rw [m61_free_null] at h
    simp at h
  rcases m61_free_outcome s A file line h0 with ⟨_, h2, _⟩ | ⟨info, h1, h2, h3, _, h5⟩
  · have := h2 _ h
    simp [is_base_free] at this
  · rw [h5, mem_release_trace] at h
    have hq : q = A := by
      rcases h with ⟨_, h⟩ | h
      · exact absurd h (by simp)
      · simpa using h
    exact ⟨hq, h0, h1, h2, info, h3, m61_free_of_live s A file line info h0 h1 h2 h3⟩

theorem release_trace_filter (c : Bool) (A : Nat) :
    ((if c then [] else [Event.fprintf_stderr FMT_WILD_WRITE [Arg.ptr A]]) ++
      [Event.base_free A]).filter is_base_free = [Event.base_free A] := by
  cases c <;> rfl

/-! ## The moment of the call of `base_free` -/

theorem m61_free_timed_of_live (s : State) (ptr : Nat) (file : String) (line : Int)
    (info : alloc_info) (h0 : ptr ≠ 0) (h : ¬ not_in_heap s ptr) (hf : ptr ∉ s.freed_bases)
    (hm : map_find s.active ptr = some info) :
    m61_free_timed s ptr file line =
      (release_state s ptr info.size,
       (if fence_ok s.mem (ptr + info.size) then []
        else [(Event.fprintf_stderr FMT_WILD_WRITE [Arg.ptr ptr], s)]) ++
         [(Event.base_free ptr, release_state s ptr info.size)]) := by
  unfold not_in_heap at h
  unfold m61_free_timed release_state
  simp only [h0, if_false, h, hf, hm]
  by_cases hn : s.gstats.nactive > 0
  · simp only [hn, if_true]
  · simp only [hn, if_false]

/-- On every path of `m61_free` other than the release of step 4 no global
changes, so every action is performed in the state in which the call
started. -/
theorem m61_free_timed_of_rejected (s : State) (ptr : Nat) (file : String) (line : Int)
    (h : ptr = 0 ∨ not_in_heap s ptr ∨ ptr ∈ s.freed_bases ∨ map_find s.active ptr = none) :
    m61_free_timed s ptr file line =
      (s, (m61_free s ptr file line).2.map (fun e => (e, s))) ∧
    (m61_free s ptr file line).1 = s ∧
    ∀ e ∈ (m61_free s ptr file line).2, is_base_free e = false := by
  by_cases h0 : ptr = 0
  · subst h0
    rw [m61_free_null]
    refine ⟨?_, rfl, ?_⟩
    · simp [m61_free_timed]
    · intro e he; simp at he
  by_cases hh : not_in_heap s ptr
  · rw [m61_free_of_not_in_heap s ptr file line h0 hh]
    refine ⟨?_, rfl, ?_⟩
    · unfold not_in_heap at hh
      unfold m61_free_timed
      simp only [h0, if_false, hh, if_true, List.map_cons, List.map_nil]
    · intro e he; simp at he; subst he; rfl
  by_cases hf : ptr ∈ s.freed_bases
  · rw [m61_free_of_freed s ptr file line h0 hh hf]
    refine ⟨?_, rfl, ?_⟩
    · unfold not_in_heap at hh
      unfold m61_free_timed
      simp only [h0, if_false, hh, hf, if_true, List.map_cons, List.map_nil]
    · intro e he; simp at he; subst he; rfl
  have hm : map_find s.active ptr = none := by
    rcases h with h | h | h | h
    · exact absurd h h0
    · exact absurd h hh
    · exact absurd h hf
    · exact h
  cases hi : interior_scan ptr s.active with
  | none =>
    rw [m61_free_of_unknown s ptr file line h0 hh hf hm hi]
    refine ⟨?_, rfl, ?_⟩
    · unfold not_in_heap at hh
      unfold m61_free_timed
      simp only [h0, if_false, hh, hf, hm, hi, List.map_cons, List.map_nil]
    · intro e he; simp at he; subst he; rfl
  | some r =>
    obtain ⟨base, ai⟩ := r
    rw [m61_free_of_interior s ptr file line base ai h0 hh hf hm hi]
    refine ⟨?_, rfl, ?_⟩
    · unfold not_in_heap at hh
      unfold m61_free_timed
      simp only [h0, if_false, hh, hf, hm, hi, List.map_cons, List.map_nil]
    · intro e he
      simp at he
      rcases he with he | he <;> subst he <;> rfl

/-- The statement-by-statement reading of `m61_free` has the result state and
the trace of `m61_free`. -/
theorem m61_free_timed_erase (s : State) (ptr : Nat) (file : String) (line : Int) :
    (m61_free_timed s ptr file line).1 = (m61_free s ptr file line).1 ∧
    (m61_free_timed s ptr file line).2.map Prod.fst = (m61_free s ptr file line).2 := by
  by_cases hrej : ptr = 0 ∨ not_in_heap s ptr ∨ ptr ∈ s.freed_bases ∨
      map_find s.active ptr = none
  · obtain ⟨h1, h2, _⟩ := m61_free_timed_of_rejected s ptr file line hrej
    rw [h1, h2]
    refine ⟨rfl, ?_⟩
    simp [List.map_map, Function.comp_def]
  · simp only [not_or] at hrej
    obtain ⟨h0, hh, hf, hm⟩ := hrej
    cases hm' : map_find s.active ptr with
    | none => exact absurd hm' hm
    | some info =>
      rw [m61_free_timed_of_live s ptr file line info h0 hh hf hm',
        m61_free_of_live s ptr file line info h0 hh hf hm']
      refine ⟨rfl, ?_⟩
      split_ifs <;> simp

/-- At the moment `m61_free(ptr)` calls `base_free`, the address passed is
`ptr`, its record has been erased from the ledger and `ptr` is in the
freed-address set; no global changes after the call. -/
theorem m61_free_timed_base_free (s : State) (ptr : Nat) (file : String) (line : Int)
    (q : Nat) (st : State) (h : (Event.base_free q, st) ∈ (m61_free_timed s ptr file line).2) :
    q = ptr ∧ map_find st.active ptr = none ∧ ptr ∈ st.freed_bases ∧
    st = (m61_free_timed s ptr file line).1 := by
  by_cases hrej : ptr = 0 ∨ not_in_heap s ptr ∨ ptr ∈ s.freed_bases ∨
      map_find s.active ptr = none
  · obtain ⟨h1, _, h3⟩ := m61_free_timed_of_rejected s ptr file line hrej
    rw [h1] at h
    obtain ⟨e, he, heq⟩ := List.mem_map.1 h
    simp only [Prod.mk.injEq] at heq
    have := h3 e he
    rw [heq.1] at this
    simp [is_base_free] at this
  · simp only [not_or] at hrej
    obtain ⟨h0, hh, hf, hm⟩ := hrej
    cases hm' : map_find s.active ptr with
    | none => exact absurd hm' hm
    | some info =>
      rw [m61_free_timed_of_live s ptr file line info h0 hh hf hm'] at h ⊢
      have hst : q = ptr ∧ st = release_state s ptr info.size := by
        rcases List.mem_append.1 h with h | h
        · split_ifs at h
          · simp at h
          · simp at h
        · simpa using h
      obtain ⟨rfl, rfl⟩ := hst
      refine ⟨rfl, ?_, ?_, rfl⟩
      · simp only [release_state]
        exact map_find_erase_self _ _
      · simp only [release_state]
        exact (mem_set_insert _ _ _).2 (Or.inl rfl)

/-- C16: a call `m61_free(A)` passes at most one address to `base_free`, and
only `A` itself; if it does, `A` was a ledger key at the start of the call,
the call of `base_free` is the last action of the call and the ledger of the
result state no longer has the key `A`.  Hence between two releases of `A` to
`base_free` there is a successful allocation that returned `A`, and every
address passed to `base_free` was returned by `base_malloc` to an earlier
successful allocation.  Read statement by statement, in the order of the
source, `m61_free` has the same result and trace, and the globals at the
moment of the call `base_free(q)` satisfy: `q = A`, the ledger has no key `A`
any more, `A` is in the freed-address set, and they are the globals the call
returns with. -/
theorem only_live_blocks_released (mem : Nat → Nat) :
    (∀ (s : State) (A : Nat) (file : String) (line : Int),
      ((m61_free s A file line).2.filter is_base_free = [] ∨
        (m61_free s A file line).2.filter is_base_free = [Event.base_free A]) ∧
      (Event.base_free A ∈ (m61_free s A file line).2 →
        (∃ info, map_find s.active A = some info) ∧
        (m61_free s A file line).2.getLast? = some (Event.base_free A) ∧
        map_find (m61_free s A file line).1.active A = none)) ∧
    (∀ (ops1 ops2 : List Op) (A : Nat) (file1 file2 : String) (line1 line2 : Int),
      Event.base_free A ∈ (m61_free (run (State.init mem) ops1).1 A file1 line1).2 →
      Event.base_free A ∈
        (m61_free (run (State.init mem) (ops1 ++ Op.free A file1 line1 :: ops2)).1
          A file2 line2).2 →
      ∃ op ∈ ops2, ∃ info, op.entry = some (A, info)) ∧
    (∀ (ops : List Op) (A : Nat) (file : String) (line : Int),
      Event.base_free A ∈ (m61_free (run (State.init mem) ops).1 A file line).2 →
      ∃ op ∈ ops, ∃ info, op.entry = some (A, info)) ∧
    (∀ (s : State) (A : Nat) (file : String) (line : Int),
      (m61_free_timed s A file line).1 = (m61_free s A file line).1 ∧
      (m61_free_timed s A file line).2.map Prod.fst = (m61_free s A file line).2 ∧
      ∀ (q : Nat) (st : State), (Event.base_free q, st) ∈ (m61_free_timed s A file line).2 →
        q = A ∧ map_find st.active A = none ∧ A ∈ st.freed_bases ∧
        st = (m61_free s A file line).1) := by
  refine ⟨?_, ?_, ?_, ?_⟩
  · intro s A file line
    constructor
    · by_cases h0 : A = 0
      · subst h0
        rw [m61_free_null]
        exact Or.inl rfl
      · rcases m61_free_outcome s A file line h0 with ⟨_, h2, _⟩ | ⟨info, _, _, _, _, h5⟩
        · left
          rw [List.filter_eq_nil_iff]
          intro e he
          rw [h2 e he]
          exact Bool.false_ne_true
        · right
          rw [h5]
          exact release_trace_filter _ _
    · intro h
      obtain ⟨_, _, _, _, info, hm, hfree⟩ := m61_free_released s A A file line h
      refine ⟨⟨info, hm⟩, ?_, ?_⟩
      · rw [hfree]
        simp
      · rw [hfree]
        simp only [release_state]
        exact map_find_erase_self _ _
  · intro ops1 ops2 A file1 file2 line1 line2 h1 h2
    by_contra hnone
    have hA0 : A ≠ 0 := (m61_free_released _ A A file1 line1 h1).2.1
    have hno : ∀ op ∈ ops2, ∀ sz bm, op.request = some (sz, bm) → bm (raw_size sz) ≠ A := by
      intro op hop sz bm hr hb
      apply hnone
      have := entry_of_request op sz bm hr (by rw [hb]; exact hA0)
      rw [hb] at this
      exact ⟨op, hop, _, this⟩
    have hfreed : A ∈ (run (State.init mem) (ops1 ++ Op.free A file1 line1 :: ops2)).1.freed_bases := by
      rw [run_append]
      simp only [run]
      exact freed_stays A _ ops2 (step_free_released _ A file1 line1 h1) hno
    exact (m61_free_released _ A A file2 line2 h2).2.2.2.1 hfreed
  · intro ops A file line h
    obtain ⟨_, _, _, _, info, hm, _⟩ := m61_free_released _ A A file line h
    rcases keys_from_entries (State.init mem) ops A info hm with h1 | h1
    · exact absurd rfl h1
    · exact h1
  · intro s A file line
    obtain ⟨e1, e2⟩ := m61_free_timed_erase s A file line
    refine ⟨e1, e2, ?_⟩
    intro q st hq
    obtain ⟨t1, t2, t3, t4⟩ := m61_free_timed_base_free s A file line q st hq
    exact ⟨t1, t2, t3, t4.trans e1⟩

/-- Witness for C16: in test54a the first `free(q)` reaches `base_free`; `q`
is a ledger key at that point, was returned to the earlier `malloc(48)`, and
is no ledger key any more at the moment of the call. -/
theorem only_live_blocks_released_witness :
    map_find (run (State.init (fun _ => 0))
        [Op.malloc 32 "test54a.cc" 6 (fun _ => 4096), Op.malloc 48 "test54a.cc" 8 (fun _ => 8192),
         Op.free 4096 "test54a.cc" 11]).1.active 8192 ≠ none ∧
    8192 ∈ ([Op.malloc 32 "test54a.cc" 6 (fun _ => 4096),
             Op.malloc 48 "test54a.cc" 8 (fun _ => 8192),
             Op.free 4096 "test54a.cc" 11].filterMap Op.entry).map Prod.fst ∧
    map_find (m61_free_timed (run (State.init (fun _ => 0))
        [Op.malloc 32 "test54a.cc" 6 (fun _ => 4096), Op.malloc 48 "test54a.cc" 8 (fun _ => 8192),
         Op.free 4096 "test54a.cc" 11]).1 8192 "test54a.cc" 12).1.active 8192 = none := by
  obtain ⟨info, h1⟩ := (((only_live_blocks_released (fun _ => 0)).1
    (run (State.init (fun _ => 0))
        [Op.malloc 32 "test54a.cc" 6 (fun _ => 4096), Op.malloc 48 "test54a.cc" 8 (fun _ => 8192),
         Op.free 4096 "test54a.cc" 11]).1 8192 "test54a.cc" 12).2 (by decide)).1
  obtain ⟨op, hop, info2, he⟩ := (only_live_blocks_released (fun _ => 0)).2.2.1
     [Op.malloc 32 "test54a.cc" 6 (fun _ => 4096), Op.malloc 48 "test54a.cc" 8 (fun _ => 8192),
      Op.free 4096 "test54a.cc" 11] 8192 "test54a.cc" 12 (by decide)
  have hmem : (Event.base_free 8192, (m61_free_timed (run (State.init (fun _ => 0))
        [Op.malloc 32 "test54a.cc" 6 (fun _ => 4096), Op.malloc 48 "test54a.cc" 8 (fun _ => 8192),
         Op.free 4096 "test54a.cc" 11]).1 8192 "test54a.cc" 12).1) ∈
      (m61_free_timed (run (State.init (fun _ => 0))
        [Op.malloc 32 "test54a.cc" 6 (fun _ => 4096), Op.malloc 48 "test54a.cc" 8 (fun _ => 8192),
         Op.free 4096 "test54a.cc" 11]).1 8192 "test54a.cc" 12).2 := by
    rw [m61_free_timed_of_live _ 8192 "test54a.cc" 12 { size := 48, file := "test54a.cc", line := 8 }
      (by decide) (by decide) (by decide) (by decide)]
    exact List.mem_append_right _ (List.mem_singleton_self _)
  have h4 := ((only_live_blocks_released (fun _ => 0)).2.2.2 _ 8192 "test54a.cc" 12).2.2
    8192 _ hmem
  refine ⟨by rw [h1]; simp, ?_, h4.2.1⟩
  exact List.mem_map.2 ⟨(8192, info2), List.mem_filterMap.2 ⟨op, hop, he⟩, rfl⟩

/-! ## Reuse of a freed address -/

theorem admissible_true (s : State) (ops : List Op) :
    admissible (fun _ _ => true) s ops = true := by
  induction ops generalizing s with
  | nil => rfl
  | cons op ops ih => simp [admissible, ih]

/-- Whatever `base_malloc` answers, `nactive` is at most the number of calls
made so far. -/
theorem nactive_le_calls (mem : Nat → Nat) (ops : List Op) :
    (run (State.init mem) ops).1.gstats.nactive ≤ ops.length := by
  have h := run_preserves_counting (fun _ _ => true) (fun s _ n => s.gstats.nactive ≤ n)
    (by
      intro s op k n hs _
      rcases step_gstats s op with h | h | ⟨p, file, line, h⟩ | ⟨ptr, m, h, _⟩
      · rw [h]; omega
      · rw [h]; simp only [record_failure]; omega
      · rw [h, (malloc_success_counters s p op.size file line).1]
        have := Nat.mod_le (s.gstats.nactive + 1) WORD
        omega
      · rw [h]
        have := (release_state_counters s ptr m).2.2.2.2
        omega)
    (State.init mem) ops 0 0 (Nat.le_refl 0) (admissible_true _ _)
  simpa using h

theorem double_free_not_in_release_trace (c : Bool) (A : Nat) (args : List Arg) :
    Event.fprintf_stderr FMT_DOUBLE_FREE args ∉
      (if c then [] else [Event.fprintf_stderr FMT_WILD_WRITE [Arg.ptr A]]) ++
        [Event.base_free A] := by
  rw [mem_release_trace]
  rintro (⟨_, h⟩ | h)
  · simp only [Event.fprintf_stderr.injEq] at h
    exact absurd h.1 (by decide)
  · exact absurd h (by simp)

/-- C15: if `A` is in the freed-address set at some point of a run and a later
`m61_malloc(sz)` returns `A` (fewer than `2^64` calls having been made), then
after that call `A` is a ledger key whose record carries `sz` and the site of
the call, `A` is not in the freed-address set, and the next `m61_free(A)` is a
validated release: its trace ends with `base_free(A)` and contains no "double
free" report, the record of `A` is removed and `nactive` decreases by 1. -/
theorem reuse_clears_freed_status (mem : Nat → Nat) (ops1 ops2 : List Op) (A sz : Nat)
    (file : String) (line : Int) (bm : Nat → Nat) (file2 : String) (line2 : Int)
    (hfreed : A ∈ (run (State.init mem) ops1).1.freed_bases)
    (hlen : (ops1 ++ ops2).length + 1 < WORD)
    (hret : (m61_malloc bm (run (State.init mem) (ops1 ++ ops2)).1 sz file line).2.1 = A) :
    map_find (m61_malloc bm (run (State.init mem) (ops1 ++ ops2)).1 sz file line).1.active A =
      some { size := sz, file := file, line := line } ∧
    A ∉ (m61_malloc bm (run (State.init mem) (ops1 ++ ops2)).1 sz file line).1.freed_bases ∧
    (m61_free (m61_malloc bm (run (State.init mem) (ops1 ++ ops2)).1 sz file line).1
        A file2 line2).2.getLast? = some (Event.base_free A) ∧
    (∀ args, Event.fprintf_stderr FMT_DOUBLE_FREE args ∉
      (m61_free (m61_malloc bm (run (State.init mem) (ops1 ++ ops2)).1 sz file line).1
        A file2 line2).2) ∧
    map_find (m61_free (m61_malloc bm (run (State.init mem) (ops1 ++ ops2)).1 sz file line).1
        A file2 line2).1.active A = none ∧
    (m61_free (m61_malloc bm (run (State.init mem) (ops1 ++ ops2)).1 sz file line).1
        A file2 line2).1.gstats.nactive + 1 =
      (m61_malloc bm (run (State.init mem) (ops1 ++ ops2)).1 sz file line).1.gstats.nactive := by
  obtain ⟨hA0, hin1⟩ := freed_in_heap_run mem ops1 A hfreed
  have hin : (run (State.init mem) (ops1 ++ ops2)).1.gstats.heap_min ≠ 0 ∧
      (run (State.init mem) (ops1 ++ ops2)).1.gstats.heap_min ≤ A ∧
      A ≤ (run (State.init mem) (ops1 ++ ops2)).1.gstats.heap_max := by
    rw [run_append]
    apply run_keeps_in_bounds
    unfold not_in_heap at hin1
    omega
  have hnact := nactive_le_calls mem (ops1 ++ ops2)
  have hnn : (m61_malloc bm (run (State.init mem) (ops1 ++ ops2)).1 sz file line).2.1 ≠ 0 := by
    rw [hret]; exact hA0
  obtain ⟨h1, h2⟩ := m61_malloc_nonnull bm _ sz file line hnn
  have hm := m61_malloc_of_success bm (run (State.init mem) (ops1 ++ ops2)).1 sz file line h1 h2
  have hb : bm (raw_size sz) = A := by
    rw [hm] at hret
    exact hret
  rw [hm, hb]
  have hfind : map_find (malloc_success_state (run (State.init mem) (ops1 ++ ops2)).1 A sz
      file line).active A = some { size := sz, file := file, line := line } := by
    simp only [malloc_success_state]
    rw [map_find_assign, if_pos rfl]
  have hnf : A ∉ (malloc_success_state (run (State.init mem) (ops1 ++ ops2)).1 A sz
      file line).freed_bases := by
    simp only [malloc_success_state]
    intro hmem
    exact ((mem_set_erase _ _ _).1 hmem).2 rfl
  have hheap : ¬ not_in_heap (malloc_success_state (run (State.init mem) (ops1 ++ ops2)).1 A sz
      file line) A := by
    unfold not_in_heap
    simp only [malloc_success_state]
    have hw := update_heap_bounds_widens
      { (run (State.init mem) (ops1 ++ ops2)).1.gstats with
          active_size := ((run (State.init mem) (ops1 ++ ops2)).1.gstats.active_size + sz) % WORD,
          ntotal := ((run (State.init mem) (ops1 ++ ops2)).1.gstats.ntotal + 1) % WORD,
          nactive := ((run (State.init mem) (ops1 ++ ops2)).1.gstats.nactive + 1) % WORD,
          total_size := ((run (State.init mem) (ops1 ++ ops2)).1.gstats.total_size + sz) % WORD }
      A sz hin.1
    dsimp only at hw
    omega
  have hna := (malloc_success_counters (run (State.init mem) (ops1 ++ ops2)).1 A sz file line).1
  have hpos : 0 < (malloc_success_state (run (State.init mem) (ops1 ++ ops2)).1 A sz
      file line).gstats.nactive := by
    rw [hna, Nat.mod_eq_of_lt (by omega)]
    omega
  rw [m61_free_of_live _ A file2 line2 _ hA0 hheap hnf hfind]
  refine ⟨hfind, hnf, ?_, ?_, ?_, ?_⟩
  · simp
  · intro args
    exact double_free_not_in_release_trace _ _ _
  · simp only [release_state]
    exact map_find_erase_self _ _
  · simp only [release_state, hpos, if_true]
    omega

/-- Witness for C15: `malloc(8)` at 4096, `free`, then `malloc(24)` answered
with 4096 again, then `free(4096)`. -/
theorem reuse_clears_freed_status_witness :
    map_find (m61_malloc (fun _ => 4096) (run (State.init (fun _ => 0))
        ([Op.malloc 8 "t.cc" 3 (fun _ => 4096), Op.free 4096 "t.cc" 4] ++ [])).1
        24 "t.cc" 5).1.active 4096 = some { size := 24, file := "t.cc", line := 5 } ∧
    (m61_free (m61_malloc (fun _ => 4096) (run (State.init (fun _ => 0))
        ([Op.malloc 8 "t.cc" 3 (fun _ => 4096), Op.free 4096 "t.cc" 4] ++ [])).1
        24 "t.cc" 5).1 4096 "t.cc" 6).2.getLast? = some (Event.base_free 4096) := by
  have h := reuse_clears_freed_status (fun _ => 0)
    [Op.malloc 8 "t.cc" 3 (fun _ => 4096), Op.free 4096 "t.cc" 4] [] 4096 24 "t.cc" 5
    (fun _ => 4096) "t.cc" 6 (by decide) (by decide) (by decide)
  exact ⟨h.1, h.2.2.1⟩

/-! ## The leak report -/

theorem m61_print_leak_report_eq (s : State) :
    m61_print_leak_report s = s.active.map leak_line := rfl

/-- Under the assumption that `base_malloc` never answers with a live key, the
ledger follows the bookkeeping of outstanding allocations call by call. -/
theorem step_active_outstanding (s : State) (op : Op) (hf : fresh_key s op = true) :
    (step s op).1.active = outstanding_after s s.active op := by
  unfold outstanding_after
  rcases step_active s op with ⟨p, info, he, ha, hnb⟩ | ⟨he, ha, hnb⟩ |
      ⟨ptr, file, line, info, _, he, _, _, _, _, ha, hb⟩
  · obtain ⟨hp, bm, hr, hbm, _⟩ := request_of_entry op p info he
    have hnone : map_find s.active p = none := by
      have := (fresh_key_of_request s op info.size bm hr (by rw [hbm]; exact hp) hf).2
      rw [hbm] at this
      exact this
    rw [ha, he, map_assign_of_none _ _ _ hnone]
    have : s.active.filter (fun e => decide (Event.base_free e.1 ∉ (step s op).2)) = s.active := by
      rw [List.filter_eq_self]
      intro e _
      simpa using hnb e.1
    rw [this]
    rfl
  · rw [ha, he]
    have : s.active.filter (fun e => decide (Event.base_free e.1 ∉ (step s op).2)) = s.active := by
      rw [List.filter_eq_self]
      intro e _
      simpa using hnb e.1
    rw [this]
    rfl
  · rw [ha, he]
    simp only [List.nil_append]
    unfold map_erase
    apply List.filter_congr
    intro e _
    simp only [hb e.1]

theorem run_active_outstanding (s : State) (ops : List Op)
    (h : admissible fresh_key s ops = true) :
    (run s ops).1.active = outstanding s s.active ops := by
  induction ops generalizing s with
  | nil => rfl
  | cons op ops ih =>
    simp only [admissible, Bool.and_eq_true] at h
    simp only [run, outstanding]
    rw [ih _ h.2, step_active_outstanding s op h.1]

/-- A run of successful allocations with pairwise distinct addresses, none of
them a key of the ledger at the start, prepends their entries to the ledger. -/
theorem run_of_allocations (s : State) (ops : List Op)
    (hall : ∀ op ∈ ops, op.entry ≠ none)
    (hnd : ((ops.filterMap Op.entry).map Prod.fst).Nodup)
    (hnew : ∀ e ∈ ops.filterMap Op.entry, map_find s.active e.1 = none) :
    (run s ops).1.active = (ops.filterMap Op.entry).reverse ++ s.active ∧
    (ops.filterMap Op.entry).length = ops.length := by
  induction ops generalizing s with
  | nil => exact ⟨rfl, rfl⟩
  | cons op ops ih =>
    cases he : op.entry with
    | none => exact absurd he (hall op (List.mem_cons_self _ _))
    | some e =>
      obtain ⟨p, info⟩ := e
      have hfm : (op :: ops).filterMap Op.entry = (p, info) :: ops.filterMap Op.entry := by
        rw [List.filterMap_cons, he]
      rw [hfm] at hnd hnew ⊢
      simp only [List.map_cons, List.nodup_cons] at hnd
      obtain ⟨_, ha, _, _, _⟩ := step_of_entry s op p info he
      have hnone : map_find s.active p = none := hnew (p, info) (List.mem_cons_self _ _)
      rw [map_assign_of_none _ _ _ hnone] at ha
      have hnew' : ∀ e ∈ ops.filterMap Op.entry, map_find (step s op).1.active e.1 = none := by
        intro e hmem
        rw [ha]
        simp only [map_find]
        have hne : p ≠ e.1 := by
          intro heq
          exact hnd.1 (heq ▸ List.mem_map_of_mem Prod.fst hmem)
        rw [if_neg hne]
        exact hnew e (List.mem_cons_of_mem _ hmem)
      obtain ⟨i1, i2⟩ := ih (step s op).1 (fun o ho => hall o (List.mem_cons_of_mem _ ho))
        hnd.2 hnew'
      simp only [run]
      refine ⟨?_, ?_⟩
      · rw [i1, ha]
        simp
      · simp only [List.length_cons]
        omega

/-- C13: `m61_print_leak_report` prints exactly one "LEAK CHECK" line per
ledger record, with the record's site, address and size.  From the initial
state, after `N` successful allocations with pairwise distinct addresses and no
frees, the ledger holds exactly `N` records, the record under each returned
address carries the size, file and line passed to that call, and the report
has `N` lines, one for each of the allocations.  In every state reached while
`base_malloc` never answers with a live key, the ledger, and with it the
report, lists exactly the allocations that succeeded and have not been
released by a validated free. -/
theorem leak_report_complete (mem : Nat → Nat) :
    (∀ s : State, m61_print_leak_report s = s.active.map leak_line ∧
      (m61_print_leak_report s).length = s.active.length) ∧
    (∀ ops : List Op, (∀ op ∈ ops, op.entry ≠ none) →
      ((ops.filterMap Op.entry).map Prod.fst).Nodup →
      (run (State.init mem) ops).1.active.length = ops.length ∧
      (∀ e ∈ ops.filterMap Op.entry, map_find (run (State.init mem) ops).1.active e.1 = some e.2) ∧
      (m61_print_leak_report (run (State.init mem) ops).1).length = ops.length ∧
      (∀ e ∈ ops.filterMap Op.entry,
        leak_line e ∈ m61_print_leak_report (run (State.init mem) ops).1)) ∧
    (∀ ops : List Op, admissible fresh_key (State.init mem) ops = true →
      (run (State.init mem) ops).1.active = outstanding (State.init mem) [] ops ∧
      m61_print_leak_report (run (State.init mem) ops).1 =
        (outstanding (State.init mem) [] ops).map leak_line) := by
  refine ⟨fun s => ⟨rfl, by simp [m61_print_leak_report]⟩, ?_, ?_⟩
  · intro ops hall hnd
    obtain ⟨h1, h2⟩ := run_of_allocations (State.init mem) ops hall hnd
      (fun e _ => by simp [State.init, map_find])
    have hact : (run (State.init mem) ops).1.active = (ops.filterMap Op.entry).reverse := by
      rw [h1]
      simp [State.init]
    have hkeys : ((run (State.init mem) ops).1.active.map Prod.fst).Nodup := by
      rw [hact, List.map_reverse]
      exact List.nodup_reverse.2 hnd
    have hlen : (run (State.init mem) ops).1.active.length = ops.length := by
      rw [hact, List.length_reverse, h2]
    refine ⟨hlen, ?_, ?_, ?_⟩
    · intro e he
      apply map_find_of_mem _ _ _ hkeys
      rw [hact]
      exact List.mem_reverse.2 he
    · rw [m61_print_leak_report_eq, List.length_map, hlen]
    · intro e he
      rw [m61_print_leak_report_eq, hact]
      exact List.mem_map_of_mem leak_line (List.mem_reverse.2 he)
  · intro ops hadm
    have h := run_active_outstanding (State.init mem) ops hadm
    have h' : (run (State.init mem) ops).1.active = outstanding (State.init mem) [] ops := h
    exact ⟨h', by rw [m61_print_leak_report_eq, h']⟩

/-- Witness for C13: two allocations at 4096 and 8192 give a report of two
lines; after the first is freed, only the second is outstanding. -/
theorem leak_report_complete_witness :
    (m61_print_leak_report (run (State.init (fun _ => 0))
      [Op.malloc 32 "t.cc" 6 (fun _ => 4096), Op.malloc 48 "t.cc" 8 (fun _ => 8192)]).1).length = 2 ∧
    map_find (run (State.init (fun _ => 0))
      [Op.malloc 32 "t.cc" 6 (fun _ => 4096), Op.malloc 48 "t.cc" 8 (fun _ => 8192)]).1.active
      8192 = some { size := 48, file := "t.cc", line := 8 } ∧
    m61_print_leak_report (run (State.init (fun _ => 0))
      [Op.malloc 32 "t.cc" 6 (fun _ => 4096), Op.malloc 48 "t.cc" 8 (fun _ => 8192),
       Op.free 4096 "t.cc" 11]).1 =
      [Event.printf FMT_LEAK [Arg.str "t.cc", Arg.long 8, Arg.ptr 8192, Arg.zu 48]] := by
  have hb := (leak_report_complete (fun _ => 0)).2.1
    [Op.malloc 32 "t.cc" 6 (fun _ => 4096), Op.malloc 48 "t.cc" 8 (fun _ => 8192)]
    (by decide) (by decide)
  have hc := (leak_report_complete (fun _ => 0)).2.2
    [Op.malloc 32 "t.cc" 6 (fun _ => 4096), Op.malloc 48 "t.cc" 8 (fun _ => 8192),
     Op.free 4096 "t.cc" 11] (by decide)
  exact ⟨hb.2.2.1, hb.2.1 (8192, { size := 48, file := "t.cc", line := 8 }) (by decide),
    hc.2.trans (by decide)⟩

/-! ## Live blocks and freed addresses lie within the heap bounds -/

theorem mem_map_assign (m : List (Nat × alloc_info)) (k : Nat) (v : alloc_info)
    (kv : Nat × alloc_info) (h : kv ∈ map_assign m k v) : kv = (k, v) ∨ kv ∈ m := by
  unfold map_assign at h
  cases hf : map_find m k with
  | none =>
    rw [hf] at h
    exact List.mem_cons.1 h
  | some v0 =>
    rw [hf] at h
    obtain ⟨kv0, hkv0, he⟩ := List.mem_map.1 h
    split_ifs at he
    · exact Or.inl he.symm
    · exact Or.inr (he ▸ hkv0)

theorem in_address_space_of_request (s : State) (op : Op) (sz : Nat) (bm : Nat → Nat)
    (hr : op.request = some (sz, bm)) (hp : bm (raw_size sz) ≠ 0)
    (hw : in_address_space s op = true) : bm (raw_size sz) + raw_size sz ≤ WORD := by
  simp only [in_address_space, hr, Bool.or_eq_true, decide_eq_true_eq] at hw
  rcases hw with h | h
  · exact absurd h hp
  · exact h

theorem live_in_heap_init (mem : Nat → Nat) : live_in_heap (State.init mem) := by
  intro kv hkv
  simp [State.init] at hkv

theorem live_in_heap_step (s : State) (op : Op) (h : live_in_heap s)
    (hw : in_address_space s op = true) : live_in_heap (step s op).1 := by
  unfold live_in_heap
  rcases step_cases s op with ⟨⟨ha, _, nf, fs, hg⟩, _⟩ |
      ⟨sz, bm, file, line, hr, hp, ha, _, hg, _⟩ |
      ⟨ptr, file, line, info, _, _, _, _, _, hs, _⟩
  · rw [ha, hg]
    exact h
  · have hfit := in_address_space_of_request s op sz bm hr hp hw
    have hrs := (raw_size_ge sz).1
    intro kv hkv
    rw [ha] at hkv
    simp only [malloc_success_state] at hkv
    rcases mem_map_assign _ _ _ _ hkv with rfl | hold
    · refine ⟨hp, fun hsz => ?_⟩
      rw [hg]
      simp only [malloc_success_state]
      exact update_heap_bounds_covers _ _ _ hp hsz (by omega)
    · refine ⟨(h kv hold).1, fun hsz => ?_⟩
      obtain ⟨b1, b2, b3⟩ := (h kv hold).2 hsz
      have hwd := step_bounds_widen s op b1
      exact ⟨hwd.1, le_trans hwd.2.1 b2, le_trans b3 hwd.2.2⟩
  · obtain ⟨b1, b2⟩ := release_state_bounds s ptr info.size
    rw [hs, b1, b2]
    intro kv hkv
    simp only [release_state] at hkv
    exact h kv ((mem_map_erase _ _ _).1 hkv).1

theorem live_in_heap_run (mem : Nat → Nat) (ops : List Op)
    (h : admissible in_address_space (State.init mem) ops = true) :
    live_in_heap (run (State.init mem) ops).1 :=
  run_preserves_of_admissible in_address_space live_in_heap live_in_heap_step _ ops
    (live_in_heap_init mem) h

theorem freed_not_live_run (mem : Nat → Nat) (ops : List Op) :
    freed_not_live (run (State.init mem) ops).1 :=
  run_preserves freed_not_live freed_not_live_step _ ops (freed_not_live_init mem)

/-- C19: in every state reached while `base_malloc` answers null or a raw
block inside the 64-bit address space, every ledger record of size `s >= 1`
and base `B` has `heap_min != 0`, `heap_min <= B` and `B + s - 1 <= heap_max`,
and every member of the freed-address set lies within `[heap_min, heap_max]`.
Hence `m61_free` of the base of a live block of non-zero size is a validated
release (never "not in heap"), and `m61_free` of a member of the freed set is
reported as a double free (never "not in heap"). -/
theorem live_and_freed_within_heap_bounds (mem : Nat → Nat) (ops : List Op)
    (hadm : admissible in_address_space (State.init mem) ops = true) :
    (∀ kv ∈ (run (State.init mem) ops).1.active, 1 ≤ kv.2.size →
      (run (State.init mem) ops).1.gstats.heap_min ≠ 0 ∧
      (run (State.init mem) ops).1.gstats.heap_min ≤ kv.1 ∧
      kv.1 + kv.2.size - 1 ≤ (run (State.init mem) ops).1.gstats.heap_max) ∧
    (∀ a ∈ (run (State.init mem) ops).1.freed_bases,
      (run (State.init mem) ops).1.gstats.heap_min ≠ 0 ∧
      (run (State.init mem) ops).1.gstats.heap_min ≤ a ∧
      a ≤ (run (State.init mem) ops).1.gstats.heap_max) ∧
    (∀ (B : Nat) (info : alloc_info) (file : String) (line : Int),
      map_find (run (State.init mem) ops).1.active B = some info → 1 ≤ info.size →
      (m61_free (run (State.init mem) ops).1 B file line).2 =
        (if fence_ok (run (State.init mem) ops).1.mem (B + info.size) then []
         else [Event.fprintf_stderr FMT_WILD_WRITE [Arg.ptr B]]) ++ [Event.base_free B]) ∧
    (∀ (a : Nat) (file : String) (line : Int),
      a ∈ (run (State.init mem) ops).1.freed_bases →
      (m61_free (run (State.init mem) ops).1 a file line).2 =
        [Event.fprintf_stderr FMT_DOUBLE_FREE [Arg.str file, Arg.long line, Arg.ptr a]]) := by
  have hlive := live_in_heap_run mem ops hadm
  have hfreed := freed_in_heap_run mem ops
  have hdis := freed_not_live_run mem ops
  refine ⟨fun kv hkv => (hlive kv hkv).2, ?_, ?_, ?_⟩
  · intro a ha
    have := (hfreed a ha).2
    unfold not_in_heap at this
    omega
  · intro B info file line hm hsz
    have hB0 : B ≠ 0 := (hlive _ (map_find_some_mem _ _ _ hm)).1
    obtain ⟨b1, b2, b3⟩ := (hlive _ (map_find_some_mem _ _ _ hm)).2 hsz
    dsimp only at b2 b3
    have hin : ¬ not_in_heap (run (State.init mem) ops).1 B := by
      unfold not_in_heap
      omega
    have hnf : B ∉ (run (State.init mem) ops).1.freed_bases := by
      intro hmem
      have := hdis B hmem
      rw [hm] at this
      exact absurd this (by simp)
    rw [m61_free_of_live _ B file line info hB0 hin hnf hm]
  · intro a file line ha
    obtain ⟨h0, hin⟩ := hfreed a ha
    rw [m61_free_of_freed _ a file line h0 hin ha]

/-- Witness for C19: after `malloc(32)` at 4096, `malloc(48)` at 8192 and
`free(4096)`, the block at 8192 is within the bounds and its free is a
validated release; 4096 is within the bounds and its free a double free. -/
theorem live_and_freed_within_heap_bounds_witness :
    (m61_free (run (State.init (fun _ => 0))
      [Op.malloc 32 "t.cc" 6 (fun _ => 4096), Op.malloc 48 "t.cc" 8 (fun _ => 8192),
       Op.free 4096 "t.cc" 11]).1 8192 "t.cc" 12).2 = [Event.base_free 8192] ∧
    (m61_free (run (State.init (fun _ => 0))
      [Op.malloc 32 "t.cc" 6 (fun _ => 4096), Op.malloc 48 "t.cc" 8 (fun _ => 8192),
       Op.free 4096 "t.cc" 11]).1 4096 "t.cc" 12).2 =
      [Event.fprintf_stderr FMT_DOUBLE_FREE [Arg.str "t.cc", Arg.long 12, Arg.ptr 4096]] := by
  have h := live_and_freed_within_heap_bounds (fun _ => 0)
    [Op.malloc 32 "t.cc" 6 (fun _ => 4096), Op.malloc 48 "t.cc" 8 (fun _ => 8192),
     Op.free 4096 "t.cc" 11] (by decide)
  exact ⟨(h.2.2.1 8192 { size := 48, file := "t.cc", line := 8 } "t.cc" 12 (by decide)
      (by decide)).trans (by decide),
    h.2.2.2 4096 "t.cc" 12 (by decide)⟩

/-! ## Determinism of the interior scan -/

theorem interior_scan_of_unique (a : Nat) (l : List (Nat × alloc_info)) (r : Nat × alloc_info)
    (hr : r ∈ l) (ht : scan_test a r) (hu : ∀ r' ∈ l, scan_test a r' → r' = r) :
    interior_scan a l = some r := by
  cases hi : interior_scan a l with
  | none => exact absurd ht (interior_scan_none a l hi r hr)
  | some r' =>
    obtain ⟨h1, h2⟩ := interior_scan_some a l r' hi
    rw [hu r' h1 h2]

theorem interior_scan_perm (a : Nat) (l l' : List (Nat × alloc_info)) (hp : l'.Perm l)
    (hu : ∀ r1 ∈ l, ∀ r2 ∈ l, scan_test a r1 → scan_test a r2 → r1 = r2) :
    interior_scan a l' = interior_scan a l := by
  cases hi : interior_scan a l with
  | none =>
    cases hi' : interior_scan a l' with
    | none => rfl
    | some r' =>
      obtain ⟨h1, h2⟩ := interior_scan_some a l' r' hi'
      exact absurd h2 (interior_scan_none a l hi r' (hp.mem_iff.1 h1))
  | some r =>
    obtain ⟨h1, h2⟩ := interior_scan_some a l r hi
    apply interior_scan_of_unique a l' r (hp.mem_iff.2 h1) h2
    intro r' hr' ht'
    exact hu r' (hp.mem_iff.1 hr') r h1 ht' h2

theorem map_find_perm (l l' : List (Nat × alloc_info)) (hp : l'.Perm l)
    (hn : (l.map Prod.fst).Nodup) (k : Nat) : map_find l' k = map_find l k := by
  have hn' : (l'.map Prod.fst).Nodup := (hp.map Prod.fst).nodup_iff.2 hn
  cases h : map_find l k with
  | none =>
    rw [map_find_none_iff] at h ⊢
    intro kv hkv
    exact h kv (hp.mem_iff.1 hkv)
  | some v =>
    exact map_find_of_mem l' k v hn' (hp.mem_iff.2 (map_find_some_mem l k v h))

/-- With raw blocks inside the address space, the test of the scan on an
entry whose base is not `a` is the strict test of the specification. -/
theorem scan_test_iff_strict (a : Nat) (r : Nat × alloc_info)
    (hfit : r.1 + raw_size r.2.size ≤ WORD) (hne : r.1 ≠ a) :
    scan_test a r ↔ (r.1 < a ∧ a ≤ r.1 + r.2.size - 1) := by
  have hraw := (raw_size_ge r.2.size).1
  unfold scan_test
  by_cases hs : r.2.size = 0
  · rw [hs]
    constructor
    · rintro ⟨h, _⟩; exact absurd h (lt_irrefl 0)
    · rintro ⟨h1, h2⟩; omega
  · rw [Nat.mod_eq_of_lt (by omega)]
    constructor
    · rintro ⟨_, h1, h2⟩; omega
    · rintro ⟨h1, h2⟩; omega

theorem interior_scan_eq_strict (a : Nat) (l : List (Nat × alloc_info))
    (hfit : ∀ r ∈ l, r.1 + raw_size r.2.size ≤ WORD) (hne : ∀ r ∈ l, r.1 ≠ a) :
    interior_scan a l = interior_scan_strict a l := by
  induction l with
  | nil => rfl
  | cons c l ih =>
    obtain ⟨base, ai⟩ := c
    have ih' := ih (fun r hr => hfit r (List.mem_cons_of_mem _ hr))
      (fun r hr => hne r (List.mem_cons_of_mem _ hr))
    have hiff := scan_test_iff_strict a (base, ai) (hfit _ (List.mem_cons_self _ _))
      (hne _ (List.mem_cons_self _ _))
    unfold scan_test at hiff
    dsimp only at hiff
    simp only [interior_scan, interior_scan_strict]
    by_cases hstrict : base < a ∧ a ≤ base + ai.size - 1
    · obtain ⟨t1, t2, t3⟩ := hiff.2 hstrict
      rw [if_pos hstrict, if_pos t1, if_pos ⟨t2, t3⟩]
    · rw [if_neg hstrict, ← ih']
      by_cases t1 : ai.size > 0
      · rw [if_pos t1]
        have : ¬ (a ≥ base ∧ a ≤ (base + (ai.size - 1)) % WORD) :=
          fun h => hstrict (hiff.1 ⟨t1, h.1, h.2⟩)
        rw [if_neg this]
      · rw [if_neg t1]

/-- With disjoint raw blocks at most one ledger record passes the test of the
scan for a given address. -/
theorem scan_test_unique (s : State) (hs : blocks_ok s) (a : Nat)
    (r1 r2 : Nat × alloc_info) (h1 : r1 ∈ s.active) (h2 : r2 ∈ s.active)
    (t1 : scan_test a r1) (t2 : scan_test a r2) : r1 = r2 := by
  obtain ⟨hpw, hin, _, _, _⟩ := hs
  by_contra hne
  have hd := blocks_disjoint_of_mem s.active hpw r1 r2 h1 h2 hne
  have f1 := (hin r1 h1).2
  have f2 := (hin r2 h2).2
  have g1 := (raw_size_ge r1.2.size).1
  have g2 := (raw_size_ge r2.2.size).1
  unfold scan_test at t1 t2
  unfold raw_disjoint at hd
  rw [Nat.mod_eq_of_lt (by omega)] at t1 t2
  omega

/-- The trace of `m61_free` on the base of a live block never contains a line
of step 5 or step 6. -/
theorem live_base_not_scanned (s : State) (a : Nat) (info : alloc_info) (file : String)
    (line : Int) (hm : map_find s.active a = some info) (e : Event)
    (he : e ∈ (m61_free s a file line).2) (args : List Arg) :
    e ≠ Event.fprintf_stderr FMT_NOT_ALLOCATED args ∧
    e ≠ Event.fprintf_stderr FMT_INSIDE args ∧
    e ≠ Event.fprintf_stderr FMT_NOT_ALLOCATED_UNKNOWN args := by
  by_cases h0 : a = 0
  · subst h0
    rw [m61_free_null] at he
    simp at he
  by_cases hh : not_in_heap s a
  · rw [m61_free_of_not_in_heap s a file line h0 hh] at he
    simp only [List.mem_singleton] at he
    subst he
    refine ⟨?_, ?_, ?_⟩ <;> intro h <;> simp only [Event.fprintf_stderr.injEq] at h <;>
      exact absurd h.1 (by decide)
  by_cases hf : a ∈ s.freed_bases
  · rw [m61_free_of_freed s a file line h0 hh hf] at he
    simp only [List.mem_singleton] at he
    subst he
    refine ⟨?_, ?_, ?_⟩ <;> intro h <;> simp only [Event.fprintf_stderr.injEq] at h <;>
      exact absurd h.1 (by decide)
  rw [m61_free_of_live s a file line info h0 hh hf hm, mem_release_trace] at he
  rcases he with ⟨_, he⟩ | he
  · subst he
    refine ⟨?_, ?_, ?_⟩ <;> intro h <;> simp only [Event.fprintf_stderr.injEq] at h <;>
      exact absurd h.1 (by decide)
  · subst he
    refine ⟨?_, ?_, ?_⟩ <;> intro h <;> exact absurd h (by simp)

/-- The trace of `m61_free` does not depend on the iteration order of a ledger
with disjoint raw blocks. -/
theorem m61_free_order_independent (s : State) (hs : blocks_ok s) (l' : List (Nat × alloc_info))
    (hp : l'.Perm s.active) (a : Nat) (file : String) (line : Int) :
    (m61_free { s with active := l' } a file line).2 = (m61_free s a file line).2 := by
  have hnd := keys_nodup_of_disjoint s.active hs.1
  have hfind := map_find_perm s.active l' hp hnd a
  have hscan := interior_scan_perm a s.active l' hp
    (fun r1 h1 r2 h2 t1 t2 => scan_test_unique s hs a r1 r2 h1 h2 t1 t2)
  by_cases h0 : a = 0
  · subst h0
    rw [m61_free_null, m61_free_null]
  by_cases hh : not_in_heap s a
  · have hh' : not_in_heap { s with active := l' } a := hh
    rw [m61_free_of_not_in_heap s a file line h0 hh,
      m61_free_of_not_in_heap _ a file line h0 hh']
  have hh' : ¬ not_in_heap { s with active := l' } a := hh
  by_cases hf : a ∈ s.freed_bases
  · have hf' : a ∈ ({ s with active := l' } : State).freed_bases := hf
    rw [m61_free_of_freed s a file line h0 hh hf, m61_free_of_freed _ a file line h0 hh' hf']
  have hf' : a ∉ ({ s with active := l' } : State).freed_bases := hf
  cases hm : map_find s.active a with
  | some info =>
    have hm' : map_find ({ s with active := l' } : State).active a = some info := by
      rw [← hm]; exact hfind
    rw [m61_free_of_live s a file line info h0 hh hf hm,
      m61_free_of_live _ a file line info h0 hh' hf' hm']
  | none =>
    have hm' : map_find ({ s with active := l' } : State).active a = none := by
      rw [← hm]; exact hfind
    cases hi : interior_scan a s.active with
    | none =>
      have hi' : interior_scan a ({ s with active := l' } : State).active = none := by
        rw [← hi]; exact hscan
      rw [m61_free_of_unknown s a file line h0 hh hf hm hi,
        m61_free_of_unknown _ a file line h0 hh' hf' hm' hi']
    | some r =>
      obtain ⟨base, ai⟩ := r
      have hi' : interior_scan a ({ s with active := l' } : State).active = some (base, ai) := by
        rw [← hi]; exact hscan
      rw [m61_free_of_interior s a file line base ai h0 hh hf hm hi,
        m61_free_of_interior _ a file line base ai h0 hh' hf' hm' hi']

/-- C20: in every state reached with a well-behaved raw allocator (live raw
blocks pairwise disjoint and inside the address space), for every address `a`
at most one ledger record has `size > 0` and `base <= a <= base + size - 1`;
the interior scan, and the whole trace of `m61_free(a)`, are the same for
every iteration order of the ledger; when `a` is not a ledger key the test
`a >= base && a <= last` of the scan agrees on every record with the strict
test `base < a <= base + size - 1` and the scan finds the same record; and
when `a` is a ledger key `m61_free(a)` prints no line of step 5 or 6. -/
theorem interior_scan_deterministic (mem : Nat → Nat) (ops : List Op)
    (hadm : admissible well_behaved (State.init mem) ops = true) (a : Nat) :
    (∀ r1 ∈ (run (State.init mem) ops).1.active, ∀ r2 ∈ (run (State.init mem) ops).1.active,
      0 < r1.2.size → r1.1 ≤ a → a ≤ r1.1 + r1.2.size - 1 →
      0 < r2.2.size → r2.1 ≤ a → a ≤ r2.1 + r2.2.size - 1 → r1 = r2) ∧
    (∀ l' : List (Nat × alloc_info), l'.Perm (run (State.init mem) ops).1.active →
      interior_scan a l' = interior_scan a (run (State.init mem) ops).1.active ∧
      ∀ file line,
        (m61_free { (run (State.init mem) ops).1 with active := l' } a file line).2 =
          (m61_free (run (State.init mem) ops).1 a file line).2) ∧
    (map_find (run (State.init mem) ops).1.active a = none →
      (∀ r ∈ (run (State.init mem) ops).1.active,
        (0 < r.2.size ∧ r.1 ≤ a ∧ a ≤ (r.1 + (r.2.size - 1)) % WORD) ↔
          (r.1 < a ∧ a ≤ r.1 + r.2.size - 1)) ∧
      interior_scan a (run (State.init mem) ops).1.active =
        interior_scan_strict a (run (State.init mem) ops).1.active) ∧
    (∀ (info : alloc_info) (file : String) (line : Int),
      map_find (run (State.init mem) ops).1.active a = some info →
      ∀ e ∈ (m61_free (run (State.init mem) ops).1 a file line).2, ∀ args,
        e ≠ Event.fprintf_stderr FMT_NOT_ALLOCATED args ∧
        e ≠ Event.fprintf_stderr FMT_INSIDE args ∧
        e ≠ Event.fprintf_stderr FMT_NOT_ALLOCATED_UNKNOWN args) := by
  have hs := blocks_ok_run mem ops hadm
  have hfit : ∀ r ∈ (run (State.init mem) ops).1.active, r.1 + raw_size r.2.size ≤ WORD :=
    fun r hr => (hs.2.1 r hr).2
  refine ⟨?_, ?_, ?_, ?_⟩
  · intro r1 h1 r2 h2 a1 a2 a3 b1 b2 b3
    have g1 := (raw_size_ge r1.2.size).1
    have g2 := (raw_size_ge r2.2.size).1
    have f1 := hfit r1 h1
    have f2 := hfit r2 h2
    apply scan_test_unique _ hs a r1 r2 h1 h2
    · refine ⟨a1, a2, ?_⟩
      rw [Nat.mod_eq_of_lt (by omega)]
      omega
    · refine ⟨b1, b2, ?_⟩
      rw [Nat.mod_eq_of_lt (by omega)]
      omega
  · intro l' hp
    refine ⟨interior_scan_perm a _ l' hp
      (fun r1 h1 r2 h2 t1 t2 => scan_test_unique _ hs a r1 r2 h1 h2 t1 t2), ?_⟩
    intro file line
    exact m61_free_order_independent _ hs l' hp a file line
  · intro hm
    have hne := (map_find_none_iff _ _).1 hm
    exact ⟨fun r hr => scan_test_iff_strict a r (hfit r hr) (hne r hr),
      interior_scan_eq_strict a _ hfit hne⟩
  · intro info file line hm e he args
    exact live_base_not_scanned _ a info file line hm e he args

/-- Witness for C20: blocks of 32 bytes at 4096 and 48 bytes at 8192; the
address 8200 lies in the second block only, in either iteration order. -/
theorem interior_scan_deterministic_witness :
    interior_scan 8200
        [(4096, { size := 32, file := "t.cc", line := 6 }),
         (8192, { size := 48, file := "t.cc", line := 8 })] =
      interior_scan 8200 (run (State.init (fun _ => 0))
        [Op.malloc 32 "t.cc" 6 (fun _ => 4096), Op.malloc 48 "t.cc" 8 (fun _ => 8192)]).1.active ∧
    interior_scan 8200 (run (State.init (fun _ => 0))
        [Op.malloc 32 "t.cc" 6 (fun _ => 4096), Op.malloc 48 "t.cc" 8 (fun _ => 8192)]).1.active =
      interior_scan_strict 8200 (run (State.init (fun _ => 0))
        [Op.malloc 32 "t.cc" 6 (fun _ => 4096), Op.malloc 48 "t.cc" 8 (fun _ => 8192)]).1.active := by
  have h := interior_scan_deterministic (fun _ => 0)
    [Op.malloc 32 "t.cc" 6 (fun _ => 4096), Op.malloc 48 "t.cc" 8 (fun _ => 8192)]
    (by decide) 8200
  refine ⟨(h.2.1 _ ?_).1, (h.2.2.1 (by decide)).2⟩
  have e : (run (State.init (fun _ => 0))
      [Op.malloc 32 "t.cc" 6 (fun _ => 4096), Op.malloc 48 "t.cc" 8 (fun _ => 8192)]).1.active =
      [(8192, { size := 48, file := "t.cc", line := 8 }),
       (4096, { size := 32, file := "t.cc", line := 6 })] := by decide
  rw [e]
  exact List.Perm.swap _ _ _

end M61
